import Mathlib

/-!
# Bandai Namco reader protocol engine (`firmware/src/lib/bana.c`)

A shallow embedding of the frame synchronizer (`bana_feed`), the command
dispatcher (`handle_frame` and its handlers) and the response encoder
(`send_response`, `send_response_data`, `send_ack`), followed by theorems about
them.

Conventions of the embedding:
* a `uint8_t` is a `Nat` below 256; every store truncates with `% 256`;
* a `message_t` (`raw[128]`) is a map from index to byte; a store or a load at an
  index outside `raw` makes the operation fail (`none`);
* the response encoder is also given on flat memory (`send_response_flat`,
  `send_response_data_flat`), where an index past `raw[127]` reaches the bytes that
  follow the buffer, as in the compiled code; the two agree wherever the checked
  functions return;
* the byte sink installed by `bana_init` is a log of the bytes handed to
  `bana_putc`, oldest first;
* the NFC driver (`nfc.h`) is a parameter: each driver call receives the log of
  the earlier driver calls and returns its result;
* `DEBUG`/`printf` output is not modelled.
-/

namespace Bana

/-! ## Memory -/

/-- Bytes of a `message_t`, by index into `raw`. -/
abbrev Mem := Nat → Nat

/-- The value of `sizeof(message_t)`: the union is as large as `raw[128]`. -/
def RAW_SIZE : Nat := 128

/-- Memory after the byte store `raw[i] = v`. -/
def mset (m : Mem) (i v : Nat) : Mem := fun j => if j = i then v % 256 else m j

/-- Bounds-checked store `raw[i] = v`. -/
def wr (m : Mem) (i v : Nat) : Option Mem :=
  if i < RAW_SIZE then some (mset m i v) else none

/-- Bounds-checked load `raw[i]`. -/
def rd (m : Mem) (i : Nat) : Option Nat :=
  if i < RAW_SIZE then some (m i) else none

/-- Memory after copying `data` to `raw[off ..]`. -/
def mcopy (m : Mem) (off : Nat) (data : List Nat) : Mem :=
  fun j => if off ≤ j ∧ j < off + data.length then data.getD (j - off) 0 % 256 else m j

/-- Bounds-checked `memcpy(raw + off, data, len)` with `len` the length of `data`. -/
def memcpy (m : Mem) (off : Nat) (data : List Nat) : Option Mem :=
  if off + data.length ≤ RAW_SIZE then some (mcopy m off data) else none

/-- The `raw` array as a list of its `RAW_SIZE` bytes. -/
def raw_bytes (m : Mem) : List Nat := (List.range RAW_SIZE).map m

/-- The list `l` cut or zero-padded to exactly `n` bytes (a fixed-size byte array). -/
def bytesN (n : Nat) (l : List Nat) : List Nat := (List.range n).map (fun i => l.getD i 0 % 256)

/-! ## NFC driver interface (`nfc.h`, consumed) -/

/-- Card types the dispatcher distinguishes; any other driver value is `NFC_CARD_OTHER`. -/
inductive nfc_card_type where
  | NFC_CARD_NONE
  | NFC_CARD_MIFARE
  | NFC_CARD_FELICA
  | NFC_CARD_OTHER (code : Nat)
deriving DecidableEq, Repr

/-- The fields of `nfc_card_t` that `cmd_poll_card` reads. -/
structure nfc_card_t where
  card_type : nfc_card_type
  uid : List Nat
  pmm : List Nat
  syscode : List Nat
deriving DecidableEq, Repr

/-- One call into the NFC driver, with its arguments. -/
inductive NfcCall where
  | rf_field (enable : Bool)
  | detect_card_ex (mifare felica vicinity : Bool)
  | mifare_auth (uid : List Nat) (block key_id : Nat) (key : List Nat)
  | mifare_read (block : Nat)
  | felica_read (service block : Nat)
  | nfc_select
  | nfc_deselect
deriving DecidableEq, Repr

/-- Results of the driver. Each operation sees the earlier calls, so its answers may
change over time. `mifare_read` gives the 16 bytes it wrote on success. `felica_read`
gives its return value and the content of the 16-byte destination slot after the call. -/
structure Nfc where
  detect_card_ex : List NfcCall → Bool → Bool → Bool → nfc_card_t
  mifare_auth : List NfcCall → List Nat → Nat → Nat → List Nat → Bool
  mifare_read : List NfcCall → Nat → Option (List Nat)
  felica_read : List NfcCall → Nat → Nat → Bool × List Nat

/-! ## Program state -/

/-- Observation of one `handle_frame` invocation: `request.raw`, `frame_len` and the
count of bytes stored since `frame_len` was last 0, all at the moment of the call. -/
structure Dispatch where
  request : Mem
  frame_len : Nat
  fed : Nat

/-- The globals of `bana.c`, the sink log, the driver call log, and two observation
fields (`dispatched`, `fed`) that the code does not read. -/
structure State where
  /-- Bytes of `request.raw`. -/
  request : Mem
  /-- Bytes of `response.raw`. -/
  response : Mem
  /-- Field `req_ctx_bana.frame_len` (`uint8_t`). -/
  frame_len : Nat
  /-- Field `req_ctx_bana.time` (`uint32_t`). -/
  time : Nat
  /-- Global `expire_time` (`uint64_t`). -/
  expire_time : Nat
  /-- Bytes handed to `bana_putc`, oldest first. -/
  out : List Nat
  /-- Calls made into the NFC driver, oldest first. -/
  calls : List NfcCall
  /-- Observation: the `handle_frame` invocations so far, oldest first. -/
  dispatched : List Dispatch
  /-- Observation: number of bytes stored since `frame_len` was last set to 0. -/
  fed : Nat

/-- Zero-initialised statics. -/
def init : State :=
  { request := fun _ => 0, response := fun _ => 0, frame_len := 0, time := 0,
    expire_time := 0, out := [], calls := [], dispatched := [], fed := 0 }

/-! ## Response encoder -/

/-- The loop of `bana_puts`: hands `str[0 .. len)` to the sink. -/
def bana_puts (out : List Nat) (str : List Nat) (len : Nat) : Option (List Nat) :=
  if len ≤ str.length then some (out ++ str.take len) else none

/-- The checksum loop of `send_response` after `n` iterations:
`checksum = 0xff; for i < n: checksum += raw[5 + i]` in `uint8_t`. -/
def checksum_loop (raw : Mem) : Nat → Option Nat
  | 0 => some 0xff
  | n + 1 => do
    let c ← checksum_loop raw n
    let b ← rd raw (5 + n)
    pure ((c + b) % 256)

/-- Function `send_response`. -/
def send_response (s : State) : Option State := do
  let checksum : Nat ← checksum_loop s.response (s.response 3)
  let r1 : Mem ← memcpy s.response 0 [0x00, 0x00, 0xff]
  let r2 : Mem ← wr r1 4 ((255 - r1 3) + 1)
  let r3 : Mem ← wr r2 (5 + r2 3) (255 - checksum)
  let r4 : Mem ← wr r3 (6 + r3 3) 0
  let total_len := 7 + r4 3
  let out : List Nat ← bana_puts s.out (raw_bytes r4) total_len
  pure { s with response := r4, out := out }

/-- Function `send_response_data(data, len)`, `len` being the length of `data`. -/
def send_response_data (s : State) (data : List Nat) : Option State := do
  let r1 : Mem ← wr s.response 3 (2 + data.length)
  let r2 : Mem ← wr r1 5 0xd5
  let r3 : Mem ← wr r2 6 (s.request 6 + 1)
  let r4 : Mem ← if data.length ≠ 0 then memcpy r3 7 data else some r3
  send_response { s with response := r4 }

/-- Function `send_simple_response`. -/
def send_simple_response (s : State) : Option State :=
  send_response_data s []

/-- Function `send_ack`. -/
def send_ack (s : State) : Option State := do
  let out : List Nat ← bana_puts s.out [0x00, 0x00, 0xff, 0x00, 0xff, 0x00] 6
  pure { s with out := out }


/-! ## Response encoder on flat memory -/

/-- The checksum loop of `send_response` with `response.raw` indexed as the compiled code
does it, without a bounds check. -/
def checksum_loop_flat (raw : Mem) : Nat → Nat
  | 0 => 0xff
  | n + 1 => (checksum_loop_flat raw n + raw (5 + n)) % 256

/-- Function `send_response` as the compiled code runs it: `response.raw` is indexed
without a bounds check, so an index above 127 reaches the bytes that follow `response`
in memory, and `bana_puts` reads `total_len` bytes from the start of `response.raw`. The
map `s.response` stands for `response.raw` and the bytes after it; which variables lie
there is not modelled. -/
def send_response_flat (s : State) : State :=
  let checksum : Nat := checksum_loop_flat s.response (s.response 3)
  let r1 : Mem := mcopy s.response 0 [0x00, 0x00, 0xff]
  let r2 : Mem := mset r1 4 ((255 - r1 3) + 1)
  let r3 : Mem := mset r2 (5 + r2 3) (255 - checksum)
  let r4 : Mem := mset r3 (6 + r3 3) 0
  let total_len := 7 + r4 3
  { s with response := r4, out := s.out ++ (List.range total_len).map r4 }

/-- Function `send_response_data(data, len)` as the compiled code runs it, `len` being
the length of `data`: as `send_response_data`, without bounds checks. -/
def send_response_data_flat (s : State) (data : List Nat) : State :=
  let r1 : Mem := mset s.response 3 (2 + data.length)
  let r2 : Mem := mset r1 5 0xd5
  let r3 : Mem := mset r2 6 (s.request 6 + 1)
  let r4 : Mem := if data.length ≠ 0 then mcopy r3 7 data else r3
  send_response_flat { s with response := r4 }


/-! ## Command handlers -/

/-- Appends a driver call to the call log. -/
def log_call (s : State) (c : NfcCall) : State := { s with calls := s.calls ++ [c] }

/-- Function `cmd_gpio`: the three branches on `request.data[0]` are empty. -/
def cmd_gpio (s : State) : Option State :=
  send_simple_response s

/-- Function `cmd_rf_field`: `memcmp(request.data, "\x01\x00", 2) == 0` selects the field
state handed to `nfc_rf_field`. -/
def cmd_rf_field (s : State) : Option State :=
  if s.request 7 = 0x01 ∧ s.request 8 = 0x00 then
    send_simple_response (log_call s (.rf_field false))
  else
    send_simple_response (log_call s (.rf_field true))

/-- Function `handle_mifare`: the first 10 bytes of the `card_report_t`. -/
def handle_mifare (s : State) (uid : List Nat) : Option State :=
  send_response_data s ([1, 1, 0x00, 0x04, 0x08, 0x04] ++ bytesN 4 uid)

/-- Function `handle_felica`: the whole 22-byte `card_report_t`. -/
def handle_felica (s : State) (idm pmm system_code : List Nat) : Option State :=
  send_response_data s ([1, 1, 0x14, 0x01] ++ bytesN 8 idm ++ bytesN 8 pmm ++ bytesN 2 system_code)

/-- Function `handle_no_card`. -/
def handle_no_card (s : State) : Option State :=
  send_response_data s [0x00, 0x00, 0x00]

/-- Function `cmd_poll_card`. The static `debug` is never set, so `display_card` is not
called. -/
def cmd_poll_card (nfc : Nfc) (s : State) : Option State :=
  let card := nfc.detect_card_ex s.calls true true false
  let s1 := log_call s (.detect_card_ex true true false)
  match card.card_type with
  | .NFC_CARD_MIFARE => handle_mifare s1 card.uid
  | .NFC_CARD_FELICA => handle_felica s1 card.uid card.pmm card.syscode
  | _ => handle_no_card s1

/-- Function `cmd_mifare_auth(key_id)`: `auth_t` overlays `request.data`, so `block` is
`data[2]`, `key` is `data[3 .. 9)` and `uid` is `data[9 .. 13)`. -/
def cmd_mifare_auth (nfc : Nfc) (s : State) (key_id : Nat) : Option State :=
  let uid := (List.range 4).map (fun i => s.request (7 + 9 + i))
  let block := s.request (7 + 2)
  let key := (List.range 6).map (fun i => s.request (7 + 3 + i))
  let ok := nfc.mifare_auth s.calls uid block key_id key
  let s1 := log_call s (.mifare_auth uid block key_id key)
  if ok then send_response_data s1 [0x00] else send_response_data s1 [0x01]

/-- Function `cmd_mifare_read`: `read_t` overlays `request.data`, so `block` is `data[2]`;
on success `resp` is the status byte 0 and the 16 data bytes. -/
def cmd_mifare_read (nfc : Nfc) (s : State) : Option State :=
  let block := s.request (7 + 2)
  let s1 := log_call s (.mifare_read block)
  match nfc.mifare_read s.calls block with
  | some d => send_response_data s1 (0 :: bytesN 16 d)
  | none => send_response_data s1 [0x14]

/-- Function `cmd_mifare`: switch on `request.data[1]`. -/
def cmd_mifare (nfc : Nfc) (s : State) : Option State :=
  if s.request 8 = 0x60 then cmd_mifare_auth nfc s 0
  else if s.request 8 = 0x61 then cmd_mifare_auth nfc s 1
  else if s.request 8 = 0x30 then cmd_mifare_read nfc s
  else send_ack s

/-- Function `cmd_select`: responds, then calls `nfc_select`. -/
def cmd_select (s : State) : Option State := do
  let s1 : State ← send_response_data s [0x00]
  pure (log_call s1 .nfc_select)

/-- Function `cmd_deselect`: calls `nfc_deselect`, then responds. -/
def cmd_deselect (s : State) : Option State :=
  send_response_data (log_call s .nfc_deselect) [0x01, 0x00]

/-- Function `cmd_release`. -/
def cmd_release (s : State) : Option State :=
  send_response_data s [0x01, 0x00]

/-- The read loop of `cmd_felica_read` after `n` iterations: the state and the block
slots `resp.block[0 .. n)` filled so far. Iteration `i` reads the big-endian block code
at `read->block[i]`, that is `request.raw[23 + 2 i]` and `request.raw[24 + 2 i]`. -/
def felica_blocks (nfc : Nfc) (service : Nat) : Nat → State → State × List Nat
  | 0, s => (s, [])
  | n + 1, s =>
    let (s1, slots) := felica_blocks nfc service n s
    let block := ((s1.request (23 + 2 * n) <<< 8) ||| s1.request (24 + 2 * n)) % 2 ^ 16
    let r := nfc.felica_read s1.calls service block
    (log_call s1 (.felica_read service block), slots ++ bytesN 16 r.2)

/-- Function `cmd_felica_read`: `read_t` overlays `request.data + 4`, so `idm` is
`request.raw[11 .. 19)`, `service` is `raw[20 .. 22)` and `block_num` is `raw[22]`. -/
def cmd_felica_read (nfc : Nfc) (s : State) : Option State :=
  let block_num := if s.request 22 > 4 then 4 else s.request 22
  let len := (2 + 8 + 2 + 1 + block_num * 16) % 256
  let idm := (List.range 8).map (fun i => s.request (11 + i))
  let service := (s.request 20 ||| (s.request 21 <<< 8)) % 2 ^ 16
  let (s1, slots) := felica_blocks nfc service block_num s
  send_response_data s1 ([0, len, 0x07] ++ idm ++ [0, 0] ++ [block_num % 256] ++ slots)

/-- Function `cmd_felica`: `felica_t` overlays `request.data`, so `len` is `data[2]` and
`cmd` is `data[3]`. The second operand of `&&` is the assignment
`felica->len = request.hdr.len - 2`, whose value is the byte stored. -/
def cmd_felica (nfc : Nfc) (s : State) : Option State :=
  if s.request 10 = 0x06 then
    let v := (s.request 3 + 256 - 2) % 256
    let s1 : State := { s with request := mset s.request 9 v }
    if v ≠ 0 then cmd_felica_read nfc s1 else some s1
  else some s

/-- Function `handle_frame`: switch on `request.cmd`, which is `request.raw[6]`. -/
def handle_frame (nfc : Nfc) (s : State) : Option State :=
  if s.request 6 = 0x18 ∨ s.request 6 = 0x12 then send_simple_response s
  else if s.request 6 = 0x0e then cmd_gpio s
  else if s.request 6 = 0x08 then send_response_data (log_call s (.rf_field false)) [0x00]
  else if s.request 6 = 0x06 then
    if s.request 8 = 0x1c then
      send_response_data s [0xff, 0x3f, 0x0e, 0xf1, 0xff, 0x3f, 0x0e, 0xf1]
    else
      send_response_data s [0xdc, 0xf4, 0x3f, 0x11, 0x4d, 0x85, 0x61, 0xf1, 0x26, 0x6a, 0x87]
  else if s.request 6 = 0x32 then cmd_rf_field s
  else if s.request 6 = 0x0c then send_response_data s [0x00, 0x06, 0x00]
  else if s.request 6 = 0x4a then cmd_poll_card nfc s
  else if s.request 6 = 0x40 then cmd_mifare nfc s
  else if s.request 6 = 0x44 then cmd_deselect s
  else if s.request 6 = 0xa0 then cmd_felica nfc s
  else if s.request 6 = 0x52 then cmd_release s
  else if s.request 6 = 0x54 then cmd_select s
  else send_ack s

/-! ## Frame synchronizer -/

/-- Constant `BANA_EXPIRE_TIME`. -/
def BANA_EXPIRE_TIME : Nat := 10000000

/-- Conversion of the `int` argument of `bana_feed` to the `uint8_t` stored. -/
def u8 (c : Int) : Nat := (c % 256).toNat

/-- The `uint32_t` difference `a - b`. -/
def sub32 (a b : Nat) : Nat := (a % 2 ^ 32 + 2 ^ 32 - b % 2 ^ 32) % 2 ^ 32

/-- Lines 410-415 of `bana_feed`: the staleness/overflow reset, then
`req_ctx_bana.time = now`. -/
def feed_reset (s : State) (now : Nat) : State :=
  let s1 : State :=
    if s.frame_len = RAW_SIZE ∨ sub32 now s.time > 100000 then
      { s with frame_len := 0, fed := 0 }
    else s
  { s1 with time := now }

/-- Lines 417-418 of `bana_feed`: `request.raw[frame_len] = c; frame_len++`. -/
def feed_store (s : State) (c : Int) : Option State := do
  let req : Mem ← wr s.request s.frame_len (u8 c)
  pure { s with request := req, frame_len := (s.frame_len + 1) % 256, fed := s.fed + 1 }

/-- Lines 420-421 of `bana_feed`: the wake-tone test. -/
def feed_wake (s : State) : State :=
  if s.frame_len = 1 ∧ s.request 0 = 0x55 then { s with frame_len := 0, fed := 0 } else s

/-- Lines 422-426 of `bana_feed`: the preamble test and the one-byte shift. -/
def feed_resync (s : State) : State :=
  if s.frame_len = 3 ∧ ¬ (s.request 0 = 0x00 ∧ s.request 1 = 0x00 ∧ s.request 2 = 0xff) then
    let r1 := mset s.request 0 (s.request 1)
    let r2 := mset r1 1 (r1 2)
    { s with request := r2, frame_len := s.frame_len - 1 }
  else s

/-- Lines 427-433 of `bana_feed`: the zero-length reset, else the completion test with the
call of `handle_frame`. -/
def feed_complete (nfc : Nfc) (s : State) (now64 : Nat) : Option State :=
  if s.frame_len = 6 ∧ s.request 3 = 0 then
    pure { s with frame_len := 0, fed := 0 }
  else if s.frame_len = s.request 3 + 7 then do
    let d : Dispatch := { request := s.request, frame_len := s.frame_len, fed := s.fed }
    let s1 : State ← handle_frame nfc { s with dispatched := s.dispatched ++ [d] }
    pure { s1 with
      frame_len := 0, fed := 0,
      expire_time := (now64 % 2 ^ 64 + BANA_EXPIRE_TIME) % 2 ^ 64 }
  else
    pure s

/-- Function `bana_feed(c)`. `now` is the microsecond clock when `time_us_32()` is called
at entry, of which `time_us_32()` returns the low 32 bits; `now64` is the clock when
`time_us_64()` is called on frame completion. The three `if` statements after the
store are separate statements (`} if (`), so each one runs on every call. -/
def bana_feed (nfc : Nfc) (s : State) (c : Int) (now now64 : Nat) : Option State := do
  let s1 : State ← feed_store (feed_reset s (now % 2 ^ 32)) c
  feed_complete nfc (feed_resync (feed_wake s1)) now64

/-- Function `bana_is_active`; `now64` is what `time_us_64()` returns. -/
def bana_is_active (s : State) (now64 : Nat) : Bool :=
  decide (now64 % 2 ^ 64 < s.expire_time)

/-- One call of `bana_feed`: the byte and the two clock readings of that call. -/
structure Input where
  c : Int
  now : Nat
  now64 : Nat
deriving DecidableEq, Repr

/-- Successive calls of `bana_feed`, one per input. -/
def feed_all (nfc : Nfc) : State → List Input → Option State
  | s, [] => some s
  | s, i :: rest => do
    let s1 : State ← bana_feed nfc s i.c i.now i.now64
    feed_all nfc s1 rest

/-- No call of `bana_feed` in the list comes more than 100 ms after the call before it,
as the code measures it; `t` is the clock reading of the call before the list. -/
def gaps_ok : Nat → List Input → Prop
  | _, [] => True
  | t, i :: rest => sub32 i.now t ≤ 100000 ∧ gaps_ok i.now rest

/-- Input bytes, all fed with the clock readings `now` and `now64`. -/
def at_time (now now64 : Nat) (bytes : List Nat) : List Input :=
  bytes.map (fun b => { c := (b : Int), now := now, now64 := now64 })

/-- A driver with no card in the field: detection finds nothing and every card
operation fails. -/
def no_card : Nfc :=
  { detect_card_ex := fun _ _ _ _ => ⟨.NFC_CARD_NONE, [], [], []⟩
    mifare_auth := fun _ _ _ _ _ => false
    mifare_read := fun _ _ => none
    felica_read := fun _ _ _ => (false, []) }

/-- The first 128 bytes of a frame whose length byte is 200, all fed at clock 0: the
preamble, the length byte and 124 bytes `07`. -/
def overlong : List Input :=
  at_time 0 0 ([0x00, 0x00, 0xff, 0xc8] ++ List.replicate 124 0x07)

/-- A driver with a Mifare card of UID `DE AD BE EF` in the field: authentication
succeeds and every block reads as the bytes `10 11 .. 1F`. -/
def mifare_present : Nfc :=
  { detect_card_ex := fun _ _ _ _ =>
      ⟨.NFC_CARD_MIFARE, [0xde, 0xad, 0xbe, 0xef, 0, 0, 0, 0], [], []⟩
    mifare_auth := fun _ _ _ _ _ => true
    mifare_read := fun _ _ =>
      some [0x10, 0x11, 0x12, 0x13, 0x14, 0x15, 0x16, 0x17, 0x18, 0x19, 0x1a, 0x1b, 0x1c, 0x1d,
        0x1e, 0x1f]
    felica_read := fun _ _ _ => (false, []) }

/-- A driver with a FeliCa card in the field. -/
def felica_present : Nfc :=
  { detect_card_ex := fun _ _ _ _ =>
      ⟨.NFC_CARD_FELICA, [0x01, 0x02, 0x03, 0x04, 0x05, 0x06, 0x07, 0x08],
        [0x11, 0x12, 0x13, 0x14, 0x15, 0x16, 0x17, 0x18], [0x88, 0xb4]⟩
    mifare_auth := fun _ _ _ _ _ => false
    mifare_read := fun _ _ => none
    felica_read := fun _ _ _ => (false, []) }

/-- The initial state with `request.raw` holding the bytes of `frame`, as when
`handle_frame` is called on it. -/
def holding (frame : List Nat) : State :=
  { init with
    request := fun j => frame.getD j 0, frame_len := frame.length, fed := frame.length }

/-- A driver with a FeliCa card whose blocks can be read: block `b` reads as 16 bytes
equal to the low byte of `b`. -/
def felica_readable : Nfc :=
  { detect_card_ex := fun _ _ _ _ =>
      ⟨.NFC_CARD_FELICA, [0x01, 0x02, 0x03, 0x04, 0x05, 0x06, 0x07, 0x08],
        [0x11, 0x12, 0x13, 0x14, 0x15, 0x16, 0x17, 0x18], [0x88, 0xb4]⟩
    mifare_auth := fun _ _ _ _ _ => false
    mifare_read := fun _ _ => none
    felica_read := fun _ _ b => (true, List.replicate 16 (b % 256)) }

/-- States the program reaches from its initial state. -/
inductive Reachable (nfc : Nfc) : State → Prop where
  | start : Reachable nfc init
  | feed (s s1 : State) (c : Int) (now now64 : Nat) :
      Reachable nfc s → bana_feed nfc s c now now64 = some s1 → Reachable nfc s1

/-! ## Definitions used in the statements -/

/-- The wire image of a response frame to request opcode `op` with payload `P`, as the
data model of the specification words it: preamble `00 00 FF`, length, length checksum,
direction `D5`, opcode `op + 1`, payload, checksum, postamble `00`. -/
def response_frame (op : Nat) (P : List Nat) : List Nat :=
  [0x00, 0x00, 0xff, P.length + 2, (256 - (P.length + 2)) % 256, 0xd5, (op + 1) % 256] ++ P ++
    [255 - (0xff + 0xd5 + (op + 1) % 256 + P.sum) % 256, 0x00]

/-- The memory `send_response_data` hands to `send_response`. -/
def staged (s : State) (data : List Nat) : Mem :=
  mcopy (mset (mset (mset s.response 3 (2 + data.length)) 5 0xd5) 6 (s.request 6 + 1)) 7 data

/-- The memory `send_response` leaves in `response.raw`. -/
def finished (m : Mem) (ck : Nat) : Mem :=
  mset (mset (mset (mcopy m 0 [0x00, 0x00, 0xff]) 4 (255 - m 3 + 1)) (5 + m 3) (255 - ck))
    (6 + m 3) 0

/-- The checksum `send_response` computes for a response to opcode `op` with payload `P`. -/
def body_sum (op : Nat) (P : List Nat) : Nat :=
  (0xff + 0xd5 + (op + 1) % 256 + P.sum) % 256

/-- The state after a call of `bana_feed` that only appends the byte `c`. -/
def appended (s : State) (c : Int) (now : Nat) : State :=
  { s with
    time := now % 2 ^ 32, request := mset s.request s.frame_len (u8 c),
    frame_len := s.frame_len + 1, fed := s.fed + 1 }

/-- The state after successive calls of `bana_feed` that only append. -/
def stored : State → List Input → State
  | s, [] => s
  | s, i :: rest => stored (appended s i.c i.now) rest

/-- Each input of the list, fed in turn from `s`, is appended and triggers nothing: the
buffer is not full, the byte is not late, it is no wake tone at position 0, it completes
the preamble at position 2, the length byte is not 0 at position 5, and the frame is not
complete. -/
def plain_ok : State → List Input → Prop
  | _, [] => True
  | s, i :: rest =>
    (s.frame_len < 128 ∧ sub32 i.now s.time ≤ 100000 ∧ (s.frame_len = 0 → u8 i.c ≠ 0x55) ∧
      (s.frame_len = 2 → s.request 0 = 0 ∧ s.request 1 = 0 ∧ u8 i.c = 0xff) ∧
      (s.frame_len = 5 → s.request 3 ≠ 0) ∧
      s.frame_len + 1 ≠ mset s.request s.frame_len (u8 i.c) 3 + 7) ∧
    plain_ok (appended s i.c i.now) rest

/-- The state `bana_feed` hands to `handle_frame` when the byte `c` completes a frame. -/
def arrived (s : State) (c : Int) (now : Nat) : State :=
  { appended s c now with
    dispatched := s.dispatched ++
      [{ request := mset s.request s.frame_len (u8 c), frame_len := s.frame_len + 1,
         fed := s.fed + 1 }] }

/-- The state `bana_feed` leaves once `handle_frame` has returned `s1`. -/
def completed (s1 : State) (now64 : Nat) : State :=
  { s1 with
    frame_len := 0, fed := 0, expire_time := (now64 % 2 ^ 64 + BANA_EXPIRE_TIME) % 2 ^ 64 }

/-- A well-framed dispatch record: the byte count is `length + 7`, it is at most the
number of bytes stored since the count was last 0 and at most the buffer size, the
buffer starts with `00 00 FF` and the length byte is not 0. -/
def Dispatch.ok (d : Dispatch) : Prop :=
  d.frame_len = d.request 3 + 7 ∧ d.frame_len ≤ d.fed ∧ d.frame_len ≤ RAW_SIZE ∧
    d.request 0 = 0x00 ∧ d.request 1 = 0x00 ∧ d.request 2 = 0xff ∧ d.request 3 ≠ 0

/-- Invariant of the parser state. -/
def wf (s : State) : Prop :=
  s.frame_len ≤ RAW_SIZE ∧ s.frame_len ≤ s.fed ∧ (s.frame_len = 0 → s.fed = 0) ∧
    (3 ≤ s.frame_len → s.request 0 = 0x00 ∧ s.request 1 = 0x00 ∧ s.request 2 = 0xff) ∧
    (6 ≤ s.frame_len → s.request 3 ≠ 0) ∧
    ∀ d ∈ s.dispatched, d.ok

/-- Feeding `l` from `s` ends in `T`, and after every prefix of `l` nothing has been
dispatched, sent, or asked of the NFC driver. -/
def quiet (nfc : Nfc) (s : State) (l : List Input) (T : State) : Prop :=
  feed_all nfc s l = some T ∧
    ∀ k, k ≤ l.length →
      ∃ sk, feed_all nfc s (l.take k) = some sk ∧ sk.dispatched = s.dispatched ∧
        sk.out = s.out ∧ sk.calls = s.calls

/-- The service code of a FeliCa read request: request payload bytes 13 and 14, low byte
first. -/
def service_code (s : State) : Nat := s.request 20 + s.request 21 * 256

/-- The code of block `i` of a FeliCa read request: request payload bytes `16 + 2 i` and
`17 + 2 i`, high byte first. -/
def block_code (s : State) (i : Nat) : Nat := s.request (23 + 2 * i) * 256 + s.request (24 + 2 * i)

/-- The FeliCa block reads for blocks `0 .. n - 1` of the request, in request order. -/
def read_calls (s : State) (n : Nat) : List NfcCall :=
  (List.range n).map (fun i => NfcCall.felica_read (service_code s) (block_code s i))

/-- The handler ran `send_response_data` exactly once, on a payload `data` of at most 78
bytes, from a state `t` with the sink log and the opcode of `s`; `s1` has the sink log
and the response buffer that call left. -/
def Responds (s s1 : State) : Prop :=
  ∃ t data s2, data.length ≤ 78 ∧ t.out = s.out ∧ t.request 6 = s.request 6 ∧
    send_response_data t data = some s2 ∧ s1.out = s2.out ∧ s1.response = s2.response

/-- What `handle_frame` did on `s`, ending in `s1`: sent nothing (opcode `A0` only), sent
the bare ACK, or responded once. -/
def Outcome (s s1 : State) : Prop :=
  (s1.out = s.out ∧ s1.response = s.response ∧ s.request 6 = 0xa0) ∨
    (s1.out = s.out ++ [0x00, 0x00, 0xff, 0x00, 0xff, 0x00] ∧ s1.response = s.response) ∨
    Responds s s1

/-- The parser and observation fields of `s1` are those of `s`. -/
def keeps (s s1 : State) : Prop :=
  s1.frame_len = s.frame_len ∧ s1.time = s.time ∧ s1.expire_time = s.expire_time ∧
    s1.dispatched = s.dispatched ∧ s1.fed = s.fed

/-! ## Lemmas on the response encoder -/

theorem mcopy_nil (m : Mem) (off : Nat) : mcopy m off [] = m := by
  funext j
  simp [mcopy]

theorem bytesN_length (n : Nat) (l : List Nat) : (bytesN n l).length = n := by
  simp [bytesN]

theorem bytesN_self (l : List Nat) : bytesN l.length l = l.map (· % 256) := by
  apply List.ext_getElem
  · simp [bytesN]
  · intro i h1 h2
    simp only [bytesN, List.length_map, List.length_range] at h1
    simp [bytesN, List.getD_eq_getElem, h1]

theorem map_mod_of_lt (l : List Nat) (h : ∀ b ∈ l, b < 256) : l.map (· % 256) = l := by
  induction l with
  | nil => rfl
  | cons a t ih =>
    have ha : a < 256 := h a (List.mem_cons_self a t)
    have ht : ∀ b ∈ t, b < 256 := fun b hb => h b (List.mem_cons_of_mem a hb)
    simp [ih ht, Nat.mod_eq_of_lt ha]

theorem checksum_loop_eq (m : Mem) (n : Nat) (h : 5 + n ≤ 128) :
    checksum_loop m n = some ((0xff + ((List.range n).map (fun i => m (5 + i))).sum) % 256) := by
  induction n with
  | zero => simp [checksum_loop]
  | succ k ih =>
    have hk : 5 + k < 128 := by omega
    simp [checksum_loop, ih (by omega), rd, RAW_SIZE, hk, List.range_succ, List.sum_append]
    omega

theorem staged_body (s : State) (data : List Nat) :
    (List.range (2 + data.length)).map (fun i => staged s data (5 + i)) =
      [0xd5, (s.request 6 + 1) % 256] ++ data.map (· % 256) := by
  rw [List.range_add, List.map_append, ← bytesN_self]
  congr 1
  simp only [List.map_map, bytesN]
  apply List.map_congr_left
  intro i hi
  have hi2 : i < data.length := List.mem_range.mp hi
  have h1 : 7 ≤ 5 + (2 + i) := by omega
  have h2 : 5 + (2 + i) < 7 + data.length := by omega
  have h3 : 5 + (2 + i) - 7 = i := by omega
  simp [staged, mcopy, h1, h2, h3]

theorem staged_len (s : State) (data : List Nat) (h : data.length ≤ 119) :
    staged s data 3 = data.length + 2 := by
  have h1 : (2 + data.length) % 256 = data.length + 2 := by omega
  simp [staged, mcopy, mset, h1]

theorem finished_wire (s : State) (data : List Nat) (ck : Nat) (h : data.length ≤ 119) :
    (raw_bytes (finished (staged s data) ck)).take (7 + (data.length + 2)) =
      [0x00, 0x00, 0xff, data.length + 2, (256 - (data.length + 2)) % 256, 0xd5,
        (s.request 6 + 1) % 256] ++ data.map (· % 256) ++ [(255 - ck) % 256, 0x00] := by
  have hlen := staged_len s data h
  have hmin : min (7 + (data.length + 2)) 128 = 7 + data.length + 2 := by omega
  have e1 : (2 + data.length) % 256 = data.length + 2 := by omega
  rw [raw_bytes, ← List.map_take, List.take_range, RAW_SIZE, hmin, List.range_add,
    List.range_add, List.map_append, List.map_append, ← bytesN_self]
  congr 1
  · congr 1
    · simp only [finished, hlen]
      simp only [List.range_succ, List.range_zero, List.nil_append, List.map_append,
        List.map_cons, List.map_nil, List.cons_append, mset, mcopy, staged, e1,
        List.length_cons, List.length_nil]
      simp
      refine ⟨?_, ?_, ?_, ?_, ?_, ?_, ?_⟩ <;> intros <;> (try split_ifs) <;> omega
    · simp only [List.map_map, bytesN]
      apply List.map_congr_left
      intro i hi
      have hi2 : i < data.length := List.mem_range.mp hi
      have h1 : 7 + i ≠ 6 + (data.length + 2) := by omega
      have h2 : 7 + i ≠ 5 + (data.length + 2) := by omega
      have h3 : 7 + i ≠ 4 := by omega
      have h4 : ¬ (7 + i < 0 + 3) := by omega
      have h5 : 7 + i < 7 + data.length := by omega
      simp only [finished, hlen]
      simp [mset, mcopy, staged, h1, h2, h3, h4, h5]
  · have h1 : 7 + data.length + 1 = 6 + (data.length + 2) := by omega
    have h2 : 7 + data.length ≠ 6 + (data.length + 2) := by omega
    have h3 : 7 + data.length = 5 + (data.length + 2) := by omega
    simp only [finished, hlen]
    simp only [List.range_succ, List.range_zero, List.nil_append, List.map_append,
        List.map_cons, List.map_nil, List.cons_append, mset, Nat.add_zero, h1, h2, h3]
    simp
    intro hne
    omega

theorem send_response_staged (s : State) (data : List Nat) (h : data.length ≤ 119) :
    send_response { s with response := staged s data } =
      some { s with
        response := finished (staged s data) (body_sum (s.request 6) (data.map (· % 256)))
        out := s.out ++ response_frame (s.request 6) (data.map (· % 256)) } := by
  have hlen := staged_len s data h
  have hck := checksum_loop_eq (staged s data) (data.length + 2) (by omega)
  have hbody := staged_body s data
  have e : data.length + 2 = 2 + data.length := by omega
  rw [e, hbody] at hck
  have hw := finished_wire s data (body_sum (s.request 6) (data.map (· % 256))) h
  have hlt : body_sum (s.request 6) (data.map (· % 256)) < 256 := Nat.mod_lt _ (by decide)
  have hsum : (255 + (213 + ((s.request 6 + 1) % 256 + (data.map (· % 256)).sum))) % 256 =
      body_sum (s.request 6) (data.map (· % 256)) := by
    simp only [body_sum]
    congr 1
    omega
  have c1 : mcopy (staged s data) 0 [0x00, 0x00, 0xff] 3 = data.length + 2 := by
    simp [mcopy, hlen]
  have c2 : ∀ v, mset (mcopy (staged s data) 0 [0x00, 0x00, 0xff]) 4 v 3 = data.length + 2 := by
    intro v
    simp [mset, c1]
  have c3 : ∀ v w, mset (mset (mcopy (staged s data) 0 [0x00, 0x00, 0xff]) 4 v)
      (5 + (data.length + 2)) w 3 = data.length + 2 := by
    intro v w
    have h1 : 3 ≠ 5 + (data.length + 2) := by omega
    simp only [mset, if_neg h1]
    exact c2 v
  have c4 : ∀ v w x, mset (mset (mset (mcopy (staged s data) 0 [0x00, 0x00, 0xff]) 4 v)
      (5 + (data.length + 2)) w) (6 + (data.length + 2)) x 3 = data.length + 2 := by
    intro v w x
    have h1 : 3 ≠ 6 + (data.length + 2) := by omega
    simp only [mset, if_neg h1]
    exact c3 v w
  have b1 : 5 + (data.length + 2) < 128 := by omega
  have b2 : 6 + (data.length + 2) < 128 := by omega
  have b3 : 7 + (data.length + 2) ≤ (raw_bytes (finished (staged s data)
      (body_sum (s.request 6) (data.map (· % 256))))).length := by
    simp [raw_bytes, RAW_SIZE]
    omega
  simp only [send_response, hlen, e, hck]
  simp only [List.cons_append, List.nil_append, List.sum_cons, hsum, memcpy, RAW_SIZE, wr]
  simp [c1, c2, c3, c4, b1, b2]
  have e3 : 255 - (data.length + 2) + 1 = 253 - data.length + 1 := by omega
  have hfin : finished (staged s data) (body_sum (s.request 6) (data.map (· % 256))) =
      mset (mset (mset (mcopy (staged s data) 0 [0, 0, 255]) 4 (253 - data.length + 1))
        (5 + (data.length + 2)) (255 - body_sum (s.request 6) (data.map (· % 256))))
        (6 + (data.length + 2)) 0 := by
    simp only [finished, hlen, e3]
  have e4 : (255 - body_sum (s.request 6) (data.map (· % 256))) % 256 =
      255 - body_sum (s.request 6) (data.map (· % 256)) := by omega
  rw [← hfin, bana_puts, if_pos b3, hw, e4]
  simp [response_frame, body_sum]

theorem send_response_data_eq (s : State) (data : List Nat) (h : data.length ≤ 119) :
    send_response_data s data =
      some { s with
        response := finished (staged s data) (body_sum (s.request 6) (data.map (· % 256)))
        out := s.out ++ response_frame (s.request 6) (data.map (· % 256)) } := by
  rw [← send_response_staged s data h]
  have hb : 7 + data.length ≤ 128 := by omega
  by_cases hd : data.length = 0
  · have hnil : data = [] := List.length_eq_zero.mp hd
    subst hnil
    simp [send_response_data, wr, RAW_SIZE, staged, mcopy_nil]
  · simp [send_response_data, wr, RAW_SIZE, staged, memcpy, hd, hb]

/-- The response bytes when the payload consists of bytes. -/
theorem send_response_data_out (s : State) (P : List Nat) (h : P.length ≤ 119)
    (hP : ∀ b ∈ P, b < 256) :
    ∃ s', send_response_data s P = some s' ∧ s'.out = s.out ++ response_frame (s.request 6) P ∧
      s'.request = s.request ∧ s'.frame_len = s.frame_len ∧ s'.time = s.time ∧
      s'.expire_time = s.expire_time ∧ s'.calls = s.calls ∧ s'.dispatched = s.dispatched ∧
      s'.fed = s.fed := by
  refine ⟨_, send_response_data_eq s P h, ?_⟩
  simp [map_mod_of_lt P hP]

/-! ## Lemmas on the response encoder on flat memory -/

theorem checksum_loop_flat_eq (m : Mem) (n : Nat) :
    checksum_loop_flat m n = (0xff + ((List.range n).map (fun i => m (5 + i))).sum) % 256 := by
  induction n with
  | zero => simp [checksum_loop_flat]
  | succ k ih =>
    simp [checksum_loop_flat, ih, List.range_succ, List.sum_append]
    omega

theorem staged_len_flat (s : State) (data : List Nat) (h : data.length ≤ 253) :
    staged s data 3 = data.length + 2 := by
  have h1 : (2 + data.length) % 256 = data.length + 2 := by omega
  simp [staged, mcopy, mset, h1]

theorem finished_wire_flat (s : State) (data : List Nat) (ck : Nat) (h : data.length ≤ 253) :
    (List.range (7 + (data.length + 2))).map (finished (staged s data) ck) =
      [0x00, 0x00, 0xff, data.length + 2, (256 - (data.length + 2)) % 256, 0xd5,
        (s.request 6 + 1) % 256] ++ data.map (· % 256) ++ [(255 - ck) % 256, 0x00] := by
  have hlen := staged_len_flat s data h
  have e0 : 7 + (data.length + 2) = 7 + data.length + 2 := by omega
  have e1 : (2 + data.length) % 256 = data.length + 2 := by omega
  rw [e0, List.range_add, List.range_add, List.map_append, List.map_append, ← bytesN_self]
  congr 1
  · congr 1
    · simp only [finished, hlen]
      simp only [List.range_succ, List.range_zero, List.nil_append, List.map_append,
        List.map_cons, List.map_nil, List.cons_append, mset, mcopy, staged, e1,
        List.length_cons, List.length_nil]
      simp
      refine ⟨?_, ?_, ?_, ?_, ?_, ?_, ?_⟩ <;> intros <;> (try split_ifs) <;> omega
    · simp only [List.map_map, bytesN]
      apply List.map_congr_left
      intro i hi
      have hi2 : i < data.length := List.mem_range.mp hi
      have h1 : 7 + i ≠ 6 + (data.length + 2) := by omega
      have h2 : 7 + i ≠ 5 + (data.length + 2) := by omega
      have h3 : 7 + i ≠ 4 := by omega
      have h4 : ¬ (7 + i < 0 + 3) := by omega
      have h5 : 7 + i < 7 + data.length := by omega
      simp only [finished, hlen]
      simp [mset, mcopy, staged, h1, h2, h3, h4, h5]
  · have h1 : 7 + data.length + 1 = 6 + (data.length + 2) := by omega
    have h2 : 7 + data.length ≠ 6 + (data.length + 2) := by omega
    have h3 : 7 + data.length = 5 + (data.length + 2) := by omega
    simp only [finished, hlen]
    simp only [List.range_succ, List.range_zero, List.nil_append, List.map_append,
        List.map_cons, List.map_nil, List.cons_append, mset, Nat.add_zero, h1, h2, h3]
    simp
    intro hne
    omega

theorem send_response_flat_staged (s : State) (data : List Nat) (h : data.length ≤ 253) :
    send_response_flat { s with response := staged s data } =
      { s with
        response := finished (staged s data) (body_sum (s.request 6) (data.map (· % 256)))
        out := s.out ++ response_frame (s.request 6) (data.map (· % 256)) } := by
  have hlen := staged_len_flat s data h
  have hck := checksum_loop_flat_eq (staged s data) (data.length + 2)
  have hbody := staged_body s data
  have e : data.length + 2 = 2 + data.length := by omega
  rw [e, hbody] at hck
  have hsum : (0xff + ([0xd5, (s.request 6 + 1) % 256] ++ data.map (· % 256)).sum) % 256 =
      body_sum (s.request 6) (data.map (· % 256)) := by
    simp only [body_sum, List.cons_append, List.nil_append, List.sum_cons]
    congr 1
    omega
  rw [hsum] at hck
  have hlt : body_sum (s.request 6) (data.map (· % 256)) < 256 := Nat.mod_lt _ (by decide)
  have c1 : mcopy (staged s data) 0 [0x00, 0x00, 0xff] 3 = data.length + 2 := by
    simp [mcopy, hlen]
  have c2 : ∀ v, mset (mcopy (staged s data) 0 [0x00, 0x00, 0xff]) 4 v 3 = data.length + 2 := by
    intro v
    simp [mset, c1]
  have c3 : ∀ v w, mset (mset (mcopy (staged s data) 0 [0x00, 0x00, 0xff]) 4 v)
      (5 + (data.length + 2)) w 3 = data.length + 2 := by
    intro v w
    have h1 : 3 ≠ 5 + (data.length + 2) := by omega
    simp only [mset, if_neg h1]
    exact c2 v
  have c4 : ∀ v w x, mset (mset (mset (mcopy (staged s data) 0 [0x00, 0x00, 0xff]) 4 v)
      (5 + (data.length + 2)) w) (6 + (data.length + 2)) x 3 = data.length + 2 := by
    intro v w x
    have h1 : 3 ≠ 6 + (data.length + 2) := by omega
    simp only [mset, if_neg h1]
    exact c3 v w
  have hfin : finished (staged s data) (body_sum (s.request 6) (data.map (· % 256))) =
      mset (mset (mset (mcopy (staged s data) 0 [0x00, 0x00, 0xff]) 4
        (255 - (data.length + 2) + 1))
        (5 + (data.length + 2)) (255 - body_sum (s.request 6) (data.map (· % 256))))
        (6 + (data.length + 2)) 0 := by
    simp only [finished, hlen]
  have hw := finished_wire_flat s data (body_sum (s.request 6) (data.map (· % 256))) h
  have e4 : (255 - body_sum (s.request 6) (data.map (· % 256))) % 256 =
      255 - body_sum (s.request 6) (data.map (· % 256)) := by omega
  have hck2 : checksum_loop_flat (staged s data) (data.length + 2) =
      body_sum (s.request 6) (data.map (· % 256)) := by
    rw [e]
    exact hck
  simp only [send_response_flat, hlen, c1, c2, c3, c4, hck2]
  rw [← hfin, hw, e4]
  simp [response_frame, body_sum]

/-- The state `send_response_data` leaves on flat memory. -/
theorem send_response_data_flat_eq (s : State) (data : List Nat) (h : data.length ≤ 253) :
    send_response_data_flat s data =
      { s with
        response := finished (staged s data) (body_sum (s.request 6) (data.map (· % 256)))
        out := s.out ++ response_frame (s.request 6) (data.map (· % 256)) } := by
  rw [← send_response_flat_staged s data h]
  by_cases hd : data.length = 0
  · have hnil : data = [] := List.length_eq_zero.mp hd
    subst hnil
    simp [send_response_data_flat, staged, mcopy_nil]
  · simp [send_response_data_flat, staged, hd]

/-- Where the whole frame lies inside `response.raw[128]`, the bounds-checked
`send_response_data` returns what the function leaves on flat memory. -/
theorem send_response_data_flat_checked (s : State) (data : List Nat) (h : data.length ≤ 119) :
    send_response_data s data = some (send_response_data_flat s data) := by
  rw [send_response_data_eq s data h, send_response_data_flat_eq s data (by omega)]

/-- A payload of 120 bytes makes `send_response` store the postamble at
`response.raw[128]`, outside the 128-byte buffer: the bounds-checked function fails. -/
theorem send_response_data_overrun :
    send_response_data init (List.replicate 120 0) = none := by
  simp [send_response_data, send_response, wr, memcpy, RAW_SIZE, mset, mcopy, init,
    bana_puts]

/-! ## Lemmas on the command handlers -/

theorem keeps_refl (s : State) : keeps s s := ⟨rfl, rfl, rfl, rfl, rfl⟩

theorem keeps_trans {a b c : State} (h1 : keeps a b) (h2 : keeps b c) : keeps a c := by
  obtain ⟨p1, p2, p3, p4, p5⟩ := h1
  obtain ⟨q1, q2, q3, q4, q5⟩ := h2
  exact ⟨q1.trans p1, q2.trans p2, q3.trans p3, q4.trans p4, q5.trans p5⟩

theorem keeps_log_call (s : State) (c : NfcCall) : keeps s (log_call s c) :=
  ⟨rfl, rfl, rfl, rfl, rfl⟩

theorem send_response_data_keeps (s : State) (data : List Nat) (h : data.length ≤ 119) :
    ∃ s1, send_response_data s data = some s1 ∧ keeps s s1 ∧ s1.request = s.request ∧
      s1.calls = s.calls ∧ s1.out = s.out ++ response_frame (s.request 6) (data.map (· % 256)) :=
  ⟨_, send_response_data_eq s data h, ⟨rfl, rfl, rfl, rfl, rfl⟩, rfl, rfl, rfl⟩

theorem send_ack_eq (s : State) :
    send_ack s = some { s with out := s.out ++ [0x00, 0x00, 0xff, 0x00, 0xff, 0x00] } := by
  simp [send_ack, bana_puts]

theorem felica_blocks_spec (nfc : Nfc) (service : Nat) (n : Nat) (s : State) :
    keeps s (felica_blocks nfc service n s).1 ∧
      (felica_blocks nfc service n s).1.request = s.request ∧
      (felica_blocks nfc service n s).1.out = s.out ∧
      (felica_blocks nfc service n s).2.length = 16 * n := by
  induction n with
  | zero => exact ⟨keeps_refl s, rfl, rfl, rfl⟩
  | succ k ih =>
    obtain ⟨h1, h2, h3, h4⟩ := ih
    simp only [felica_blocks]
    refine ⟨keeps_trans h1 (keeps_log_call _ _), ?_, ?_, ?_⟩
    · simpa [log_call] using h2
    · simpa [log_call] using h3
    · simp [h4, bytesN_length]
      omega

theorem cmd_felica_read_total (nfc : Nfc) (s : State) :
    ∃ s1, cmd_felica_read nfc s = some s1 ∧ keeps s s1 := by
  have hb : (if s.request 22 > 4 then 4 else s.request 22) ≤ 4 := by
    split_ifs <;> omega
  simp only [cmd_felica_read]
  generalize (if s.request 22 > 4 then 4 else s.request 22) = bn at hb ⊢
  generalize (s.request 20 ||| (s.request 21 <<< 8)) % 2 ^ 16 = service
  obtain ⟨h1, h2, h3, h4⟩ := felica_blocks_spec nfc service bn s
  obtain ⟨s1, e1, k1, -⟩ := send_response_data_keeps (felica_blocks nfc service bn s).1
    ([0, (2 + 8 + 2 + 1 + bn * 16) % 256, 0x07] ++
      (List.range 8).map (fun i => s.request (11 + i)) ++ [0, 0] ++ [bn % 256] ++
      (felica_blocks nfc service bn s).2)
    (by simp [h4]; omega)
  exact ⟨s1, e1, keeps_trans h1 k1⟩

/-- The dispatcher always returns, and leaves the parser fields alone. -/
theorem handle_frame_total (nfc : Nfc) (s : State) :
    ∃ s1, handle_frame nfc s = some s1 ∧ keeps s s1 := by
  have simple : ∀ (t : State) (data : List Nat), data.length ≤ 119 →
      ∃ s1, send_response_data t data = some s1 ∧ keeps t s1 := by
    intro t data h
    obtain ⟨s1, e1, k1, -⟩ := send_response_data_keeps t data h
    exact ⟨s1, e1, k1⟩
  have logged : ∀ (c : NfcCall) (data : List Nat), data.length ≤ 119 →
      ∃ s1, send_response_data (log_call s c) data = some s1 ∧ keeps s s1 := by
    intro c data h
    obtain ⟨s1, e1, k1⟩ := simple (log_call s c) data h
    exact ⟨s1, e1, keeps_trans (keeps_log_call s c) k1⟩
  have ack : ∃ s1, send_ack s = some s1 ∧ keeps s s1 :=
    ⟨_, send_ack_eq s, ⟨rfl, rfl, rfl, rfl, rfl⟩⟩
  have poll : ∃ s1, cmd_poll_card nfc s = some s1 ∧ keeps s s1 := by
    unfold cmd_poll_card handle_mifare handle_felica handle_no_card
    simp only
    split
    · exact logged _ _ (by simp [bytesN_length])
    · exact logged _ _ (by simp [bytesN_length])
    · exact logged _ _ (by simp)
  have auth : ∀ k, ∃ s1, cmd_mifare_auth nfc s k = some s1 ∧ keeps s s1 := by
    intro k
    unfold cmd_mifare_auth
    simp only
    split
    · exact logged _ _ (by simp)
    · exact logged _ _ (by simp)
  have mread : ∃ s1, cmd_mifare_read nfc s = some s1 ∧ keeps s s1 := by
    unfold cmd_mifare_read
    simp only
    split
    · exact logged _ _ (by simp [bytesN_length])
    · exact logged _ _ (by simp)
  have mifare : ∃ s1, cmd_mifare nfc s = some s1 ∧ keeps s s1 := by
    unfold cmd_mifare
    split
    · exact auth 0
    · split
      · exact auth 1
      · split
        · exact mread
        · exact ack
  have rf : ∃ s1, cmd_rf_field s = some s1 ∧ keeps s s1 := by
    unfold cmd_rf_field send_simple_response
    split
    · exact logged _ _ (by simp)
    · exact logged _ _ (by simp)
  have felica : ∃ s1, cmd_felica nfc s = some s1 ∧ keeps s s1 := by
    unfold cmd_felica
    simp only
    split
    · split
      · obtain ⟨s1, e1, k1⟩ := cmd_felica_read_total nfc
          { s with request := mset s.request 9 ((s.request 3 + 256 - 2) % 256) }
        exact ⟨s1, e1, keeps_trans ⟨rfl, rfl, rfl, rfl, rfl⟩ k1⟩
      · exact ⟨_, rfl, ⟨rfl, rfl, rfl, rfl, rfl⟩⟩
    · exact ⟨_, rfl, keeps_refl s⟩
  have sel : ∃ s1, cmd_select s = some s1 ∧ keeps s s1 := by
    unfold cmd_select
    obtain ⟨s1, e1, k1⟩ := simple s [0x00] (by simp)
    refine ⟨log_call s1 .nfc_select, ?_, keeps_trans k1 (keeps_log_call _ _)⟩
    simp [e1]
  unfold handle_frame send_simple_response cmd_gpio cmd_deselect cmd_release
  by_cases c0 : s.request 6 = 0x18 ∨ s.request 6 = 0x12
  · rw [if_pos c0]
    exact simple s [] (by simp)
  rw [if_neg c0]
  by_cases c1 : s.request 6 = 0x0e
  · rw [if_pos c1]
    exact simple s [] (by simp)
  rw [if_neg c1]
  by_cases c2 : s.request 6 = 0x08
  · rw [if_pos c2]
    exact logged _ _ (by simp)
  rw [if_neg c2]
  by_cases c3 : s.request 6 = 0x06
  · rw [if_pos c3]
    by_cases d : s.request 8 = 0x1c
    · rw [if_pos d]
      exact simple s _ (by simp)
    · rw [if_neg d]
      exact simple s _ (by simp)
  rw [if_neg c3]
  by_cases c4 : s.request 6 = 0x32
  · rw [if_pos c4]
    exact rf
  rw [if_neg c4]
  by_cases c5 : s.request 6 = 0x0c
  · rw [if_pos c5]
    exact simple s _ (by simp)
  rw [if_neg c5]
  by_cases c6 : s.request 6 = 0x4a
  · rw [if_pos c6]
    exact poll
  rw [if_neg c6]
  by_cases c7 : s.request 6 = 0x40
  · rw [if_pos c7]
    exact mifare
  rw [if_neg c7]
  by_cases c8 : s.request 6 = 0x44
  · rw [if_pos c8]
    exact logged _ _ (by simp)
  rw [if_neg c8]
  by_cases c9 : s.request 6 = 0xa0
  · rw [if_pos c9]
    exact felica
  rw [if_neg c9]
  by_cases c10 : s.request 6 = 0x52
  · rw [if_pos c10]
    exact simple s _ (by simp)
  rw [if_neg c10]
  by_cases c11 : s.request 6 = 0x54
  · rw [if_pos c11]
    exact sel
  rw [if_neg c11]
  exact ack

/-! ## Lemmas on the frame synchronizer -/

theorem u8_lt (c : Int) : u8 c < 256 := by
  unfold u8
  omega

theorem u8_natCast (b : Nat) : u8 (b : Int) = b % 256 := by
  unfold u8
  omega

theorem sub32_mod_left (a b : Nat) : sub32 (a % 2 ^ 32) b = sub32 a b := by
  simp [sub32]

theorem mset_same (m : Mem) (i v : Nat) : mset m i v i = v % 256 := by
  simp [mset]

theorem mset_other (m : Mem) (i v j : Nat) (h : j ≠ i) : mset m i v j = m j := by
  simp [mset, h]

theorem feed_reset_fresh (s : State) (now : Nat) (h1 : s.frame_len ≠ 128)
    (h2 : sub32 now s.time ≤ 100000) :
    feed_reset s (now % 2 ^ 32) = { s with time := now % 2 ^ 32 } := by
  have h2n : ¬ (s.frame_len = RAW_SIZE ∨ sub32 now s.time > 100000) := by
    rw [RAW_SIZE]
    omega
  rw [feed_reset, sub32_mod_left]
  simp only [if_neg h2n]

theorem feed_store_eq (s : State) (c : Int) (h : s.frame_len < 128) :
    feed_store s c =
      some { s with
        request := mset s.request s.frame_len (u8 c), frame_len := s.frame_len + 1,
        fed := s.fed + 1 } := by
  have hmod : (s.frame_len + 1) % 256 = s.frame_len + 1 := by omega
  simp [feed_store, wr, RAW_SIZE, h, hmod]

/-- A byte that is appended and triggers nothing. -/
theorem feed_plain (nfc : Nfc) (s : State) (c : Int) (now now64 : Nat)
    (h1 : s.frame_len < 128) (h2 : sub32 now s.time ≤ 100000)
    (hw : s.frame_len = 0 → u8 c ≠ 0x55)
    (hp : s.frame_len = 2 → s.request 0 = 0 ∧ s.request 1 = 0 ∧ u8 c = 0xff)
    (h6 : s.frame_len = 5 → s.request 3 ≠ 0)
    (hd : s.frame_len + 1 ≠ mset s.request s.frame_len (u8 c) 3 + 7) :
    bana_feed nfc s c now now64 =
      some (appended s c now) := by
  have hu := u8_lt c
  have hwake : ¬ (s.frame_len + 1 = 1 ∧ mset s.request s.frame_len (u8 c) 0 = 0x55) := by
    rintro ⟨e1, e2⟩
    have e0 : s.frame_len = 0 := by omega
    rw [e0, mset_same, Nat.mod_eq_of_lt hu] at e2
    exact hw e0 e2
  have hpre : ¬ (s.frame_len + 1 = 3 ∧ ¬ (mset s.request s.frame_len (u8 c) 0 = 0 ∧
      mset s.request s.frame_len (u8 c) 1 = 0 ∧ mset s.request s.frame_len (u8 c) 2 = 0xff)) := by
    rintro ⟨e1, e2⟩
    have e0 : s.frame_len = 2 := by omega
    obtain ⟨p0, p1, p2⟩ := hp e0
    apply e2
    rw [e0, mset_other _ _ _ _ (by decide), mset_other _ _ _ _ (by decide), mset_same,
      Nat.mod_eq_of_lt hu]
    exact ⟨p0, p1, p2⟩
  have hsix : ¬ (s.frame_len + 1 = 6 ∧ mset s.request s.frame_len (u8 c) 3 = 0) := by
    rintro ⟨e1, e2⟩
    have e0 : s.frame_len = 5 := by omega
    rw [e0, mset_other _ _ _ _ (by decide)] at e2
    exact h6 e0 e2
  rw [bana_feed, feed_reset_fresh s now (by omega) h2,
    feed_store_eq { s with time := now % 2 ^ 32 } c h1]
  simp only [Option.bind_eq_bind, Option.some_bind]
  rw [feed_wake, if_neg hwake, feed_resync, if_neg hpre, feed_complete, if_neg hsix, if_neg hd]
  rfl

/-- A byte that completes a frame: `handle_frame` runs on the frame and the parser is
reset. -/
theorem feed_dispatch (nfc : Nfc) (s : State) (c : Int) (now now64 : Nat)
    (h1 : s.frame_len < 128) (h2 : sub32 now s.time ≤ 100000) (h6 : 6 ≤ s.frame_len)
    (hd : s.frame_len + 1 = s.request 3 + 7) :
    bana_feed nfc s c now now64 =
      (handle_frame nfc (arrived s c now)).bind (fun s1 => some (completed s1 now64)) := by
  have hwake : ¬ (s.frame_len + 1 = 1 ∧ mset s.request s.frame_len (u8 c) 0 = 0x55) := by
    omega
  have hpre : ¬ (s.frame_len + 1 = 3 ∧ ¬ (mset s.request s.frame_len (u8 c) 0 = 0 ∧
      mset s.request s.frame_len (u8 c) 1 = 0 ∧ mset s.request s.frame_len (u8 c) 2 = 0xff)) := by
    omega
  have hsix : ¬ (s.frame_len + 1 = 6 ∧ mset s.request s.frame_len (u8 c) 3 = 0) := by
    omega
  have hd2 : s.frame_len + 1 = mset s.request s.frame_len (u8 c) 3 + 7 := by
    rw [mset_other _ _ _ _ (by omega)]
    exact hd
  rw [bana_feed, feed_reset_fresh s now (by omega) h2,
    feed_store_eq { s with time := now % 2 ^ 32 } c h1]
  simp only [Option.bind_eq_bind, Option.some_bind]
  rw [feed_wake, if_neg hwake, feed_resync, if_neg hpre, feed_complete, if_neg hsix, if_pos hd2]
  rfl

theorem feed_all_append (nfc : Nfc) (a b : List Input) (s : State) :
    feed_all nfc s (a ++ b) = (feed_all nfc s a).bind (fun s1 => feed_all nfc s1 b) := by
  induction a generalizing s with
  | nil => rfl
  | cons i rest ih =>
    simp only [List.cons_append, feed_all, Option.bind_eq_bind]
    cases bana_feed nfc s i.c i.now i.now64 with
    | none => rfl
    | some s1 => simpa using ih s1

theorem stored_append (a b : List Input) (s : State) :
    stored s (a ++ b) = stored (stored s a) b := by
  induction a generalizing s with
  | nil => rfl
  | cons i rest ih => simpa [stored] using ih _

theorem stored_fields (l : List Input) (s : State) :
    (stored s l).frame_len = s.frame_len + l.length ∧ (stored s l).out = s.out ∧
      (stored s l).dispatched = s.dispatched ∧ (stored s l).calls = s.calls ∧
      (stored s l).response = s.response ∧ (stored s l).expire_time = s.expire_time ∧
      (stored s l).fed = s.fed + l.length := by
  induction l generalizing s with
  | nil => simp [stored]
  | cons i rest ih =>
    obtain ⟨h1, h2, h3, h4, h5, h6, h7⟩ := ih (appended s i.c i.now)
    simp only [stored, List.length_cons]
    refine ⟨?_, h2, h3, h4, h5, h6, ?_⟩
    · rw [h1]
      simp only [appended]
      omega
    · rw [h7]
      simp only [appended]
      omega

theorem stored_request_low (l : List Input) (s : State) (j : Nat) (h : j < s.frame_len) :
    (stored s l).request j = s.request j := by
  induction l generalizing s with
  | nil => rfl
  | cons i rest ih =>
    simp only [stored]
    rw [ih (appended s i.c i.now) (by simp only [appended]; omega)]
    simp only [appended]
    exact mset_other _ _ _ _ (by omega)

theorem stored_request_new (l : List Input) (s : State) (j : Nat) (h : j < l.length) :
    (stored s l).request (s.frame_len + j) = (l.map (fun i => u8 i.c)).getD j 0 := by
  induction l generalizing s j with
  | nil => simp at h
  | cons i rest ih =>
    simp only [stored]
    cases j with
    | zero =>
      rw [Nat.add_zero, stored_request_low rest _ _ (by simp only [appended]; omega)]
      simp only [appended, mset_same, List.map_cons, List.getD_cons_zero]
      exact Nat.mod_eq_of_lt (u8_lt _)
    | succ k =>
      have hk : k < rest.length := by simpa using h
      have e := ih (appended s i.c i.now) k hk
      simp only [appended] at e ⊢
      rw [List.map_cons, List.getD_cons_succ, ← e]
      congr 1
      omega

theorem sub32_mod_right (a b : Nat) : sub32 a (b % 2 ^ 32) = sub32 a b := by
  simp [sub32]

theorem gaps_ok_mod (t : Nat) (l : List Input) : gaps_ok (t % 2 ^ 32) l ↔ gaps_ok t l := by
  cases l with
  | nil => simp [gaps_ok]
  | cons i rest => simp only [gaps_ok, sub32_mod_right]

theorem sub32_self (n : Nat) : sub32 n (n % 2 ^ 32) = 0 := by
  simp only [sub32]
  omega

theorem feed_reset_idem (s : State) (now : Nat) :
    feed_reset (feed_reset s (now % 2 ^ 32)) (now % 2 ^ 32) = feed_reset s (now % 2 ^ 32) := by
  have h0 : sub32 now (now % 2 ^ 32) = 0 := sub32_self now
  by_cases h : s.frame_len = RAW_SIZE ∨ sub32 now s.time > 100000
  · have h1 : feed_reset s (now % 2 ^ 32) =
        { s with frame_len := 0, fed := 0, time := now % 2 ^ 32 } := by
      rw [feed_reset, sub32_mod_left]
      simp only [if_pos h]
    rw [h1, feed_reset, sub32_mod_left]
    have h2 : ¬ ((0 : Nat) = RAW_SIZE ∨ sub32 now (now % 2 ^ 32) > 100000) := by
      rw [h0, RAW_SIZE]
      omega
    simp only [if_neg h2]
  · have h1 : feed_reset s (now % 2 ^ 32) = { s with time := now % 2 ^ 32 } := by
      rw [feed_reset, sub32_mod_left]
      simp only [if_neg h]
    rw [h1, feed_reset, sub32_mod_left]
    have h2 : ¬ (s.frame_len = RAW_SIZE ∨ sub32 now (now % 2 ^ 32) > 100000) := by
      rw [h0]
      intro h3
      apply h
      rcases h3 with h3 | h3
      · exact Or.inl h3
      · omega
    simp only [if_neg h2]

/-- The reset at the head of `bana_feed` can be taken first. -/
theorem bana_feed_reset (nfc : Nfc) (s : State) (c : Int) (now now64 : Nat) :
    bana_feed nfc (feed_reset s (now % 2 ^ 32)) c now now64 = bana_feed nfc s c now now64 := by
  rw [bana_feed, bana_feed, feed_reset_idem]

theorem feed_reset_fields (s : State) (now : Nat) :
    (feed_reset s now).request = s.request ∧ (feed_reset s now).response = s.response ∧
      (feed_reset s now).out = s.out ∧ (feed_reset s now).calls = s.calls ∧
      (feed_reset s now).dispatched = s.dispatched ∧
      (feed_reset s now).expire_time = s.expire_time ∧ (feed_reset s now).time = now := by
  by_cases h : s.frame_len = RAW_SIZE ∨ sub32 now s.time > 100000
  · simp [feed_reset, h]
  · simp [feed_reset, h]

theorem feed_reset_frame_len (s : State) (now : Nat) :
    (feed_reset s now).frame_len =
      if s.frame_len = RAW_SIZE ∨ sub32 now s.time > 100000 then 0 else s.frame_len := by
  by_cases h : s.frame_len = RAW_SIZE ∨ sub32 now s.time > 100000
  · simp [feed_reset, h]
  · simp [feed_reset, h]

theorem plain_ok_run (nfc : Nfc) (l : List Input) (s : State) (h : plain_ok s l) :
    feed_all nfc s l = some (stored s l) := by
  induction l generalizing s with
  | nil => rfl
  | cons i rest ih =>
    obtain ⟨⟨a1, a2, a3, a4, a5, a6⟩, hr⟩ := h
    have step := feed_plain nfc s i.c i.now i.now64 a1 a2 a3 a4 a5 a6
    simp only [feed_all, step, Option.bind_eq_bind, Option.some_bind, stored]
    exact ih _ hr

theorem plain_ok_append_left (a b : List Input) (s : State) (h : plain_ok s (a ++ b)) :
    plain_ok s a := by
  induction a generalizing s with
  | nil => trivial
  | cons i rest ih => exact ⟨h.1, ih _ h.2⟩

theorem plain_ok_take (l : List Input) (k : Nat) (s : State) (h : plain_ok s l) :
    plain_ok s (l.take k) := by
  apply plain_ok_append_left (l.take k) (l.drop k)
  rw [List.take_append_drop]
  exact h

/-- From byte count 4 on, bytes are appended one after the other as long as the frame
is not complete and the buffer is not full. -/
theorem plain_ok_body (l : List Input) (s : State) (h4 : 4 ≤ s.frame_len)
    (h0 : s.request 3 ≠ 0) (hl : s.frame_len + l.length < s.request 3 + 7)
    (hb : s.frame_len + l.length ≤ 128) (hg : gaps_ok s.time l) :
    plain_ok s l := by
  induction l generalizing s with
  | nil => trivial
  | cons i rest ih =>
    obtain ⟨g1, g2⟩ := hg
    simp only [List.length_cons] at hl hb
    have hr : mset s.request s.frame_len (u8 i.c) 3 = s.request 3 :=
      mset_other _ _ _ _ (by omega)
    refine ⟨⟨by omega, g1, by omega, by omega, fun _ => h0, by rw [hr]; omega⟩, ?_⟩
    apply ih
    · simp only [appended]
      omega
    · simp only [appended]
      rw [hr]
      exact h0
    · simp only [appended]
      rw [hr]
      omega
    · simp only [appended]
      omega
    · simp only [appended]
      exact (gaps_ok_mod _ _).mpr g2

/-- All bytes but the last of a frame `00 00 FF L ...` fed from byte count 0 are
appended one after the other. -/
theorem plain_ok_frame (s : State) (i0 i1 i2 i3 : Input) (body : List Input) (L : Nat)
    (hs : s.frame_len = 0) (ht : sub32 i0.now s.time ≤ 100000)
    (b0 : u8 i0.c = 0x00) (b1 : u8 i1.c = 0x00) (b2 : u8 i2.c = 0xff) (b3 : u8 i3.c = L)
    (hL : 1 ≤ L) (hL2 : body.length ≤ 124) (hlen : body.length ≤ L + 2)
    (hg : gaps_ok i0.now (i1 :: i2 :: i3 :: body)) :
    plain_ok s (i0 :: i1 :: i2 :: i3 :: body) := by
  obtain ⟨g1, g2, g3, g4⟩ := hg
  have m1 : ∀ t, sub32 t (i0.now % 2 ^ 32) = sub32 t i0.now := fun t => sub32_mod_right t _
  have hu3 := u8_lt i3.c
  rw [b3] at hu3
  have e3 : mset (mset (mset (mset s.request 0 (u8 i0.c)) 1 (u8 i1.c)) 2 (u8 i2.c)) 3 (u8 i3.c) 3
      = L := by
    rw [mset_same, b3]
    omega
  refine ⟨⟨by omega, ht, ?_, by omega, by omega, ?_⟩, ⟨?_, ?_, ?_, ?_, ?_, ?_⟩, ⟨?_, ?_, ?_, ?_, ?_, ?_⟩,
    ⟨?_, ?_, ?_, ?_, ?_, ?_⟩, ?_⟩
  · intro _
    rw [b0]
    decide
  · rw [hs]
    omega
  all_goals simp only [appended, hs, Nat.zero_add, Nat.reduceAdd]
  · omega
  · rw [sub32_mod_right]
    exact g1
  · omega
  · omega
  · omega
  · omega
  · omega
  · rw [sub32_mod_right]
    exact g2
  · omega
  · intro _
    simp [mset, b0, b1, b2]
  · omega
  · omega
  · omega
  · rw [sub32_mod_right]
    exact g3
  · omega
  · omega
  · omega
  · rw [e3]
    omega
  · apply plain_ok_body
    · simp only [appended, hs]
      omega
    · simp only [appended, hs]
      rw [e3]
      omega
    · simp only [appended, hs]
      rw [e3]
      omega
    · simp only [appended, hs]
      omega
    · simp only [appended, hs]
      exact (gaps_ok_mod _ _).mpr g4

theorem feed_all_reset (nfc : Nfc) (s : State) (i : Input) (rest : List Input) :
    feed_all nfc (feed_reset s (i.now % 2 ^ 32)) (i :: rest) = feed_all nfc s (i :: rest) := by
  simp only [feed_all, bana_feed_reset]

theorem stored_gaps (a b : List Input) (s : State) (h : gaps_ok s.time (a ++ b)) :
    gaps_ok (stored s a).time b := by
  induction a generalizing s with
  | nil => exact h
  | cons i rest ih =>
    simp only [stored]
    apply ih
    simp only [appended]
    exact (gaps_ok_mod _ _).mpr h.2

theorem gaps_ok_append_left (a b : List Input) (t : Nat) (h : gaps_ok t (a ++ b)) :
    gaps_ok t a := by
  induction a generalizing t with
  | nil => trivial
  | cons i rest ih => exact ⟨h.1, ih _ h.2⟩

theorem gaps_ok_head (t : Nat) (i : Input) (rest : List Input) (h : gaps_ok t (i :: rest)) :
    sub32 i.now t ≤ 100000 := h.1

/-- A whole frame `00 00 FF L ...` of `L + 7` bytes fed from byte count 0: the first
`L + 6` bytes are appended, the last one hands the frame to `handle_frame`. -/
theorem frame_run (nfc : Nfc) (s : State) (i0 i1 i2 i3 last : Input) (body : List Input)
    (L : Nat) (hs : s.frame_len = 0)
    (b0 : u8 i0.c = 0x00) (b1 : u8 i1.c = 0x00) (b2 : u8 i2.c = 0xff) (b3 : u8 i3.c = L)
    (hL : 1 ≤ L) (hL2 : L ≤ 121) (hlen : body.length = L + 2)
    (hg : gaps_ok i0.now (i1 :: i2 :: i3 :: (body ++ [last]))) :
    ∃ S : State,
      S = stored (feed_reset s (i0.now % 2 ^ 32)) (i0 :: i1 :: i2 :: i3 :: body) ∧
      plain_ok (feed_reset s (i0.now % 2 ^ 32)) (i0 :: i1 :: i2 :: i3 :: body) ∧
      feed_all nfc s (i0 :: i1 :: i2 :: i3 :: (body ++ [last])) =
        (handle_frame nfc (arrived S last.c last.now)).bind
          (fun s1 => some (completed s1 last.now64)) ∧
      S.frame_len = L + 6 ∧ S.request 3 = L ∧ S.out = s.out ∧ S.dispatched = s.dispatched ∧
      S.calls = s.calls ∧
      ∀ j, j < L + 6 → S.request j = ((i0 :: i1 :: i2 :: i3 :: body).map (fun i => u8 i.c)).getD j 0 := by
  have hr0 : (feed_reset s (i0.now % 2 ^ 32)).frame_len = 0 := by
    rw [feed_reset_frame_len, hs]
    simp
  obtain ⟨f1, f2, f3, f4, f5, f6, f7⟩ := feed_reset_fields s (i0.now % 2 ^ 32)
  have hrt : sub32 i0.now (feed_reset s (i0.now % 2 ^ 32)).time ≤ 100000 := by
    rw [f7, sub32_self]
    omega
  have hg1 : gaps_ok i0.now (i1 :: i2 :: i3 :: body) :=
    gaps_ok_append_left (i1 :: i2 :: i3 :: body) [last] _ hg
  have hgl : gaps_ok (feed_reset s (i0.now % 2 ^ 32)).time
      ((i0 :: i1 :: i2 :: i3 :: body) ++ [last]) := by
    refine ⟨hrt, ?_⟩
    simpa using hg
  have hp := plain_ok_frame (feed_reset s (i0.now % 2 ^ 32)) i0 i1 i2 i3 body L hr0 hrt b0 b1 b2
    b3 hL (by omega) (by omega) hg1
  have hrun := plain_ok_run nfc _ _ hp
  obtain ⟨s1, s2, s3, s4, s5, s6, s7⟩ :=
    stored_fields (i0 :: i1 :: i2 :: i3 :: body) (feed_reset s (i0.now % 2 ^ 32))
  have hreq : ∀ j, j < L + 6 →
      (stored (feed_reset s (i0.now % 2 ^ 32)) (i0 :: i1 :: i2 :: i3 :: body)).request j =
        ((i0 :: i1 :: i2 :: i3 :: body).map (fun i => u8 i.c)).getD j 0 := by
    intro j hj
    have h := stored_request_new (i0 :: i1 :: i2 :: i3 :: body)
      (feed_reset s (i0.now % 2 ^ 32)) j (by simp; omega)
    rw [hr0, Nat.zero_add] at h
    exact h
  have hfl : (stored (feed_reset s (i0.now % 2 ^ 32)) (i0 :: i1 :: i2 :: i3 :: body)).frame_len
      = L + 6 := by
    rw [s1, hr0]
    simp
    omega
  have h3 : (stored (feed_reset s (i0.now % 2 ^ 32)) (i0 :: i1 :: i2 :: i3 :: body)).request 3
      = L := by
    rw [hreq 3 (by omega)]
    simp [b3]
  refine ⟨_, rfl, hp, ?_, hfl, h3, s2.trans f3, s3.trans f5, s4.trans f4, hreq⟩
  have e : i0 :: i1 :: i2 :: i3 :: (body ++ [last]) = (i0 :: i1 :: i2 :: i3 :: body) ++ [last] := by
    simp
  rw [← feed_all_reset, e, feed_all_append, hrun]
  simp only [Option.bind_eq_bind, Option.some_bind, feed_all]
  rw [feed_dispatch nfc _ last.c last.now last.now64 (by omega)
    (gaps_ok_head _ _ _ (stored_gaps _ _ _ hgl)) (by omega) (by rw [hfl, h3])]
  cases handle_frame nfc (arrived (stored (feed_reset s (i0.now % 2 ^ 32))
    (i0 :: i1 :: i2 :: i3 :: body)) last.c last.now) with
  | none => rfl
  | some x => rfl

/-- While the first `L + 6` bytes of a frame are fed, nothing is dispatched and nothing
is sent. -/
theorem frame_prefix (nfc : Nfc) (s : State) (i0 i1 i2 i3 last : Input) (body : List Input)
    (L : Nat) (hs : s.frame_len = 0)
    (b0 : u8 i0.c = 0x00) (b1 : u8 i1.c = 0x00) (b2 : u8 i2.c = 0xff) (b3 : u8 i3.c = L)
    (hL : 1 ≤ L) (hL2 : L ≤ 121) (hlen : body.length = L + 2)
    (hg : gaps_ok i0.now (i1 :: i2 :: i3 :: (body ++ [last]))) (k : Nat) (hk : k < L + 7) :
    ∃ sk, feed_all nfc s ((i0 :: i1 :: i2 :: i3 :: (body ++ [last])).take k) = some sk ∧
      sk.dispatched = s.dispatched ∧ sk.out = s.out ∧ sk.calls = s.calls ∧ sk.frame_len = k := by
  obtain ⟨S, -, hp, -⟩ := frame_run nfc s i0 i1 i2 i3 last body L hs b0 b1 b2 b3 hL hL2 hlen hg
  cases k with
  | zero => exact ⟨s, rfl, rfl, rfl, rfl, hs⟩
  | succ n =>
    have e : (i0 :: i1 :: i2 :: i3 :: (body ++ [last])).take (n + 1) =
        (i0 :: i1 :: i2 :: i3 :: body).take (n + 1) := by
      have e1 : i0 :: i1 :: i2 :: i3 :: (body ++ [last]) = (i0 :: i1 :: i2 :: i3 :: body) ++ [last] :=
        rfl
      rw [e1, List.take_append_of_le_length]
      simp only [List.length_cons]
      omega
    have hpk := plain_ok_take _ (n + 1) _ hp
    have hrun := plain_ok_run nfc _ _ hpk
    obtain ⟨f1, f2, f3, f4, f5, f6, f7⟩ := feed_reset_fields s (i0.now % 2 ^ 32)
    have hr0 : (feed_reset s (i0.now % 2 ^ 32)).frame_len = 0 := by
      rw [feed_reset_frame_len, hs]
      simp
    obtain ⟨s1, s2, s3, s4, -⟩ :=
      stored_fields ((i0 :: i1 :: i2 :: i3 :: body).take (n + 1)) (feed_reset s (i0.now % 2 ^ 32))
    refine ⟨_, ?_, s3.trans f5, s2.trans f3, s4.trans f4, ?_⟩
    · rw [e, ← hrun]
      simp only [List.take_succ_cons]
      exact (feed_all_reset nfc s i0 _).symm
    · rw [s1, hr0, List.length_take]
      simp only [List.length_cons]
      omega

theorem split_last (rest : List Input) (n : Nat) (h : rest.length = n + 1) :
    ∃ body last, rest = body ++ [last] ∧ body.length = n := by
  have hne : rest ≠ [] := by
    intro e
    rw [e] at h
    simp at h
  refine ⟨rest.dropLast, rest.getLast hne, (List.dropLast_append_getLast hne).symm, ?_⟩
  rw [List.length_dropLast, h]
  rfl

theorem handle_frame_0c (nfc : Nfc) (s : State) (h : s.request 6 = 0x0c) :
    handle_frame nfc s = send_response_data s [0x00, 0x06, 0x00] := by
  simp [handle_frame, h]

/-! ## One call of `bana_feed`, case by case -/

theorem bana_feed_unfold (nfc : Nfc) (s : State) (c : Int) (now now64 : Nat)
    (h : s.frame_len ≤ 128 ∨ 100000 < sub32 now s.time) :
    (feed_reset s (now % 2 ^ 32)).frame_len < 128 ∧
      bana_feed nfc s c now now64 =
        feed_complete nfc
          (feed_resync (feed_wake (appended (feed_reset s (now % 2 ^ 32)) c now))) now64 := by
  have hlt : (feed_reset s (now % 2 ^ 32)).frame_len < 128 := by
    rw [feed_reset_frame_len, RAW_SIZE, sub32_mod_left]
    split_ifs with h1
    · omega
    · have h2 : s.frame_len ≠ 128 := fun e => h1 (Or.inl e)
      have h3 : ¬ (100000 < sub32 now s.time) := fun e => h1 (Or.inr e)
      omega
  refine ⟨hlt, ?_⟩
  have ht : (feed_reset s (now % 2 ^ 32)).time = now % 2 ^ 32 := (feed_reset_fields s _).2.2.2.2.2.2
  rw [bana_feed, feed_store_eq _ _ hlt]
  simp only [Option.bind_eq_bind, Option.some_bind]
  congr 3

/-- The five outcomes of one call of `bana_feed`, with `r` the state after the
staleness/overflow reset: wake tone dropped, preamble shift, zero-length reset, frame
completion, plain append. -/
theorem bana_feed_cases (nfc : Nfc) (s : State) (c : Int) (now now64 : Nat)
    (h : s.frame_len ≤ 128 ∨ 100000 < sub32 now s.time) :
    ∃ r : State, r = feed_reset s (now % 2 ^ 32) ∧ r.frame_len < 128 ∧
      ((r.frame_len = 0 ∧ u8 c = 0x55 ∧
          bana_feed nfc s c now now64 = some { appended r c now with frame_len := 0, fed := 0 }) ∨
        (r.frame_len = 2 ∧ ¬ (r.request 0 = 0 ∧ r.request 1 = 0 ∧ u8 c = 0xff) ∧
          bana_feed nfc s c now now64 =
            some { appended r c now with
              request := mset (mset (mset r.request 2 (u8 c)) 0 (r.request 1)) 1 (u8 c),
              frame_len := 2 }) ∨
        (r.frame_len = 5 ∧ r.request 3 = 0 ∧
          bana_feed nfc s c now now64 = some { appended r c now with frame_len := 0, fed := 0 }) ∨
        (6 ≤ r.frame_len ∧ r.frame_len + 1 = r.request 3 + 7 ∧
          ∃ s1, handle_frame nfc (arrived r c now) = some s1 ∧ keeps (arrived r c now) s1 ∧
            bana_feed nfc s c now now64 = some (completed s1 now64)) ∨
        ((r.frame_len = 0 → u8 c ≠ 0x55) ∧
          (r.frame_len = 2 → r.request 0 = 0 ∧ r.request 1 = 0 ∧ u8 c = 0xff) ∧
          (r.frame_len = 5 → r.request 3 ≠ 0) ∧
          r.frame_len + 1 ≠ mset r.request r.frame_len (u8 c) 3 + 7 ∧
          bana_feed nfc s c now now64 = some (appended r c now))) := by
  obtain ⟨hlt, hun⟩ := bana_feed_unfold nfc s c now now64 h
  refine ⟨_, rfl, hlt, ?_⟩
  generalize feed_reset s (now % 2 ^ 32) = r at hlt hun
  have hu := u8_lt c
  have hum : u8 c % 256 = u8 c := Nat.mod_eq_of_lt hu
  rw [hun]
  by_cases hA : r.frame_len = 0 ∧ u8 c = 0x55
  · left
    obtain ⟨a1, a2⟩ := hA
    refine ⟨a1, a2, ?_⟩
    have hw : (appended r c now).frame_len = 1 ∧ (appended r c now).request 0 = 0x55 := by
      refine ⟨by simp [appended, a1], ?_⟩
      simp only [appended, a1, mset_same, hum, a2]
    rw [feed_wake, if_pos hw]
    simp [feed_resync, feed_complete]
  have hw : ¬ ((appended r c now).frame_len = 1 ∧ (appended r c now).request 0 = 0x55) := by
    rintro ⟨e1, e2⟩
    simp only [appended] at e1 e2
    have e0 : r.frame_len = 0 := by omega
    rw [e0, mset_same, hum] at e2
    exact hA ⟨e0, e2⟩
  rw [feed_wake, if_neg hw]
  right
  by_cases hB : r.frame_len = 2 ∧ ¬ (r.request 0 = 0 ∧ r.request 1 = 0 ∧ u8 c = 0xff)
  · left
    obtain ⟨a1, a2⟩ := hB
    refine ⟨a1, a2, ?_⟩
    have hp : (appended r c now).frame_len = 3 ∧ ¬ ((appended r c now).request 0 = 0x00 ∧
        (appended r c now).request 1 = 0x00 ∧ (appended r c now).request 2 = 0xff) := by
      refine ⟨by simp [appended, a1], ?_⟩
      simp only [appended, a1, mset_same, hum]
      rw [mset_other _ _ _ _ (by decide), mset_other _ _ _ _ (by decide)]
      exact a2
    rw [feed_resync, if_pos hp]
    simp only [appended, a1]
    have e1 : mset (mset r.request 2 (u8 c)) 0 (mset r.request 2 (u8 c) 1) =
        mset (mset r.request 2 (u8 c)) 0 (r.request 1) := by
      rw [mset_other _ _ _ _ (by decide)]
    have e2 : mset (mset (mset r.request 2 (u8 c)) 0 (r.request 1)) 1
        (mset (mset r.request 2 (u8 c)) 0 (r.request 1) 2) =
        mset (mset (mset r.request 2 (u8 c)) 0 (r.request 1)) 1 (u8 c) := by
      rw [mset_other _ _ _ _ (by decide), mset_same]
      funext j
      simp only [mset, hum, Nat.mod_mod]
    rw [e1, e2]
    simp [feed_complete]
  have hp : ¬ ((appended r c now).frame_len = 3 ∧ ¬ ((appended r c now).request 0 = 0x00 ∧
      (appended r c now).request 1 = 0x00 ∧ (appended r c now).request 2 = 0xff)) := by
    rintro ⟨e1, e2⟩
    simp only [appended] at e1 e2
    have e0 : r.frame_len = 2 := by omega
    rw [e0, mset_other _ _ _ _ (by decide), mset_other _ _ _ _ (by decide), mset_same, hum] at e2
    exact hB ⟨e0, e2⟩
  rw [feed_resync, if_neg hp]
  right
  by_cases hC : r.frame_len = 5 ∧ r.request 3 = 0
  · left
    obtain ⟨a1, a2⟩ := hC
    refine ⟨a1, a2, ?_⟩
    have h6 : (appended r c now).frame_len = 6 ∧ (appended r c now).request 3 = 0 := by
      refine ⟨by simp [appended, a1], ?_⟩
      simp only [appended, a1]
      rw [mset_other _ _ _ _ (by decide)]
      exact a2
    rw [feed_complete, if_pos h6]
    rfl
  have h6 : ¬ ((appended r c now).frame_len = 6 ∧ (appended r c now).request 3 = 0) := by
    rintro ⟨e1, e2⟩
    simp only [appended] at e1 e2
    have e0 : r.frame_len = 5 := by omega
    rw [e0, mset_other _ _ _ _ (by decide)] at e2
    exact hC ⟨e0, e2⟩
  rw [feed_complete, if_neg h6]
  right
  by_cases hD : (appended r c now).frame_len = (appended r c now).request 3 + 7
  · left
    have hD2 := hD
    simp only [appended] at hD2
    have g6 : 6 ≤ r.frame_len := by omega
    rw [mset_other _ _ _ _ (by omega)] at hD2
    refine ⟨g6, hD2, ?_⟩
    obtain ⟨s1, e1, k1⟩ := handle_frame_total nfc (arrived r c now)
    refine ⟨s1, e1, k1, ?_⟩
    rw [if_pos hD]
    have e2 : handle_frame nfc { appended r c now with
        dispatched := (appended r c now).dispatched ++
          [{ request := (appended r c now).request, frame_len := (appended r c now).frame_len,
             fed := (appended r c now).fed }] } = some s1 := e1
    simp only [e2, Option.bind_eq_bind, Option.some_bind, Option.pure_def]
    rfl
  · right
    rw [if_neg hD]
    refine ⟨fun e0 e1 => hA ⟨e0, e1⟩, ?_, fun e0 e1 => hC ⟨e0, e1⟩, hD, rfl⟩
    intro e0
    by_contra hn
    exact hB ⟨e0, hn⟩

/-! ## The parser invariant -/

theorem wf_init : wf init := by
  refine ⟨by simp [init], by simp [init], by simp [init], by simp [init], by simp [init], ?_⟩
  intro d hd
  simp [init] at hd

theorem wf_small (t : State) (h0 : t.frame_len ≤ 2) (hf : t.frame_len ≤ t.fed)
    (hz : t.frame_len = 0 → t.fed = 0) (hd : ∀ d ∈ t.dispatched, d.ok) : wf t := by
  refine ⟨?_, hf, hz, ?_, ?_, hd⟩
  · rw [RAW_SIZE]
    omega
  · intro h
    omega
  · intro h
    omega

theorem wf_reset (s : State) (now : Nat) (h : wf s) : wf (feed_reset s now) := by
  obtain ⟨h1, h2, h3, h4, h5, h6⟩ := h
  by_cases hc : s.frame_len = RAW_SIZE ∨ sub32 now s.time > 100000
  · have e : feed_reset s now = { s with frame_len := 0, fed := 0, time := now } := by
      simp [feed_reset, hc]
    rw [e]
    exact wf_small _ (Nat.zero_le _) (Nat.le_refl _) (fun _ => rfl) h6
  · have e : feed_reset s now = { s with time := now } := by
      simp [feed_reset, hc]
    rw [e]
    exact ⟨h1, h2, h3, h4, h5, h6⟩

/-- Every call of `bana_feed` on a state that satisfies the invariant returns, and the
invariant holds again. -/
theorem wf_step (nfc : Nfc) (s : State) (c : Int) (now now64 : Nat) (h : wf s) :
    ∃ s1, bana_feed nfc s c now now64 = some s1 ∧ wf s1 := by
  have hu := u8_lt c
  have hum : u8 c % 256 = u8 c := Nat.mod_eq_of_lt hu
  obtain ⟨r, hr, hlt, hcases⟩ := bana_feed_cases nfc s c now now64 (Or.inl h.1)
  have hwr : wf r := hr ▸ wf_reset s _ h
  obtain ⟨r1, r2, r3, r4, r5, r6⟩ := hwr
  rcases hcases with ⟨a1, a2, e⟩ | ⟨a1, a2, e⟩ | ⟨a1, a2, e⟩ | ⟨a1, a2, s1, e1, k1, e⟩ |
    ⟨a1, a2, a3, a4, e⟩
  · exact ⟨_, e, wf_small _ (Nat.zero_le _) (Nat.le_refl _) (fun _ => rfl) r6⟩
  · refine ⟨_, e, wf_small _ (Nat.le_refl _) ?_ ?_ r6⟩
    · simp only [appended]
      omega
    · intro h0
      simp at h0
  · exact ⟨_, e, wf_small _ (Nat.zero_le _) (Nat.le_refl _) (fun _ => rfl) r6⟩
  · refine ⟨_, e, wf_small _ (Nat.zero_le _) (Nat.le_refl _) (fun _ => rfl) ?_⟩
    intro d hd
    have hdis : (completed s1 now64).dispatched = r.dispatched ++
        [{ request := mset r.request r.frame_len (u8 c), frame_len := r.frame_len + 1,
           fed := r.fed + 1 }] := k1.2.2.2.1
    rw [hdis, List.mem_append, List.mem_singleton] at hd
    rcases hd with hd | hd
    · exact r6 d hd
    · obtain ⟨p0, p1, p2⟩ := r4 (by omega)
      have p3 := r5 a1
      subst hd
      simp only [Dispatch.ok, RAW_SIZE]
      rw [mset_other _ _ _ _ (by omega), mset_other _ _ _ _ (by omega),
        mset_other _ _ _ _ (by omega), mset_other _ _ _ _ (by omega)]
      exact ⟨a2, by omega, by omega, p0, p1, p2, p3⟩
  · refine ⟨_, e, ?_, ?_, ?_, ?_, ?_, r6⟩
    · simp only [appended, RAW_SIZE]
      omega
    · simp only [appended]
      omega
    · simp only [appended]
      omega
    · simp only [appended]
      intro h3
      by_cases e2 : r.frame_len = 2
      · obtain ⟨p0, p1, p2⟩ := a2 e2
        rw [e2, mset_other _ _ _ _ (by decide), mset_other _ _ _ _ (by decide), mset_same, hum]
        exact ⟨p0, p1, p2⟩
      · obtain ⟨p0, p1, p2⟩ := r4 (by omega)
        rw [mset_other _ _ _ _ (by omega), mset_other _ _ _ _ (by omega),
          mset_other _ _ _ _ (by omega)]
        exact ⟨p0, p1, p2⟩
    · simp only [appended]
      intro h6
      by_cases e5 : r.frame_len = 5
      · rw [e5, mset_other _ _ _ _ (by decide)]
        exact a3 e5
      · rw [mset_other _ _ _ _ (by omega)]
        exact r5 (by omega)

theorem wf_reachable (nfc : Nfc) (s : State) (h : Reachable nfc s) : wf s := by
  induction h with
  | start => exact wf_init
  | feed s s1 c now now64 _ e ih =>
    obtain ⟨s2, e2, w2⟩ := wf_step nfc s c now now64 ih
    rw [e] at e2
    cases e2
    exact w2

theorem wf_feed_all (nfc : Nfc) (l : List Input) (s : State) (h : wf s) :
    ∃ s1, feed_all nfc s l = some s1 ∧ wf s1 := by
  induction l generalizing s with
  | nil => exact ⟨s, rfl, h⟩
  | cons i rest ih =>
    obtain ⟨s1, e1, w1⟩ := wf_step nfc s i.c i.now i.now64 h
    obtain ⟨s2, e2, w2⟩ := ih s1 w1
    exact ⟨s2, by simp [feed_all, e1, e2], w2⟩

theorem reachable_feed_all (nfc : Nfc) (l : List Input) (s s1 : State) (h : Reachable nfc s)
    (e : feed_all nfc s l = some s1) : Reachable nfc s1 := by
  induction l generalizing s with
  | nil =>
    simp only [feed_all, Option.some.injEq] at e
    exact e ▸ h
  | cons i rest ih =>
    simp only [feed_all, Option.bind_eq_bind] at e
    cases hb : bana_feed nfc s i.c i.now i.now64 with
    | none => simp [hb] at e
    | some s2 =>
      rw [hb] at e
      exact ih s2 (Reachable.feed s s2 i.c i.now i.now64 h hb) e

/-! ## Runs that dispatch nothing -/

theorem quiet_end {nfc : Nfc} {s T : State} {l : List Input} (h : quiet nfc s l T) :
    T.dispatched = s.dispatched ∧ T.out = s.out ∧ T.calls = s.calls := by
  obtain ⟨e, hk⟩ := h
  obtain ⟨sk, e1, h1⟩ := hk l.length (Nat.le_refl _)
  rw [List.take_length, e] at e1
  cases e1
  exact h1

theorem quiet_single (nfc : Nfc) (s T : State) (i : Input)
    (e : bana_feed nfc s i.c i.now i.now64 = some T) (h1 : T.dispatched = s.dispatched)
    (h2 : T.out = s.out) (h3 : T.calls = s.calls) : quiet nfc s [i] T := by
  have hrun : feed_all nfc s [i] = some T := by simp [feed_all, e]
  refine ⟨hrun, ?_⟩
  intro k hk
  cases k with
  | zero => exact ⟨s, rfl, rfl, rfl, rfl⟩
  | succ n =>
    have : ([i] : List Input).take (n + 1) = [i] := by simp
    rw [this]
    exact ⟨T, hrun, h1, h2, h3⟩

theorem quiet_append {nfc : Nfc} {s T U : State} {a b : List Input} (h1 : quiet nfc s a T)
    (h2 : quiet nfc T b U) : quiet nfc s (a ++ b) U := by
  obtain ⟨t1, t2, t3⟩ := quiet_end h1
  obtain ⟨e1, k1⟩ := h1
  obtain ⟨e2, k2⟩ := h2
  refine ⟨by rw [feed_all_append, e1]; exact e2, ?_⟩
  intro k hk
  by_cases hka : k ≤ a.length
  · rw [List.take_append_of_le_length hka]
    exact k1 k hka
  · have hk2 : k - a.length ≤ b.length := by
      rw [List.length_append] at hk
      omega
    obtain ⟨sk, e3, d1, d2, d3⟩ := k2 (k - a.length) hk2
    refine ⟨sk, ?_, d1.trans t1, d2.trans t2, d3.trans t3⟩
    rw [List.take_append_eq_append_take, List.take_of_length_le (by omega), feed_all_append, e1]
    exact e3

theorem quiet_plain (nfc : Nfc) (s : State) (l : List Input) (h : plain_ok s l) :
    quiet nfc s l (stored s l) := by
  refine ⟨plain_ok_run nfc l s h, ?_⟩
  intro k _
  obtain ⟨-, s2, s3, s4, -⟩ := stored_fields (l.take k) s
  exact ⟨_, plain_ok_run nfc _ s (plain_ok_take l k s h), s3, s2, s4⟩

/-- One call of `bana_feed` at byte count 0, 1 or 2: nothing is dispatched; the byte is
dropped (wake tone), appended, or shifted in. -/
theorem feed_low (nfc : Nfc) (s : State) (c : Int) (now now64 : Nat) (hk : s.frame_len ≤ 2)
    (hg : sub32 now s.time ≤ 100000 ∨ s.frame_len = 0) :
    ∃ T, bana_feed nfc s c now now64 = some T ∧ T.dispatched = s.dispatched ∧ T.out = s.out ∧
      T.calls = s.calls ∧ T.time = now % 2 ^ 32 ∧
      (s.frame_len = 0 → (u8 c = 0x55 → T.frame_len = 0) ∧
        (u8 c ≠ 0x55 → T.frame_len = 1 ∧ T.request 0 = u8 c)) ∧
      (s.frame_len = 1 → T.frame_len = 2 ∧ T.request 0 = s.request 0 ∧ T.request 1 = u8 c) ∧
      (s.frame_len = 2 →
        (s.request 0 = 0 ∧ s.request 1 = 0 ∧ u8 c = 0xff →
          T.frame_len = 3 ∧ T.request 0 = 0 ∧ T.request 1 = 0 ∧ T.request 2 = 0xff) ∧
        (¬ (s.request 0 = 0 ∧ s.request 1 = 0 ∧ u8 c = 0xff) →
          T.frame_len = 2 ∧ T.request 0 = s.request 1 % 256 ∧ T.request 1 = u8 c)) := by
  have hu := u8_lt c
  have hum : u8 c % 256 = u8 c := Nat.mod_eq_of_lt hu
  obtain ⟨r, hr, hlt, hcases⟩ := bana_feed_cases nfc s c now now64 (Or.inl (by omega))
  obtain ⟨f1, f2, f3, f4, f5, f6, f7⟩ := feed_reset_fields s (now % 2 ^ 32)
  rw [← hr] at f1 f2 f3 f4 f5 f6 f7
  have hfl : r.frame_len = s.frame_len := by
    rw [hr, feed_reset_frame_len, sub32_mod_left, RAW_SIZE]
    rcases hg with hg | hg
    · have hn : ¬ (s.frame_len = 128 ∨ sub32 now s.time > 100000) := by omega
      rw [if_neg hn]
    · rw [hg]
      simp
  rcases hcases with ⟨a1, a2, e⟩ | ⟨a1, a2, e⟩ | ⟨a1, a2, e⟩ | ⟨a1, a2, s1, e1, k1, e⟩ |
    ⟨a1, a2, a3, a4, e⟩
  · refine ⟨_, e, f5, f3, f4, rfl, ?_, ?_, ?_⟩
    · intro _
      exact ⟨fun _ => rfl, fun hne => absurd a2 hne⟩
    · intro h1
      omega
    · intro h2
      omega
  · refine ⟨_, e, f5, f3, f4, rfl, ?_, ?_, ?_⟩
    · intro h0
      omega
    · intro h1
      omega
    · intro _
      rw [f1] at a2
      refine ⟨fun hp => absurd hp a2, fun _ => ⟨rfl, ?_, ?_⟩⟩
      · show mset (mset (mset r.request 2 (u8 c)) 0 (r.request 1)) 1 (u8 c) 0 =
          s.request 1 % 256
        rw [mset_other _ _ _ _ (by decide), mset_same, f1]
      · show mset (mset (mset r.request 2 (u8 c)) 0 (r.request 1)) 1 (u8 c) 1 = u8 c
        rw [mset_same, hum]
  · omega
  · omega
  · refine ⟨_, e, f5, f3, f4, rfl, ?_, ?_, ?_⟩
    · intro h0
      refine ⟨fun h55 => absurd h55 (a1 (hfl.trans h0)), fun _ => ⟨?_, ?_⟩⟩
      · simp only [appended]
        omega
      · simp only [appended]
        rw [hfl, h0, mset_same, hum]
    · intro h1
      refine ⟨?_, ?_, ?_⟩
      · simp only [appended]
        omega
      · simp only [appended]
        rw [hfl, h1, mset_other _ _ _ _ (by decide), f1]
      · simp only [appended]
        rw [hfl, h1, mset_same, hum]
    · intro h2
      obtain ⟨p0, p1, p2⟩ := a2 (hfl.trans h2)
      rw [f1] at p0 p1
      refine ⟨fun _ => ⟨?_, ?_, ?_, ?_⟩, fun hn => absurd ⟨p0, p1, p2⟩ hn⟩
      · simp only [appended]
        omega
      · simp only [appended]
        rw [hfl, h2, mset_other _ _ _ _ (by decide), f1]
        exact p0
      · simp only [appended]
        rw [hfl, h2, mset_other _ _ _ _ (by decide), f1]
        exact p1
      · simp only [appended]
        rw [hfl, h2, mset_same, hum]
        exact p2

/-- Two arbitrary bytes fed at byte count 0 leave a byte count of at most 2. -/
theorem garbage_run (nfc : Nfc) (s : State) (g1 g2 : Input) (hs : s.frame_len = 0)
    (hg : sub32 g2.now g1.now ≤ 100000) :
    ∃ T, quiet nfc s [g1, g2] T ∧ T.frame_len ≤ 2 ∧ T.time = g2.now % 2 ^ 32 := by
  obtain ⟨T1, e1, d1, o1, c1, t1, z1, -, -⟩ :=
    feed_low nfc s g1.c g1.now g1.now64 (by omega) (Or.inr hs)
  have hT1 : T1.frame_len ≤ 1 := by
    by_cases h55 : u8 g1.c = 0x55
    · rw [(z1 hs).1 h55]
      omega
    · rw [((z1 hs).2 h55).1]
  have hg2 : sub32 g2.now T1.time ≤ 100000 := by
    rw [t1, sub32_mod_right]
    exact hg
  obtain ⟨T2, e2, d2, o2, c2, t2, z2, y2, -⟩ :=
    feed_low nfc T1 g2.c g2.now g2.now64 (by omega) (Or.inl hg2)
  have hT2 : T2.frame_len ≤ 2 := by
    by_cases h0 : T1.frame_len = 0
    · by_cases h55 : u8 g2.c = 0x55
      · rw [(z2 h0).1 h55]
        omega
      · rw [((z2 h0).2 h55).1]
        omega
    · rw [(y2 (by omega)).1]
  exact ⟨T2, quiet_append (quiet_single nfc s T1 g1 e1 d1 o1 c1)
    (quiet_single nfc T1 T2 g2 e2 d2 o2 c2), hT2, t2⟩

/-- The bytes `00 00 FF` fed at a byte count of at most 2 leave the byte count at 3 with
the preamble at the head of the buffer. -/
theorem preamble_sync (nfc : Nfc) (T : State) (i0 i1 i2 : Input) (hT : T.frame_len ≤ 2)
    (b0 : u8 i0.c = 0x00) (b1 : u8 i1.c = 0x00) (b2 : u8 i2.c = 0xff)
    (hg : gaps_ok T.time [i0, i1, i2]) :
    ∃ T5, quiet nfc T [i0, i1, i2] T5 ∧ T5.frame_len = 3 ∧ T5.request 0 = 0x00 ∧
      T5.request 1 = 0x00 ∧ T5.request 2 = 0xff ∧ T5.time = i2.now % 2 ^ 32 := by
  obtain ⟨g0, g1, g2, -⟩ := hg
  have n0 : u8 i0.c ≠ 0x55 := by rw [b0]; decide
  have n1 : u8 i1.c ≠ 0x55 := by rw [b1]; decide
  have nf0 : ∀ x y : Nat, ¬ (x = 0 ∧ y = 0 ∧ u8 i0.c = 0xff) := by
    intro x y h
    rw [b0] at h
    exact absurd h.2.2 (by decide)
  have nf1 : ∀ x y : Nat, ¬ (x = 0 ∧ y = 0 ∧ u8 i1.c = 0xff) := by
    intro x y h
    rw [b1] at h
    exact absurd h.2.2 (by decide)
  obtain ⟨T3, e3, d3, o3, c3, t3, z3, y3, x3⟩ :=
    feed_low nfc T i0.c i0.now i0.now64 hT (Or.inl g0)
  have hT3 : (T3.frame_len = 1 ∧ T3.request 0 = 0) ∨ (T3.frame_len = 2 ∧ T3.request 1 = 0) := by
    by_cases h0 : T.frame_len = 0
    · left
      obtain ⟨p1, p2⟩ := (z3 h0).2 n0
      exact ⟨p1, p2.trans b0⟩
    · right
      by_cases h1 : T.frame_len = 1
      · obtain ⟨p1, -, p3⟩ := y3 h1
        exact ⟨p1, p3.trans b0⟩
      · obtain ⟨p1, -, p3⟩ := (x3 (by omega)).2 (nf0 _ _)
        exact ⟨p1, p3.trans b0⟩
  have hg3 : sub32 i1.now T3.time ≤ 100000 := by
    rw [t3, sub32_mod_right]
    exact g1
  obtain ⟨T4, e4, d4, o4, c4, t4, -, y4, x4⟩ :=
    feed_low nfc T3 i1.c i1.now i1.now64 (by omega) (Or.inl hg3)
  have hT4 : T4.frame_len = 2 ∧ T4.request 0 = 0 ∧ T4.request 1 = 0 := by
    rcases hT3 with ⟨q1, q2⟩ | ⟨q1, q2⟩
    · obtain ⟨p1, p2, p3⟩ := y4 q1
      exact ⟨p1, p2.trans q2, p3.trans b1⟩
    · obtain ⟨p1, p2, p3⟩ := (x4 q1).2 (nf1 _ _)
      refine ⟨p1, ?_, p3.trans b1⟩
      rw [p2, q2]
  have hg4 : sub32 i2.now T4.time ≤ 100000 := by
    rw [t4, sub32_mod_right]
    exact g2
  obtain ⟨T5, e5, d5, o5, c5, t5, -, -, x5⟩ :=
    feed_low nfc T4 i2.c i2.now i2.now64 (by omega) (Or.inl hg4)
  obtain ⟨p1, p2, p3, p4⟩ := (x5 hT4.1).1 ⟨hT4.2.1, hT4.2.2, b2⟩
  have q34 := quiet_append (quiet_single nfc T T3 i0 e3 d3 o3 c3)
    (quiet_single nfc T3 T4 i1 e4 d4 o4 c4)
  have q45 := quiet_append q34 (quiet_single nfc T4 T5 i2 e5 d5 o5 c5)
  exact ⟨T5, q45, p1, p2, p3, p4, t5⟩

/-- After the preamble: the length byte and the next `L + 2` bytes are appended, and the
byte after them hands the frame to `handle_frame`. -/
theorem tail_run (nfc : Nfc) (T : State) (i3 last : Input) (body : List Input) (L : Nat)
    (hT : T.frame_len = 3) (b3 : u8 i3.c = L) (hL : 1 ≤ L) (hL2 : L ≤ 121)
    (hlen : body.length = L + 2) (hg : gaps_ok T.time (i3 :: (body ++ [last]))) :
    quiet nfc T (i3 :: body) (stored T (i3 :: body)) ∧
      feed_all nfc T (i3 :: (body ++ [last])) =
        (handle_frame nfc (arrived (stored T (i3 :: body)) last.c last.now)).bind
          (fun s1 => some (completed s1 last.now64)) ∧
      (stored T (i3 :: body)).frame_len = L + 6 ∧
      (∀ j, j < 3 → (stored T (i3 :: body)).request j = T.request j) ∧
      ∀ j, j < L + 3 →
        (stored T (i3 :: body)).request (3 + j) = ((i3 :: body).map (fun i => u8 i.c)).getD j 0 := by
  have hu := u8_lt i3.c
  have e3 : mset T.request 3 (u8 i3.c) 3 = L := by
    rw [mset_same, b3]
    omega
  have hg1 : gaps_ok T.time (i3 :: body) := gaps_ok_append_left (i3 :: body) [last] _ hg
  have hp : plain_ok T (i3 :: body) := by
    refine ⟨⟨by omega, hg1.1, by omega, by omega, by omega, ?_⟩, ?_⟩
    · rw [hT, e3]
      omega
    · apply plain_ok_body
      · simp only [appended, hT]
        omega
      · simp only [appended, hT]
        rw [e3]
        omega
      · simp only [appended, hT]
        rw [e3]
        omega
      · simp only [appended, hT]
        omega
      · simp only [appended]
        exact (gaps_ok_mod _ _).mpr hg1.2
  obtain ⟨s1, -⟩ := stored_fields (i3 :: body) T
  have hfl : (stored T (i3 :: body)).frame_len = L + 6 := by
    rw [s1, hT]
    simp only [List.length_cons]
    omega
  have hnew : ∀ j, j < L + 3 →
      (stored T (i3 :: body)).request (3 + j) = ((i3 :: body).map (fun i => u8 i.c)).getD j 0 := by
    intro j hj
    have h := stored_request_new (i3 :: body) T j (by simp only [List.length_cons]; omega)
    rw [hT] at h
    exact h
  have h3 : (stored T (i3 :: body)).request 3 = L := by
    have h := hnew 0 (by omega)
    simpa [b3] using h
  refine ⟨quiet_plain nfc T _ hp, ?_, hfl, ?_, hnew⟩
  · have e : i3 :: (body ++ [last]) = (i3 :: body) ++ [last] := rfl
    rw [e, feed_all_append, plain_ok_run nfc _ _ hp]
    simp only [Option.bind_eq_bind, Option.some_bind, feed_all]
    rw [feed_dispatch nfc _ last.c last.now last.now64 (by omega)
      (gaps_ok_head _ _ _ (stored_gaps (i3 :: body) [last] T hg)) (by omega) (by rw [hfl, h3])]
    cases handle_frame nfc (arrived (stored T (i3 :: body)) last.c last.now) with
    | none => rfl
    | some x => rfl
  · intro j hj
    exact stored_request_low _ _ _ (by omega)

theorem map_range_of_getD (f : Nat → Nat) (l : List Nat)
    (h : ∀ j, j < l.length → f j = l.getD j 0) : (List.range l.length).map f = l := by
  apply List.ext_getElem
  · simp
  · intro j h1 h2
    simp only [List.getElem_map, List.getElem_range]
    rw [h j h2, List.getD_eq_getElem _ _ h2]

theorem sub32_of_clock (prev now : Nat) (h : prev ≤ now) :
    sub32 now (prev % 2 ^ 32) = (now - prev) % 2 ^ 32 := by
  simp only [sub32]
  omega

/-- A call of `bana_feed` whose staleness test fires on time. -/
theorem feed_stale (nfc : Nfc) (s : State) (c : Int) (now now64 : Nat)
    (h : 100000 < sub32 now s.time) :
    ∃ s1, bana_feed nfc s c now now64 = some s1 ∧ s1.request 0 = u8 c ∧
      s1.frame_len = (if u8 c = 0x55 then 0 else 1) ∧ s1.dispatched = s.dispatched ∧
      s1.out = s.out ∧ s1.calls = s.calls ∧ s1.expire_time = s.expire_time := by
  have hum : u8 c % 256 = u8 c := Nat.mod_eq_of_lt (u8_lt c)
  obtain ⟨r, hr, hlt, hcases⟩ := bana_feed_cases nfc s c now now64 (Or.inr h)
  obtain ⟨f1, f2, f3, f4, f5, f6, f7⟩ := feed_reset_fields s (now % 2 ^ 32)
  rw [← hr] at f1 f2 f3 f4 f5 f6 f7
  have hfl : r.frame_len = 0 := by
    rw [hr, feed_reset_frame_len, sub32_mod_left, if_pos (Or.inr h)]
  rcases hcases with ⟨a1, a2, e⟩ | ⟨a1, a2, e⟩ | ⟨a1, a2, e⟩ | ⟨a1, a2, s1, e1, k1, e⟩ |
    ⟨a1, a2, a3, a4, e⟩
  · refine ⟨_, e, ?_, ?_, f5, f3, f4, f6⟩
    · simp only [appended]
      rw [hfl, mset_same, hum]
    · rw [if_pos a2]
  · omega
  · omega
  · omega
  · refine ⟨_, e, ?_, ?_, f5, f3, f4, f6⟩
    · simp only [appended]
      rw [hfl, mset_same, hum]
    · rw [if_neg (a1 hfl)]
      simp only [appended]
      omega

theorem gaps_ok_at_time (t now now64 : Nat) (l : List Nat) (h1 : sub32 now t ≤ 100000) :
    gaps_ok t (at_time now now64 l) := by
  induction l generalizing t with
  | nil => trivial
  | cons b rest ih =>
    refine ⟨h1, ih now ?_⟩
    have h := sub32_self now
    rw [sub32_mod_right] at h
    omega

theorem overlong_plain : plain_ok init overlong := by
  have e : overlong = ⟨0x00, 0, 0⟩ :: ⟨0x00, 0, 0⟩ :: ⟨0xff, 0, 0⟩ :: ⟨0xc8, 0, 0⟩ ::
      at_time 0 0 (List.replicate 124 0x07) := rfl
  rw [e]
  apply plain_ok_frame init _ _ _ _ _ 200 rfl (by decide) (by decide) (by decide) (by decide)
    (by decide) (by decide)
  · simp [at_time]
  · simp [at_time]
  · exact gaps_ok_at_time 0 0 0 (0x00 :: 0xff :: 0xc8 :: List.replicate 124 0x07) (by decide)

theorem overlong_reachable (nfc : Nfc) : Reachable nfc (stored init overlong) :=
  reachable_feed_all nfc overlong init _ Reachable.start (plain_ok_run nfc _ _ overlong_plain)

theorem overlong_full : (stored init overlong).frame_len = 128 := by
  rw [(stored_fields overlong init).1]
  simp [overlong, at_time, init]

/-- A call of `bana_feed` on a full buffer behaves as on an empty one. -/
theorem feed_full_as_empty (nfc : Nfc) (s : State) (c : Int) (now now64 : Nat)
    (h : s.frame_len = 128) :
    bana_feed nfc s c now now64 = bana_feed nfc { s with frame_len := 0, fed := 0 } c now now64 := by
  have e : feed_reset s (now % 2 ^ 32) =
      feed_reset { s with frame_len := 0, fed := 0 } (now % 2 ^ 32) := by
    have h0 : s.frame_len = RAW_SIZE := h
    by_cases ht : sub32 (now % 2 ^ 32) s.time > 100000
    · simp [feed_reset, h0, ht]
    · simp [feed_reset, h0, ht, RAW_SIZE]
  rw [bana_feed, bana_feed, e]

/-! ## Lemmas on single commands -/

theorem bytesN_lt (n : Nat) (l : List Nat) : ∀ b ∈ bytesN n l, b < 256 := by
  intro b hb
  simp only [bytesN, List.mem_map, List.mem_range] at hb
  obtain ⟨i, -, rfl⟩ := hb
  exact Nat.mod_lt _ (by decide)

theorem handle_frame_4a (nfc : Nfc) (s : State) (h : s.request 6 = 0x4a) :
    handle_frame nfc s = cmd_poll_card nfc s := by
  simp [handle_frame, h]

theorem handle_frame_40 (nfc : Nfc) (s : State) (h : s.request 6 = 0x40) :
    handle_frame nfc s = cmd_mifare nfc s := by
  simp [handle_frame, h]

/-- A handler that logs one driver call and then responds with the bytes `P`. -/
theorem respond_after_call (s : State) (call : NfcCall) (P : List Nat) (h : P.length ≤ 119)
    (hP : ∀ b ∈ P, b < 256) :
    ∃ s1, send_response_data (log_call s call) P = some s1 ∧ s1.calls = s.calls ++ [call] ∧
      s1.out = s.out ++ response_frame (s.request 6) P := by
  obtain ⟨s1, e, o, -, -, -, -, c, -⟩ := send_response_data_out (log_call s call) P h hP
  exact ⟨s1, e, c, o⟩

theorem respond_plain (s : State) (P : List Nat) (h : P.length ≤ 119)
    (hP : ∀ b ∈ P, b < 256) :
    ∃ s1, send_response_data s P = some s1 ∧ s1.calls = s.calls ∧
      s1.out = s.out ++ response_frame (s.request 6) P := by
  obtain ⟨s1, e, o, -, -, -, -, c, -⟩ := send_response_data_out s P h hP
  exact ⟨s1, e, c, o⟩

theorem handle_frame_a0 (nfc : Nfc) (s : State) (h : s.request 6 = 0xa0) :
    handle_frame nfc s = cmd_felica nfc s := by
  simp [handle_frame, h]

theorem handle_frame_other (nfc : Nfc) (s : State)
    (h : s.request 6 ∉ [0x06, 0x08, 0x0c, 0x0e, 0x12, 0x18, 0x32, 0x40, 0x44, 0x4a, 0x52, 0x54,
      0xa0]) :
    handle_frame nfc s = send_ack s := by
  simp only [List.mem_cons, List.mem_singleton, List.not_mem_nil, or_false, not_or] at h
  obtain ⟨h1, h2, h3, h4, h5, h6, h7, h8, h9, h10, h11, h12, h13⟩ := h
  simp [handle_frame, h1, h2, h3, h4, h5, h6, h7, h8, h9, h10, h11, h12, h13]

/-! ## Lemmas on the FeliCa read -/

theorem be16 (a b : Nat) (ha : a < 256) (hb : b < 256) :
    ((a <<< 8) ||| b) % 2 ^ 16 = a * 256 + b := by
  have h := Nat.mul_add_lt_is_or (show b < 2 ^ 8 from hb) a
  rw [Nat.shiftLeft_eq, Nat.mul_comm a (2 ^ 8), ← h]
  have : 2 ^ 8 * a + b < 2 ^ 16 := by
    norm_num
    omega
  rw [Nat.mod_eq_of_lt this]

theorem le16 (a b : Nat) (ha : a < 256) (hb : b < 256) :
    (a ||| (b <<< 8)) % 2 ^ 16 = a + b * 256 := by
  rw [Nat.lor_comm, be16 b a hb ha]
  omega

theorem felica_blocks_calls (nfc : Nfc) (service : Nat) (n : Nat) (t : State) :
    (felica_blocks nfc service n t).1.calls = t.calls ++ (List.range n).map (fun i =>
      NfcCall.felica_read service
        (((t.request (23 + 2 * i) <<< 8) ||| t.request (24 + 2 * i)) % 2 ^ 16)) := by
  induction n with
  | zero => simp [felica_blocks]
  | succ k ih =>
    have hr := (felica_blocks_spec nfc service k t).2.1
    simp only [felica_blocks, log_call, ih, hr, List.range_succ, List.map_append, List.map_cons,
      List.map_nil, List.append_assoc]

theorem felica_blocks_slot (nfc : Nfc) (service : Nat) (n : Nat) (t : State) (i : Nat)
    (hi : i < n) :
    ((felica_blocks nfc service n t).2.drop (16 * i)).take 16 =
      bytesN 16 (nfc.felica_read
        (t.calls ++ (List.range i).map (fun j =>
          NfcCall.felica_read service
            (((t.request (23 + 2 * j) <<< 8) ||| t.request (24 + 2 * j)) % 2 ^ 16)))
        service (((t.request (23 + 2 * i) <<< 8) ||| t.request (24 + 2 * i)) % 2 ^ 16)).2 := by
  induction n with
  | zero => omega
  | succ k ih =>
    have hr := (felica_blocks_spec nfc service k t).2.1
    have hlen := (felica_blocks_spec nfc service k t).2.2.2
    have hc := felica_blocks_calls nfc service k t
    simp only [felica_blocks]
    by_cases hik : i < k
    · rw [List.drop_append_of_le_length (by rw [hlen]; omega),
        List.take_append_of_le_length (by rw [List.length_drop, hlen]; omega)]
      exact ih hik
    · have e : i = k := by omega
      subst e
      rw [List.drop_append_of_le_length (by rw [hlen]), List.drop_of_length_le (by rw [hlen]),
        List.nil_append, List.take_of_length_le (by rw [bytesN_length]), hc, hr]

theorem felica_blocks_lt (nfc : Nfc) (service : Nat) (n : Nat) (t : State) :
    ∀ b ∈ (felica_blocks nfc service n t).2, b < 256 := by
  induction n with
  | zero =>
    intro b hb
    simp [felica_blocks] at hb
  | succ k ih =>
    intro b hb
    simp only [felica_blocks, List.mem_append] at hb
    rcases hb with hb | hb
    · exact ih b hb
    · exact bytesN_lt 16 _ b hb

theorem raw_block_code (s : State) (v : Nat) (hb : ∀ j, s.request j < 256) (i : Nat) :
    ((mset s.request 9 v (23 + 2 * i) <<< 8) ||| mset s.request 9 v (24 + 2 * i)) % 2 ^ 16 =
      block_code s i := by
  rw [mset_other _ _ _ _ (by omega), mset_other _ _ _ _ (by omega),
    be16 _ _ (hb _) (hb _), block_code]

theorem raw_read_calls (s : State) (v : Nat) (hb : ∀ j, s.request j < 256) (n : Nat) :
    (List.range n).map (fun i => NfcCall.felica_read (service_code s)
      (((mset s.request 9 v (23 + 2 * i) <<< 8) ||| mset s.request 9 v (24 + 2 * i)) % 2 ^ 16)) =
      read_calls s n := by
  rw [read_calls]
  apply List.map_congr_left
  intro i _
  rw [raw_block_code s v hb i]

/-- The FeliCa read on a request whose length byte is not 2. -/
theorem cmd_felica_read_spec (nfc : Nfc) (s : State) (v : Nat)
    (hb : ∀ j, s.request j < 256) :
    ∃ s1 slots, cmd_felica_read nfc { s with request := mset s.request 9 v } = some s1 ∧
      s1.calls = s.calls ++ read_calls s (min (s.request 22) 4) ∧
      slots.length = 16 * min (s.request 22) 4 ∧
      (∀ i, i < min (s.request 22) 4 →
        (slots.drop (16 * i)).take 16 =
          bytesN 16 (nfc.felica_read (s.calls ++ read_calls s i) (service_code s)
            (block_code s i)).2) ∧
      s1.out = s.out ++ response_frame (s.request 6)
        ([0x00, 13 + 16 * min (s.request 22) 4, 0x07] ++
          (List.range 8).map (fun i => s.request (11 + i)) ++
          [0x00, 0x00, min (s.request 22) 4] ++ slots) := by
  have hbn : (if mset s.request 9 v 22 > 4 then 4 else mset s.request 9 v 22) =
      min (s.request 22) 4 := by
    rw [mset_other _ _ _ _ (by decide)]
    split_ifs <;> omega
  have hsvc : (mset s.request 9 v 20 ||| (mset s.request 9 v 21 <<< 8)) % 2 ^ 16 =
      service_code s := by
    rw [mset_other _ _ _ _ (by decide), mset_other _ _ _ _ (by decide),
      le16 _ _ (hb _) (hb _), service_code]
  have hidm : (List.range 8).map (fun i => mset s.request 9 v (11 + i)) =
      (List.range 8).map (fun i => s.request (11 + i)) := by
    apply List.map_congr_left
    intro i _
    rw [mset_other _ _ _ _ (by omega)]
  simp only [cmd_felica_read]
  rw [hbn, hsvc, hidm]
  generalize hn : min (s.request 22) 4 = n
  have hn4 : n ≤ 4 := by omega
  obtain ⟨k1, k2, k3, k4⟩ := felica_blocks_spec nfc (service_code s) n
    { s with request := mset s.request 9 v }
  have hcalls := felica_blocks_calls nfc (service_code s) n
    { s with request := mset s.request 9 v }
  have e1 : (2 + 8 + 2 + 1 + n * 16) % 256 = 13 + 16 * n := by omega
  have e2 : n % 256 = n := by omega
  rw [e1, e2]
  obtain ⟨s1, e, o, -, -, -, -, c, -⟩ := send_response_data_out
    (felica_blocks nfc (service_code s) n { s with request := mset s.request 9 v }).1
    ([0, 13 + 16 * n, 0x07] ++ (List.range 8).map (fun i => s.request (11 + i)) ++ [0, 0] ++
      [n] ++ (felica_blocks nfc (service_code s) n { s with request := mset s.request 9 v }).2)
    (by simp [k4]; omega)
    (by
      intro b hb1
      rw [List.mem_append] at hb1
      rcases hb1 with hb1 | hb1
      · rw [List.mem_append, List.mem_append, List.mem_append] at hb1
        rcases hb1 with ((hb1 | hb1) | hb1) | hb1
        · simp only [List.mem_cons, List.mem_singleton, List.not_mem_nil, or_false] at hb1
          omega
        · simp only [List.mem_map, List.mem_range] at hb1
          obtain ⟨i, -, rfl⟩ := hb1
          exact hb _
        · simp only [List.mem_cons, List.mem_singleton, List.not_mem_nil, or_false] at hb1
          omega
        · simp only [List.mem_singleton] at hb1
          omega
      · exact felica_blocks_lt nfc _ n _ b hb1)
  refine ⟨s1, (felica_blocks nfc (service_code s) n
    { s with request := mset s.request 9 v }).2, e, ?_, k4, ?_, ?_⟩
  · rw [c, hcalls]
    simp only
    rw [raw_read_calls s v hb n]
  · intro i hi
    have h := felica_blocks_slot nfc (service_code s) n
      { s with request := mset s.request 9 v } i hi
    simp only at h
    rw [raw_read_calls s v hb i, raw_block_code s v hb i] at h
    exact h
  · rw [o, k3, k2]
    simp only [mset_other _ _ _ _ (show (6 : Nat) ≠ 9 by decide), List.append_assoc,
      List.cons_append, List.nil_append]

theorem holding_bytes (frame : List Nat) (h : ∀ b ∈ frame, b < 256) :
    ∀ j, (holding frame).request j < 256 := by
  intro j
  show frame.getD j 0 < 256
  by_cases hj : j < frame.length
  · rw [List.getD_eq_getElem _ _ hj]
    exact h _ (List.getElem_mem hj)
  · rw [List.getD_eq_default _ _ (by omega)]
    decide

/-! ## What the dispatcher sends -/

theorem send_response_data_len (s s1 : State) (data : List Nat) (h : data.length ≤ 119)
    (e : send_response_data s data = some s1) : s1.response 3 = data.length + 2 := by
  rw [send_response_data_eq s data h] at e
  cases e
  have hlen := staged_len s data h
  show finished (staged s data) _ 3 = data.length + 2
  simp only [finished, hlen]
  rw [mset_other _ _ _ _ (by omega), mset_other _ _ _ _ (by omega),
    mset_other _ _ _ _ (by omega)]
  simp [mcopy, hlen]

theorem responds_of_send (s t s1 : State) (data : List Nat) (h : data.length ≤ 78)
    (ho : t.out = s.out) (hr : t.request 6 = s.request 6)
    (e : send_response_data t data = some s1) : Responds s s1 :=
  ⟨t, data, s1, h, ho, hr, e, rfl, rfl⟩

/-- The dispatcher always returns, having sent nothing, the bare ACK, or one response. -/
theorem handle_frame_outcome (nfc : Nfc) (s : State) :
    ∃ s1, handle_frame nfc s = some s1 ∧ Outcome s s1 := by
  have simple : ∀ (t : State) (data : List Nat), data.length ≤ 78 → t.out = s.out →
      t.request 6 = s.request 6 → ∃ s1, send_response_data t data = some s1 ∧ Outcome s s1 := by
    intro t data h ho hr
    obtain ⟨s1, e1, -⟩ := send_response_data_keeps t data (by omega)
    exact ⟨s1, e1, Or.inr (Or.inr (responds_of_send s t s1 data h ho hr e1))⟩
  have ack : ∃ s1, send_ack s = some s1 ∧ Outcome s s1 :=
    ⟨_, send_ack_eq s, Or.inr (Or.inl ⟨rfl, rfl⟩)⟩
  have poll : ∃ s1, cmd_poll_card nfc s = some s1 ∧ Outcome s s1 := by
    unfold cmd_poll_card handle_mifare handle_felica handle_no_card
    simp only
    split
    · exact simple _ _ (by simp [bytesN_length]) rfl rfl
    · exact simple _ _ (by simp [bytesN_length]) rfl rfl
    · exact simple _ _ (by simp) rfl rfl
  have auth : ∀ k, ∃ s1, cmd_mifare_auth nfc s k = some s1 ∧ Outcome s s1 := by
    intro k
    unfold cmd_mifare_auth
    simp only
    split
    · exact simple _ _ (by simp) rfl rfl
    · exact simple _ _ (by simp) rfl rfl
  have mread : ∃ s1, cmd_mifare_read nfc s = some s1 ∧ Outcome s s1 := by
    unfold cmd_mifare_read
    simp only
    split
    · exact simple _ _ (by simp [bytesN_length]) rfl rfl
    · exact simple _ _ (by simp) rfl rfl
  have mifare : ∃ s1, cmd_mifare nfc s = some s1 ∧ Outcome s s1 := by
    unfold cmd_mifare
    split
    · exact auth 0
    · split
      · exact auth 1
      · split
        · exact mread
        · exact ack
  have rf : ∃ s1, cmd_rf_field s = some s1 ∧ Outcome s s1 := by
    unfold cmd_rf_field send_simple_response
    split
    · exact simple _ _ (by simp) rfl rfl
    · exact simple _ _ (by simp) rfl rfl
  have felica : ∀ _ : s.request 6 = 0xa0, ∃ s1, cmd_felica nfc s = some s1 ∧ Outcome s s1 := by
    intro ha0
    unfold cmd_felica
    simp only
    generalize (s.request 3 + 256 - 2) % 256 = v
    by_cases h6 : s.request 10 = 0x06
    · rw [if_pos h6]
      by_cases hv : v ≠ 0
      · rw [if_pos hv]
        have hb : (if mset s.request 9 v 22 > 4 then 4 else mset s.request 9 v 22) ≤ 4 := by
          split_ifs <;> omega
        simp only [cmd_felica_read]
        generalize (if mset s.request 9 v 22 > 4 then 4 else mset s.request 9 v 22) = bn at hb ⊢
        generalize (mset s.request 9 v 20 ||| (mset s.request 9 v 21 <<< 8)) % 2 ^ 16 = service
        obtain ⟨-, k2, k3, k4⟩ := felica_blocks_spec nfc service bn
          { s with request := mset s.request 9 v }
        have hlen : ([0, (2 + 8 + 2 + 1 + bn * 16) % 256, 0x07] ++
            (List.range 8).map (fun i => mset s.request 9 v (11 + i)) ++ [0, 0] ++ [bn % 256] ++
            (felica_blocks nfc service bn { s with request := mset s.request 9 v }).2).length
            ≤ 78 := by
          simp only [List.length_append, List.length_cons, List.length_nil, List.length_map,
            List.length_range, k4]
          omega
        refine simple _ _ hlen k3 ?_
        rw [k2]
        exact mset_other s.request 9 v 6 (by decide)
      · rw [if_neg hv]
        exact ⟨_, rfl, Or.inl ⟨rfl, rfl, ha0⟩⟩
    · rw [if_neg h6]
      exact ⟨_, rfl, Or.inl ⟨rfl, rfl, ha0⟩⟩
  have sel : ∃ s1, cmd_select s = some s1 ∧ Outcome s s1 := by
    unfold cmd_select
    obtain ⟨s1, e1, -⟩ := send_response_data_keeps s [0x00] (by simp)
    refine ⟨log_call s1 .nfc_select, by simp [e1], Or.inr (Or.inr ?_)⟩
    exact ⟨s, [0x00], s1, by simp, rfl, rfl, e1, rfl, rfl⟩
  unfold handle_frame send_simple_response cmd_gpio cmd_deselect cmd_release
  by_cases c0 : s.request 6 = 0x18 ∨ s.request 6 = 0x12
  · rw [if_pos c0]
    exact simple s [] (by simp) rfl rfl
  rw [if_neg c0]
  by_cases c1 : s.request 6 = 0x0e
  · rw [if_pos c1]
    exact simple s [] (by simp) rfl rfl
  rw [if_neg c1]
  by_cases c2 : s.request 6 = 0x08
  · rw [if_pos c2]
    exact simple _ _ (by simp) rfl rfl
  rw [if_neg c2]
  by_cases c3 : s.request 6 = 0x06
  · rw [if_pos c3]
    by_cases d : s.request 8 = 0x1c
    · rw [if_pos d]
      exact simple s _ (by simp) rfl rfl
    · rw [if_neg d]
      exact simple s _ (by simp) rfl rfl
  rw [if_neg c3]
  by_cases c4 : s.request 6 = 0x32
  · rw [if_pos c4]
    exact rf
  rw [if_neg c4]
  by_cases c5 : s.request 6 = 0x0c
  · rw [if_pos c5]
    exact simple s _ (by simp) rfl rfl
  rw [if_neg c5]
  by_cases c6 : s.request 6 = 0x4a
  · rw [if_pos c6]
    exact poll
  rw [if_neg c6]
  by_cases c7 : s.request 6 = 0x40
  · rw [if_pos c7]
    exact mifare
  rw [if_neg c7]
  by_cases c8 : s.request 6 = 0x44
  · rw [if_pos c8]
    exact simple _ _ (by simp) rfl rfl
  rw [if_neg c8]
  by_cases c9 : s.request 6 = 0xa0
  · rw [if_pos c9]
    exact felica c9
  rw [if_neg c9]
  by_cases c10 : s.request 6 = 0x52
  · rw [if_pos c10]
    exact simple s _ (by simp) rfl rfl
  rw [if_neg c10]
  by_cases c11 : s.request 6 = 0x54
  · rw [if_pos c11]
    exact sel
  rw [if_neg c11]
  exact ack

/-! ## Zero-length frames and whole frames -/



theorem stored_reachable (nfc : Nfc) (s : State) (l : List Input) (hs : Reachable nfc s)
    (h : plain_ok s l) : Reachable nfc (stored s l) :=
  reachable_feed_all nfc l s _ hs (plain_ok_run nfc _ _ h)

/-- A run of plain appends that starts with the staleness/overflow reset of its first
call dispatches nothing. -/
theorem quiet_reset (nfc : Nfc) (s : State) (i : Input) (rest : List Input)
    (h : plain_ok (feed_reset s (i.now % 2 ^ 32)) (i :: rest)) :
    quiet nfc s (i :: rest) (stored (feed_reset s (i.now % 2 ^ 32)) (i :: rest)) := by
  obtain ⟨f1, f2, f3, f4, f5, f6, f7⟩ := feed_reset_fields s (i.now % 2 ^ 32)
  obtain ⟨e, hk⟩ := quiet_plain nfc _ _ h
  refine ⟨by rw [← feed_all_reset]; exact e, ?_⟩
  intro k hk2
  cases k with
  | zero => exact ⟨s, rfl, rfl, rfl, rfl⟩
  | succ n =>
    obtain ⟨sk, e1, d1, d2, d3⟩ := hk (n + 1) hk2
    rw [List.take_succ_cons] at e1 ⊢
    rw [feed_all_reset] at e1
    exact ⟨sk, e1, d1.trans f5, d2.trans f3, d3.trans f4⟩

/-- The zero-length reset: at byte count 5 with length byte 0 the sixth byte is stored
and the byte count returns to 0; nothing is dispatched. -/
theorem feed_zero_len (nfc : Nfc) (s : State) (c : Int) (now now64 : Nat)
    (h5 : s.frame_len = 5) (h3 : s.request 3 = 0) (hg : sub32 now s.time ≤ 100000) :
    ∃ T, bana_feed nfc s c now now64 = some T ∧ T.frame_len = 0 ∧
      T.dispatched = s.dispatched ∧ T.out = s.out ∧ T.calls = s.calls ∧
      T.expire_time = s.expire_time ∧ T.time = now % 2 ^ 32 := by
  obtain ⟨r, hr, hlt, hcases⟩ := bana_feed_cases nfc s c now now64 (Or.inl (by omega))
  rw [feed_reset_fresh s now (by omega) hg] at hr
  have hfl : r.frame_len = 5 := by rw [hr]; exact h5
  have hr3 : r.request 3 = 0 := by rw [hr]; exact h3
  rcases hcases with ⟨a1, -⟩ | ⟨a1, -⟩ | ⟨-, -, e⟩ | ⟨a1, -⟩ | ⟨-, -, a3, -⟩
  · omega
  · omega
  · refine ⟨_, e, rfl, ?_, ?_, ?_, ?_, rfl⟩
    all_goals rw [hr]
    all_goals rfl
  · omega
  · exact absurd hr3 (a3 hfl)



/-- The first five bytes `00 00 FF 00 x` fed from byte count 0 are plain appends. -/
theorem plain_ok_ack_head (s : State) (i0 i1 i2 i3 i4 : Input)
    (hs : s.frame_len = 0) (ht : sub32 i0.now s.time ≤ 100000)
    (b0 : u8 i0.c = 0x00) (b1 : u8 i1.c = 0x00) (b2 : u8 i2.c = 0xff)
    (hg : gaps_ok i0.now [i1, i2, i3, i4]) :
    plain_ok s [i0, i1, i2, i3, i4] := by
  obtain ⟨g1, g2, g3, g4, -⟩ := hg
  refine ⟨⟨by omega, ht, ?_, by omega, by omega, ?_⟩, ⟨?_, ?_, ?_, ?_, ?_, ?_⟩, ⟨?_, ?_, ?_, ?_, ?_, ?_⟩,
    ⟨?_, ?_, ?_, ?_, ?_, ?_⟩, ⟨?_, ?_, ?_, ?_, ?_, ?_⟩, trivial⟩
  · intro _
    rw [b0]
    decide
  · rw [hs]
    omega
  all_goals simp only [appended, hs, Nat.zero_add, Nat.reduceAdd]
  · omega
  · rw [sub32_mod_right]
    exact g1
  · omega
  · omega
  · omega
  · omega
  · omega
  · rw [sub32_mod_right]
    exact g2
  · omega
  · intro _
    simp [mset, b0, b1, b2]
  · omega
  · omega
  · omega
  · rw [sub32_mod_right]
    exact g3
  · omega
  · omega
  · omega
  · omega
  · omega
  · rw [sub32_mod_right]
    exact g4
  · omega
  · omega
  · omega
  · omega

/-- Six bytes `00 00 FF 00 x y` fed from byte count 0: five plain appends, then the
zero-length reset. -/
theorem ack_run (nfc : Nfc) (s : State) (i0 i1 i2 i3 i4 i5 : Input) (hs : s.frame_len = 0)
    (b0 : u8 i0.c = 0x00) (b1 : u8 i1.c = 0x00) (b2 : u8 i2.c = 0xff) (b3 : u8 i3.c = 0x00)
    (hg : gaps_ok i0.now [i1, i2, i3, i4, i5]) :
    ∃ T, quiet nfc s [i0, i1, i2, i3, i4, i5] T ∧ T.frame_len = 0 ∧
      T.expire_time = s.expire_time ∧
      ∀ k, k < 6 → ∃ sk, feed_all nfc s ([i0, i1, i2, i3, i4, i5].take k) = some sk ∧
        sk.frame_len = k := by
  obtain ⟨f1, f2, f3, f4, f5, f6, f7⟩ := feed_reset_fields s (i0.now % 2 ^ 32)
  have hr0 : (feed_reset s (i0.now % 2 ^ 32)).frame_len = 0 := by
    rw [feed_reset_frame_len, hs]
    simp
  have hrt : sub32 i0.now (feed_reset s (i0.now % 2 ^ 32)).time ≤ 100000 := by
    rw [f7, sub32_self]
    omega
  have hg1 : gaps_ok i0.now [i1, i2, i3, i4] :=
    gaps_ok_append_left [i1, i2, i3, i4] [i5] _ hg
  have hp := plain_ok_ack_head (feed_reset s (i0.now % 2 ^ 32)) i0 i1 i2 i3 i4 hr0 hrt b0 b1 b2 hg1
  have q5 := quiet_reset nfc s i0 [i1, i2, i3, i4] hp
  obtain ⟨s1, s2, s3, s4, s5, s6, s7⟩ :=
    stored_fields [i0, i1, i2, i3, i4] (feed_reset s (i0.now % 2 ^ 32))
  have hfl : (stored (feed_reset s (i0.now % 2 ^ 32)) [i0, i1, i2, i3, i4]).frame_len = 5 := by
    rw [s1, hr0]
    rfl
  have h3 : (stored (feed_reset s (i0.now % 2 ^ 32)) [i0, i1, i2, i3, i4]).request 3 = 0 := by
    have h := stored_request_new [i0, i1, i2, i3, i4] (feed_reset s (i0.now % 2 ^ 32)) 3
      (by simp)
    rw [hr0, Nat.zero_add] at h
    rw [h]
    simp [b3]
  have hgl : gaps_ok (feed_reset s (i0.now % 2 ^ 32)).time ([i0, i1, i2, i3, i4] ++ [i5]) := by
    refine ⟨hrt, ?_⟩
    simpa using hg
  have hg5 := gaps_ok_head _ _ _ (stored_gaps [i0, i1, i2, i3, i4] [i5] _ hgl)
  obtain ⟨T, e, t0, t1, t2, t3, t4, -⟩ := feed_zero_len nfc _ i5.c i5.now i5.now64 hfl h3 hg5
  have q6 := quiet_single nfc _ T i5 e t1 t2 t3
  refine ⟨T, quiet_append q5 q6, t0, t4.trans (s6.trans f6), ?_⟩
  intro k hk
  cases k with
  | zero => exact ⟨s, rfl, hs⟩
  | succ n =>
    have e1 : [i0, i1, i2, i3, i4, i5].take (n + 1) = [i0, i1, i2, i3, i4].take (n + 1) := by
      have e2 : [i0, i1, i2, i3, i4, i5] = [i0, i1, i2, i3, i4] ++ [i5] := rfl
      rw [e2, List.take_append_of_le_length]
      simp only [List.length_cons, List.length_nil]
      omega
    have hpk := plain_ok_take _ (n + 1) _ hp
    have hrun := plain_ok_run nfc _ _ hpk
    obtain ⟨u1, -⟩ := stored_fields ([i0, i1, i2, i3, i4].take (n + 1))
      (feed_reset s (i0.now % 2 ^ 32))
    refine ⟨stored (feed_reset s (i0.now % 2 ^ 32)) ([i0, i1, i2, i3, i4].take (n + 1)), ?_, ?_⟩
    · rw [e1, ← hrun]
      simp only [List.take_succ_cons]
      exact (feed_all_reset nfc s i0 _).symm
    · rw [u1, hr0, List.length_take]
      simp only [List.length_cons, List.length_nil]
      omega

/-- A whole frame `00 00 FF L ...` of `L + 7` bytes fed from byte count 0 is handed to
`handle_frame` once, with the buffer holding its bytes. -/
theorem frame_dispatch (nfc : Nfc) (s : State) (i0 i1 i2 i3 : Input) (rest : List Input)
    (L : Nat) (hs : s.frame_len = 0)
    (b0 : u8 i0.c = 0x00) (b1 : u8 i1.c = 0x00) (b2 : u8 i2.c = 0xff) (b3 : u8 i3.c = L)
    (hL : 1 ≤ L) (hL2 : L ≤ 121) (hlen : rest.length = L + 3)
    (hg : gaps_ok i0.now (i1 :: i2 :: i3 :: rest)) :
    ∃ s1 d, feed_all nfc s (i0 :: i1 :: i2 :: i3 :: rest) = some s1 ∧
      s1.dispatched = s.dispatched ++ [d] ∧ d.frame_len = L + 7 ∧
      (List.range (L + 7)).map d.request = (i0 :: i1 :: i2 :: i3 :: rest).map (fun i => u8 i.c) ∧
      s1.frame_len = 0 := by
  obtain ⟨body, last, e, hbody⟩ := split_last rest (L + 2) hlen
  subst e
  obtain ⟨S, -, -, hrun, hfl, -, -, hd, -, hreq⟩ :=
    frame_run nfc s i0 i1 i2 i3 last body L hs b0 b1 b2 b3 hL hL2 hbody hg
  obtain ⟨s6, e6, -, -, -, k6, -⟩ := handle_frame_total nfc (arrived S last.c last.now)
  refine ⟨completed s6 last.now64,
    { request := mset S.request S.frame_len (u8 last.c), frame_len := S.frame_len + 1,
      fed := S.fed + 1 }, ?_, ?_, ?_, ?_, rfl⟩
  · rw [hrun, e6]
    rfl
  · simp only [completed]
    rw [k6]
    simp only [arrived]
    rw [hd]
  · simp only [hfl]
  · have hlen2 : ((i0 :: i1 :: i2 :: i3 :: (body ++ [last])).map (fun i => u8 i.c)).length = L + 7 := by
      simp only [List.length_map, List.length_cons, List.length_append, List.length_nil]
      omega
    rw [← hlen2]
    apply map_range_of_getD
    intro j hj
    rw [hlen2] at hj
    simp only [hfl]
    have el : i0 :: i1 :: i2 :: i3 :: (body ++ [last]) = (i0 :: i1 :: i2 :: i3 :: body) ++ [last] :=
      rfl
    have hl4 : ((i0 :: i1 :: i2 :: i3 :: body).map (fun i => u8 i.c)).length = L + 6 := by
      simp only [List.length_map, List.length_cons]
      omega
    rw [el, List.map_append]
    by_cases hj2 : j < L + 6
    · rw [mset_other _ _ _ _ (by omega), hreq j hj2, List.getD_append _ _ _ _ (by omega)]
    · have hj3 : j = L + 6 := by omega
      subst hj3
      rw [mset_same, Nat.mod_eq_of_lt (u8_lt _), List.getD_append_right _ _ _ _ (by omega), hl4]
      simp

/-- The first eight bytes of the status query `00 00 FF 02 FE D4 0C 20 00` are plain
appends from the initial state. -/
theorem status_head_plain :
    plain_ok init (at_time 0 0 [0x00, 0x00, 0xff, 0x02, 0xfe, 0xd4, 0x0c, 0x20]) := by
  have e : at_time 0 0 [0x00, 0x00, 0xff, 0x02, 0xfe, 0xd4, 0x0c, 0x20] =
      ⟨0x00, 0, 0⟩ :: ⟨0x00, 0, 0⟩ :: ⟨0xff, 0, 0⟩ :: ⟨0x02, 0, 0⟩ ::
        at_time 0 0 [0xfe, 0xd4, 0x0c, 0x20] := rfl
  rw [e]
  apply plain_ok_frame init _ _ _ _ _ 2 rfl (by decide) (by decide) (by decide) (by decide)
    (by decide) (by decide)
  · simp [at_time]
  · simp [at_time]
  · exact gaps_ok_at_time 0 0 0 [0x00, 0xff, 0x02, 0xfe, 0xd4, 0x0c, 0x20] (by decide)

/-- A run of plain appends from byte count 0: after `k` bytes the byte count is `k` and
nothing has been dispatched or sent. -/
theorem reset_prefix (nfc : Nfc) (s : State) (i : Input) (rest : List Input)
    (hs : s.frame_len = 0) (h : plain_ok (feed_reset s (i.now % 2 ^ 32)) (i :: rest))
    (k : Nat) (hk : k ≤ (i :: rest).length) :
    ∃ sk, feed_all nfc s ((i :: rest).take k) = some sk ∧ sk.dispatched = s.dispatched ∧
      sk.out = s.out ∧ sk.calls = s.calls ∧ sk.frame_len = k := by
  obtain ⟨f1, f2, f3, f4, f5, f6, f7⟩ := feed_reset_fields s (i.now % 2 ^ 32)
  have hr0 : (feed_reset s (i.now % 2 ^ 32)).frame_len = 0 := by
    rw [feed_reset_frame_len, hs]
    simp
  cases k with
  | zero => exact ⟨s, rfl, rfl, rfl, rfl, hs⟩
  | succ n =>
    have hpk := plain_ok_take _ (n + 1) _ h
    have hrun := plain_ok_run nfc _ _ hpk
    obtain ⟨s1, s2, s3, s4, -⟩ :=
      stored_fields ((i :: rest).take (n + 1)) (feed_reset s (i.now % 2 ^ 32))
    refine ⟨stored (feed_reset s (i.now % 2 ^ 32)) ((i :: rest).take (n + 1)), ?_,
      s3.trans f5, s2.trans f3, s4.trans f4, ?_⟩
    · rw [← hrun]
      simp only [List.take_succ_cons]
      exact (feed_all_reset nfc s i _).symm
    · rw [s1, hr0, List.length_take]
      omega

/-! ## Claims -/

/-- C1: for every request opcode `op` and every payload `P` of `n ≤ 121` bytes,
`send_response_data(P, n)` hands the sink exactly the `n + 9` bytes
`00 00 FF, L, LCS, D5, (op + 1) mod 256, P, DCS, 00` with `L = n + 2`,
`LCS = (256 - L) mod 256` and `DCS = ~(0xFF + D5 + (op + 1) + sum of P) mod 256`; the
wire length is `L + 7` and the payload is recovered unchanged at offsets `7 .. 7 + n`.
For `n ≤ 119` the frame lies inside `response.raw[128]` and the bounds-checked
`send_response_data` returns the same state; for `n = 120` and `n = 121` the code
stores the last one or two bytes of the frame at `response.raw[128]` and `[129]`, past
the buffer, and sends them from there. -/
theorem C1_send_response_data_wire (s : State) (op : Nat) (P : List Nat)
    (hop : s.request 6 = op) (hn : P.length ≤ 121) (hP : ∀ b ∈ P, b < 256) :
    ∃ w, (send_response_data_flat s P).out = s.out ++ w ∧
      w = [0x00, 0x00, 0xff, P.length + 2, (256 - (P.length + 2)) % 256, 0xd5,
            (op + 1) % 256] ++ P ++
          [255 - (0xff + 0xd5 + (op + 1) + P.sum) % 256, 0x00] ∧
      w.length = P.length + 9 ∧ w.length = (P.length + 2) + 7 ∧
      (w.drop 7).take P.length = P ∧
      (P.length ≤ 119 → send_response_data s P = some (send_response_data_flat s P)) := by
  refine ⟨_, ?_, rfl, ?_, ?_, ?_, send_response_data_flat_checked s P⟩
  · rw [send_response_data_flat_eq s P (by omega), map_mod_of_lt P hP]
    show s.out ++ response_frame (s.request 6) P = _
    rw [hop, response_frame]
    have e : (0xff + 0xd5 + (op + 1) % 256 + P.sum) % 256 =
        (0xff + 0xd5 + (op + 1) + P.sum) % 256 := by omega
    rw [e]
  · simp
  · simp
  · simp

set_option maxRecDepth 100000 in
/-- C1 witness: a payload of 120 zero bytes answering opcode 0; 129 bytes are sent, the
last of them from `response.raw[128]`. -/
theorem C1_send_response_data_wire_witness :
    (List.replicate 120 0).length ≤ 121 ∧
    (send_response_data_flat init (List.replicate 120 0)).out.length = 129 ∧
    ∃ w, (send_response_data_flat init (List.replicate 120 0)).out = init.out ++ w ∧
      w = [0x00, 0x00, 0xff, (List.replicate 120 0).length + 2,
            (256 - ((List.replicate 120 0).length + 2)) % 256, 0xd5, (0 + 1) % 256] ++
          List.replicate 120 0 ++
          [255 - (0xff + 0xd5 + (0 + 1) + (List.replicate 120 0).sum) % 256, 0x00] ∧
      w.length = (List.replicate 120 0).length + 9 ∧
      w.length = ((List.replicate 120 0).length + 2) + 7 ∧
      (w.drop 7).take (List.replicate 120 0).length = List.replicate 120 0 ∧
      ((List.replicate 120 0).length ≤ 119 →
        send_response_data init (List.replicate 120 0) =
          some (send_response_data_flat init (List.replicate 120 0))) :=
  ⟨by simp, by rfl,
    C1_send_response_data_wire init 0 (List.replicate 120 0) rfl (by simp)
      (fun b hb => by rw [List.eq_of_mem_replicate hb]; decide)⟩

/-- C2: from byte count 0 and with no gap above 100 ms, feeding one byte at a time a
frame `00 00 FF L x D4' 0C ...` of `L + 7` bytes whose opcode byte is `0C`, with
`2 ≤ L ≤ 121` (in particular every well-formed request frame for opcode `0C`), sends
nothing while the first `L + 6` bytes are fed, sends exactly the 12 bytes
`00 00 FF 05 FB D5 0D 00 06 00 18 00` on the call that feeds the last byte, and leaves the
byte count at 0. -/
theorem C2_status_query_response (nfc : Nfc) (s : State) (i0 i1 i2 i3 i4 i5 i6 : Input)
    (rest : List Input) (L : Nat) (hs : s.frame_len = 0)
    (b0 : u8 i0.c = 0x00) (b1 : u8 i1.c = 0x00) (b2 : u8 i2.c = 0xff) (b3 : u8 i3.c = L)
    (b6 : u8 i6.c = 0x0c) (hL : 2 ≤ L) (hL2 : L ≤ 121) (hlen : rest.length = L)
    (hg : gaps_ok i0.now (i1 :: i2 :: i3 :: i4 :: i5 :: i6 :: rest)) :
    (∀ k, k < L + 7 →
      ∃ sk, feed_all nfc s ((i0 :: i1 :: i2 :: i3 :: i4 :: i5 :: i6 :: rest).take k) = some sk ∧
        sk.out = s.out) ∧
    ∃ s1, feed_all nfc s (i0 :: i1 :: i2 :: i3 :: i4 :: i5 :: i6 :: rest) = some s1 ∧
      s1.out = s.out ++ [0x00, 0x00, 0xff, 0x05, 0xfb, 0xd5, 0x0d, 0x00, 0x06, 0x00, 0x18, 0x00] ∧
      s1.frame_len = 0 := by
  obtain ⟨tail, last, e, htl⟩ := split_last rest (L - 1) (by omega)
  subst e
  have hbody : (i4 :: i5 :: i6 :: tail).length = L + 2 := by
    simp only [List.length_cons]
    omega
  constructor
  · intro k hk
    obtain ⟨sk, h1, -, h2, -⟩ := frame_prefix nfc s i0 i1 i2 i3 last (i4 :: i5 :: i6 :: tail) L hs
      b0 b1 b2 b3 (by omega) hL2 hbody hg k hk
    exact ⟨sk, h1, h2⟩
  · obtain ⟨S, -, -, hrun, hfl, -, hout, -, -, hreq⟩ :=
      frame_run nfc s i0 i1 i2 i3 last (i4 :: i5 :: i6 :: tail) L hs b0 b1 b2 b3 (by omega) hL2
        hbody hg
    have h6 : (arrived S last.c last.now).request 6 = 0x0c := by
      simp only [arrived, appended]
      rw [mset_other _ _ _ _ (by omega), hreq 6 (by omega)]
      simp [b6]
    obtain ⟨s6, e6, k6, -, -, o6⟩ :=
      send_response_data_keeps (arrived S last.c last.now) [0x00, 0x06, 0x00] (by simp)
    refine ⟨completed s6 last.now64, ?_, ?_, rfl⟩
    · have e : i0 :: i1 :: i2 :: i3 :: i4 :: i5 :: i6 :: (tail ++ [last]) =
          i0 :: i1 :: i2 :: i3 :: ((i4 :: i5 :: i6 :: tail) ++ [last]) := rfl
      rw [e, hrun, handle_frame_0c nfc _ h6, e6]
      rfl
    · have ho : (arrived S last.c last.now).out = s.out := hout
      simp only [completed]
      rw [o6, ho, h6]
      rfl

/-- C2 witness: the frame `00 00 FF 02 FE D4 0C 20 00` fed to the initial state. -/
theorem C2_status_query_response_witness :
    (∀ k, k < 2 + 7 →
      ∃ sk, feed_all no_card init
        ((at_time 0 0 [0x00, 0x00, 0xff, 0x02, 0xfe, 0xd4, 0x0c, 0x20, 0x00]).take k) = some sk ∧
        sk.out = init.out) ∧
    ∃ s1, feed_all no_card init
        (at_time 0 0 [0x00, 0x00, 0xff, 0x02, 0xfe, 0xd4, 0x0c, 0x20, 0x00]) = some s1 ∧
      s1.out = init.out ++
        [0x00, 0x00, 0xff, 0x05, 0xfb, 0xd5, 0x0d, 0x00, 0x06, 0x00, 0x18, 0x00] ∧
      s1.frame_len = 0 :=
  C2_status_query_response _ init ⟨0x00, 0, 0⟩ ⟨0x00, 0, 0⟩ ⟨0xff, 0, 0⟩ ⟨0x02, 0, 0⟩
    ⟨0xfe, 0, 0⟩ ⟨0xd4, 0, 0⟩ ⟨0x0c, 0, 0⟩ [⟨0x20, 0, 0⟩, ⟨0x00, 0, 0⟩] 2 rfl (by decide)
    (by decide) (by decide) (by decide) (by decide) (by decide) (by decide) (by decide)
    (by simp [gaps_ok, sub32])

/-- C3: dispatch is gated only by the preamble and the length byte. From byte count 0 and
with no gap above 100 ms, for `1 ≤ L ≤ 121` and arbitrary values of the `L + 3` bytes that
follow `00 00 FF L` (length checksum, body, checksum, postamble), `handle_frame` is not
invoked while the first `L + 6` bytes are fed, is invoked exactly once on byte number
`L + 7`, and the byte count is 0 afterwards. -/
theorem C3_dispatch_gated_by_length (nfc : Nfc) (s : State) (i0 i1 i2 i3 : Input)
    (rest : List Input) (L : Nat) (hs : s.frame_len = 0)
    (b0 : u8 i0.c = 0x00) (b1 : u8 i1.c = 0x00) (b2 : u8 i2.c = 0xff) (b3 : u8 i3.c = L)
    (hL : 1 ≤ L) (hL2 : L ≤ 121) (hlen : rest.length = L + 3)
    (hg : gaps_ok i0.now (i1 :: i2 :: i3 :: rest)) :
    (∀ k, k < L + 7 →
      ∃ sk, feed_all nfc s ((i0 :: i1 :: i2 :: i3 :: rest).take k) = some sk ∧
        sk.dispatched = s.dispatched) ∧
    ∃ s1 d, feed_all nfc s (i0 :: i1 :: i2 :: i3 :: rest) = some s1 ∧
      s1.dispatched = s.dispatched ++ [d] ∧ d.frame_len = L + 7 ∧ s1.frame_len = 0 := by
  obtain ⟨body, last, e, hbody⟩ := split_last rest (L + 2) hlen
  subst e
  constructor
  · intro k hk
    obtain ⟨sk, h1, h2, -⟩ := frame_prefix nfc s i0 i1 i2 i3 last body L hs b0 b1 b2 b3 hL hL2
      hbody hg k hk
    exact ⟨sk, h1, h2⟩
  · obtain ⟨S, -, -, hrun, hfl, -, -, hdis, -⟩ :=
      frame_run nfc s i0 i1 i2 i3 last body L hs b0 b1 b2 b3 hL hL2 hbody hg
    obtain ⟨s6, e6, -, -, -, k6, -⟩ := handle_frame_total nfc (arrived S last.c last.now)
    refine ⟨completed s6 last.now64,
      { request := mset S.request S.frame_len (u8 last.c), frame_len := S.frame_len + 1,
        fed := S.fed + 1 }, ?_, ?_, ?_, rfl⟩
    · rw [hrun, e6]
      rfl
    · simp only [completed]
      rw [k6]
      simp only [arrived, hdis]
    · simp only [hfl]

/-- C3 witness: `00 00 FF 01` followed by four bytes of garbage (wrong length checksum,
wrong checksum, wrong postamble). -/
theorem C3_dispatch_gated_by_length_witness :
    (∀ k, k < 1 + 7 →
      ∃ sk, feed_all no_card init
        ((at_time 0 0 [0x00, 0x00, 0xff, 0x01, 0x11, 0x22, 0x33, 0x44]).take k) = some sk ∧
        sk.dispatched = init.dispatched) ∧
    ∃ s1 d, feed_all no_card init
        (at_time 0 0 [0x00, 0x00, 0xff, 0x01, 0x11, 0x22, 0x33, 0x44]) = some s1 ∧
      s1.dispatched = init.dispatched ++ [d] ∧ d.frame_len = 1 + 7 ∧ s1.frame_len = 0 :=
  C3_dispatch_gated_by_length _ init ⟨0x00, 0, 0⟩ ⟨0x00, 0, 0⟩ ⟨0xff, 0, 0⟩ ⟨0x01, 0, 0⟩
    [⟨0x11, 0, 0⟩, ⟨0x22, 0, 0⟩, ⟨0x33, 0, 0⟩, ⟨0x44, 0, 0⟩] 1 rfl (by decide) (by decide)
    (by decide) (by decide) (by decide) (by decide) (by decide) (by simp [gaps_ok, sub32])

/-- C4: resync tolerance. From byte count 0 and with no gap above 100 ms, for every pair
of garbage bytes `g1`, `g2` and every frame `F = 00 00 FF L ...` of `L + 7` bytes with
`1 ≤ L ≤ 121`, feeding `g1`, `g2` and then `F` invokes `handle_frame` exactly once, on the
last byte of `F` and on no earlier byte, with `request.raw[0 .. L + 7)` holding exactly
the bytes of `F`, and leaves the byte count at 0. -/
theorem C4_resync_tolerance (nfc : Nfc) (s : State) (g1 g2 i0 i1 i2 i3 : Input)
    (rest : List Input) (L : Nat) (hs : s.frame_len = 0)
    (b0 : u8 i0.c = 0x00) (b1 : u8 i1.c = 0x00) (b2 : u8 i2.c = 0xff) (b3 : u8 i3.c = L)
    (hL : 1 ≤ L) (hL2 : L ≤ 121) (hlen : rest.length = L + 3)
    (hg : gaps_ok g1.now (g2 :: i0 :: i1 :: i2 :: i3 :: rest)) :
    (∀ k, k < L + 9 →
      ∃ sk, feed_all nfc s ((g1 :: g2 :: i0 :: i1 :: i2 :: i3 :: rest).take k) = some sk ∧
        sk.dispatched = s.dispatched) ∧
    ∃ s1 d, feed_all nfc s (g1 :: g2 :: i0 :: i1 :: i2 :: i3 :: rest) = some s1 ∧
      s1.dispatched = s.dispatched ++ [d] ∧ d.frame_len = L + 7 ∧
      (List.range (L + 7)).map d.request = (i0 :: i1 :: i2 :: i3 :: rest).map (fun i => u8 i.c) ∧
      s1.frame_len = 0 := by
  obtain ⟨body, last, e, hbody⟩ := split_last rest (L + 2) hlen
  subst e
  obtain ⟨gg2, gi0, gi1, gi2, gtail⟩ := hg
  obtain ⟨T2, q2, hT2, t2⟩ := garbage_run nfc s g1 g2 hs gg2
  have hgp : gaps_ok T2.time [i0, i1, i2] := by
    rw [t2]
    exact (gaps_ok_mod _ _).mpr ⟨gi0, gi1, gi2, trivial⟩
  obtain ⟨T5, q5, hT5, p0, p1, p2, t5⟩ := preamble_sync nfc T2 i0 i1 i2 hT2 b0 b1 b2 hgp
  have hgt : gaps_ok T5.time (i3 :: (body ++ [last])) := by
    rw [t5]
    exact (gaps_ok_mod _ _).mpr gtail
  obtain ⟨q6, hrun, hfl, hlow, hnew⟩ := tail_run nfc T5 i3 last body L hT5 b3 hL hL2 hbody hgt
  have qall := quiet_append (quiet_append q2 q5) q6
  obtain ⟨eall, kall⟩ := qall
  obtain ⟨deq, -, -⟩ := quiet_end (quiet_append (quiet_append q2 q5) q6)
  have elist : g1 :: g2 :: i0 :: i1 :: i2 :: i3 :: (body ++ [last]) =
      ([g1, g2] ++ [i0, i1, i2] ++ i3 :: body) ++ [last] := by simp
  have hqlen : ([g1, g2] ++ [i0, i1, i2] ++ i3 :: body).length = L + 8 := by
    simp only [List.length_append, List.length_cons, List.length_nil]
    omega
  constructor
  · intro k hk
    rw [elist, List.take_append_of_le_length (by omega)]
    obtain ⟨sk, h1, h2, -⟩ := kall k (by omega)
    exact ⟨sk, h1, h2⟩
  · obtain ⟨s6, e6, -, -, -, k6, -⟩ :=
      handle_frame_total nfc (arrived (stored T5 (i3 :: body)) last.c last.now)
    refine ⟨completed s6 last.now64,
      { request := mset (stored T5 (i3 :: body)).request (stored T5 (i3 :: body)).frame_len
          (u8 last.c),
        frame_len := (stored T5 (i3 :: body)).frame_len + 1,
        fed := (stored T5 (i3 :: body)).fed + 1 }, ?_, ?_, ?_, ?_, rfl⟩
    · have e2 : g1 :: g2 :: i0 :: i1 :: i2 :: i3 :: (body ++ [last]) =
          ([g1, g2] ++ [i0, i1, i2]) ++ (i3 :: (body ++ [last])) := by simp
      obtain ⟨e25, -⟩ := quiet_append q2 q5
      rw [e2, feed_all_append, e25]
      simp only [Option.bind_eq_bind, Option.some_bind]
      rw [hrun, e6]
      rfl
    · simp only [completed]
      rw [k6]
      simp only [arrived]
      rw [deq]
    · simp only [hfl]
    · have hlen2 : ((i0 :: i1 :: i2 :: i3 :: (body ++ [last])).map (fun i => u8 i.c)).length = L + 7 := by
        simp only [List.length_map, List.length_cons, List.length_append, List.length_nil]
        omega
      rw [← hlen2]
      apply map_range_of_getD
      intro j hj
      rw [hlen2] at hj
      simp only [hfl]
      by_cases h3 : j < 3
      · rw [mset_other _ _ _ _ (by omega), hlow j h3]
        interval_cases j
        · simpa [b0] using p0
        · simpa [b1] using p1
        · simpa [b2] using p2
      · obtain ⟨m, rfl⟩ : ∃ m, j = 3 + m := ⟨j - 3, by omega⟩
        have egd : ((i0 :: i1 :: i2 :: i3 :: (body ++ [last])).map (fun i => u8 i.c)).getD (3 + m) 0 =
            (((i3 :: body) ++ [last]).map (fun i => u8 i.c)).getD m 0 := by
          rw [Nat.add_comm 3 m]
          simp only [List.map_cons, List.getD_cons_succ, List.cons_append]
        rw [egd]
        by_cases hm : m < L + 3
        · rw [mset_other _ _ _ _ (by omega), hnew m hm, List.map_append,
            List.getD_append _ _ _ _ (by simp only [List.length_map, List.length_cons]; omega)]
        · have hm2 : m = L + 3 := by omega
          subst hm2
          have e5 : 3 + (L + 3) = L + 6 := by omega
          rw [e5, mset_same, Nat.mod_eq_of_lt (u8_lt _), List.map_append,
            List.getD_append_right _ _ _ _ (by simp only [List.length_map, List.length_cons]; omega)]
          simp only [List.length_map, List.length_cons, hbody]
          simp

/-- C4 witness: the garbage bytes `55 FF` before the frame `00 00 FF 02 FE D4 0C 20 00`. -/
theorem C4_resync_tolerance_witness :
    (∀ k, k < 2 + 9 →
      ∃ sk, feed_all no_card init
        ((at_time 0 0 [0x55, 0xff, 0x00, 0x00, 0xff, 0x02, 0xfe, 0xd4, 0x0c, 0x20, 0x00]).take k) =
          some sk ∧ sk.dispatched = init.dispatched) ∧
    ∃ s1 d, feed_all no_card init
        (at_time 0 0 [0x55, 0xff, 0x00, 0x00, 0xff, 0x02, 0xfe, 0xd4, 0x0c, 0x20, 0x00]) = some s1 ∧
      s1.dispatched = init.dispatched ++ [d] ∧ d.frame_len = 2 + 7 ∧
      (List.range (2 + 7)).map d.request =
        (at_time 0 0 [0x00, 0x00, 0xff, 0x02, 0xfe, 0xd4, 0x0c, 0x20, 0x00]).map (fun i => u8 i.c) ∧
      s1.frame_len = 0 :=
  C4_resync_tolerance _ init ⟨0x55, 0, 0⟩ ⟨0xff, 0, 0⟩ ⟨0x00, 0, 0⟩ ⟨0x00, 0, 0⟩ ⟨0xff, 0, 0⟩
    ⟨0x02, 0, 0⟩ [⟨0xfe, 0, 0⟩, ⟨0xd4, 0, 0⟩, ⟨0x0c, 0, 0⟩, ⟨0x20, 0, 0⟩, ⟨0x00, 0, 0⟩] 2 rfl
    (by decide) (by decide) (by decide) (by decide) (by decide) (by decide) (by decide)
    (by simp [gaps_ok, sub32])

/-- C5 (as amended): inter-byte timeout. Whenever the time elapsed between the previously
fed byte (at clock `prev`) and the current one (at clock `now`), taken modulo 2^32
microseconds as the 32-bit timestamps measure it, is more than 100000 microseconds - in
particular for every gap above 100 ms and below 2^32 microseconds - `bana_feed` abandons
the partial frame whatever the prior byte count was: the byte is stored at
`request.raw[0]`, the byte count after the call is 1 (0 if the byte is `0x55`), nothing is
dispatched and nothing is sent. -/
theorem C5_timeout_restart (nfc : Nfc) (s : State) (c : Int) (prev now now64 : Nat)
    (hprev : s.time = prev % 2 ^ 32) (hle : prev ≤ now)
    (hgap : 100000 < (now - prev) % 2 ^ 32) :
    ∃ s1, bana_feed nfc s c now now64 = some s1 ∧ s1.request 0 = u8 c ∧
      s1.frame_len = (if u8 c = 0x55 then 0 else 1) ∧ s1.dispatched = s.dispatched ∧
      s1.out = s.out := by
  have h : 100000 < sub32 now s.time := by
    rw [hprev, sub32_of_clock prev now hle]
    exact hgap
  obtain ⟨s1, e, h1, h2, h3, h4, -⟩ := feed_stale nfc s c now now64 h
  exact ⟨s1, e, h1, h2, h3, h4⟩

/-- C5 witness: four bytes of a frame were fed at clock 0 and the next byte `D4` comes
200 ms later. -/
theorem C5_timeout_restart_witness :
    ∃ s1, bana_feed no_card (stored init (at_time 0 0 [0x00, 0x00, 0xff, 0x02])) 0xd4 200000 200000 =
        some s1 ∧ s1.request 0 = u8 0xd4 ∧
      s1.frame_len = (if u8 0xd4 = 0x55 then 0 else 1) ∧
      s1.dispatched = (stored init (at_time 0 0 [0x00, 0x00, 0xff, 0x02])).dispatched ∧
      s1.out = (stored init (at_time 0 0 [0x00, 0x00, 0xff, 0x02])).out :=
  C5_timeout_restart no_card (stored init (at_time 0 0 [0x00, 0x00, 0xff, 0x02])) 0xd4 0 200000
    200000 (by decide) (by decide) (by decide)

/-- C5 as stated fails: a byte fed at clock 0 and the next one 2^32 microseconds (about
71.6 minutes, far more than 100 ms) later have the same 32-bit timestamp, so nothing is
abandoned: the second byte is stored at position 1 and the byte count is 2. -/
theorem C5_counterexample :
    100000 < 4294967296 - 0 ∧
      (feed_all no_card init [⟨0x00, 0, 0⟩, ⟨0x00, 4294967296, 4294967296⟩]).map
        (fun s => s.frame_len) = some 2 := by
  constructor
  · decide
  · rfl

/-- C6: for every sequence of bytes and clock readings fed one at a time to `bana_feed`
from the initial state, every call returns, and whenever `handle_frame` was invoked the
frame's `length + 7` was equal to the byte count at that moment, and that byte count was
at most the number of bytes fed since the byte count was last 0. -/
theorem C6_dispatch_within_consumed (nfc : Nfc) (inputs : List Input) :
    ∃ s, feed_all nfc init inputs = some s ∧
      ∀ d ∈ s.dispatched, d.request 3 + 7 = d.frame_len ∧ d.frame_len ≤ d.fed := by
  obtain ⟨s, e, w⟩ := wf_feed_all nfc inputs init wf_init
  refine ⟨s, e, ?_⟩
  intro d hd
  obtain ⟨h1, h2, -⟩ := w.2.2.2.2.2 d hd
  exact ⟨h1.symm, h2⟩

set_option maxRecDepth 100000 in
/-- C6 witness: two garbage bytes, then a frame that is dispatched. -/
theorem C6_dispatch_within_consumed_witness :
    (∃ s, feed_all no_card init
        (at_time 0 0 [0x12, 0x34, 0x00, 0x00, 0xff, 0x02, 0xfe, 0xd4, 0x0c, 0x20, 0x00]) = some s ∧
      ∀ d ∈ s.dispatched, d.request 3 + 7 = d.frame_len ∧ d.frame_len ≤ d.fed) ∧
    (feed_all no_card init
        (at_time 0 0 [0x12, 0x34, 0x00, 0x00, 0xff, 0x02, 0xfe, 0xd4, 0x0c, 0x20, 0x00])).map
      (fun s => s.dispatched.map (fun d => (d.request 3, d.frame_len, d.fed))) =
        some [(2, 9, 11)] :=
  ⟨C6_dispatch_within_consumed no_card
    (at_time 0 0 [0x12, 0x34, 0x00, 0x00, 0xff, 0x02, 0xfe, 0xd4, 0x0c, 0x20, 0x00]), by rfl⟩

/-- C7: buffer bound. In every state reached from the initial state the byte count is at
most 128; in every call of `bana_feed` the index at which the incoming byte is stored (the
byte count after the staleness/overflow reset) is below 128, the call returns, and the
byte count is at most 128 afterwards; and when the count has reached 128 the call resets
it to 0 before storing: the call behaves exactly as on an empty buffer, so the byte is
stored at `request.raw[0]` and starts a fresh accumulation (byte count 1, or 0 when the
byte is the wake tone `0x55`, which is dropped at position 0 of any accumulation). -/
theorem C7_buffer_bound (nfc : Nfc) (s : State) (hs : Reachable nfc s) (c : Int)
    (now now64 : Nat) :
    s.frame_len ≤ 128 ∧ (feed_reset s (now % 2 ^ 32)).frame_len < 128 ∧
      ∃ s1, bana_feed nfc s c now now64 = some s1 ∧ s1.frame_len ≤ 128 ∧
        (s.frame_len = 128 →
          (feed_reset s (now % 2 ^ 32)).frame_len = 0 ∧
            bana_feed nfc s c now now64 =
              bana_feed nfc { s with frame_len := 0, fed := 0 } c now now64 ∧
            s1.request 0 = u8 c ∧ s1.frame_len = (if u8 c = 0x55 then 0 else 1)) := by
  have w := wf_reachable nfc s hs
  obtain ⟨s1, e1, w1⟩ := wf_step nfc s c now now64 w
  have hlt := (bana_feed_unfold nfc s c now now64 (Or.inl w.1)).1
  refine ⟨w.1, hlt, s1, e1, w1.1, ?_⟩
  intro h128
  have hum : u8 c % 256 = u8 c := Nat.mod_eq_of_lt (u8_lt c)
  have hfl0 : (feed_reset s (now % 2 ^ 32)).frame_len = 0 := by
    have h0 : s.frame_len = RAW_SIZE := h128
    rw [feed_reset_frame_len, if_pos (Or.inl h0)]
  obtain ⟨r, hr, -, hcases⟩ := bana_feed_cases nfc s c now now64 (Or.inl w.1)
  have hfl : r.frame_len = 0 := hr ▸ hfl0
  refine ⟨hfl0, feed_full_as_empty nfc s c now now64 h128, ?_⟩
  rcases hcases with ⟨a1, a2, e⟩ | ⟨a1, a2, e⟩ | ⟨a1, a2, e⟩ | ⟨a1, a2, s2, e2, k2, e⟩ |
    ⟨a1, a2, a3, a4, e⟩
  · rw [e1] at e
    cases e
    refine ⟨?_, ?_⟩
    · simp only [appended]
      rw [hfl, mset_same, hum]
    · rw [if_pos a2]
  · omega
  · omega
  · omega
  · rw [e1] at e
    cases e
    refine ⟨?_, ?_⟩
    · simp only [appended]
      rw [hfl, mset_same, hum]
    · rw [if_neg (a1 hfl)]
      simp only [appended]
      omega

/-- C7 witness: the request buffer is full (128 bytes of a frame whose length byte is
200 were fed) and the byte `00` arrives. -/
theorem C7_buffer_bound_witness :
    (stored init overlong).frame_len ≤ 128 ∧
      (feed_reset (stored init overlong) (0 % 2 ^ 32)).frame_len < 128 ∧
      ∃ s1, bana_feed no_card (stored init overlong) 0x00 0 0 = some s1 ∧ s1.frame_len ≤ 128 ∧
        ((stored init overlong).frame_len = 128 →
          (feed_reset (stored init overlong) (0 % 2 ^ 32)).frame_len = 0 ∧
            bana_feed no_card (stored init overlong) 0x00 0 0 =
              bana_feed no_card { stored init overlong with frame_len := 0, fed := 0 } 0x00 0 0 ∧
            s1.request 0 = u8 0x00 ∧ s1.frame_len = (if u8 0x00 = 0x55 then 0 else 1)) :=
  C7_buffer_bound no_card (stored init overlong) (overlong_reachable no_card) 0x00 0 0

/-- C8: card polling (opcode `4A`). `cmd_poll_card` calls the detect operation once,
asking for Mifare and FeliCa, and sends exactly one response frame, with opcode `4B`,
whose payload `P` follows the result: Mifare gives the 10 bytes `01 01 00 04 08 04` and
`uid[0 .. 4)`; FeliCa gives the 22 bytes `01 01 14 01`, `IDm[8]`, `PMm[8]`,
`system_code[2]`; anything else gives `00 00 00`. -/
theorem C8_poll_card (nfc : Nfc) (s : State) (h : s.request 6 = 0x4a) :
    handle_frame nfc s = cmd_poll_card nfc s ∧
    ∃ s1 P, cmd_poll_card nfc s = some s1 ∧
      s1.calls = s.calls ++ [NfcCall.detect_card_ex true true false] ∧
      s1.out = s.out ++ response_frame 0x4a P ∧ (response_frame 0x4a P).getD 6 0 = 0x4b ∧
      ((nfc.detect_card_ex s.calls true true false).card_type = .NFC_CARD_MIFARE →
        P = [0x01, 0x01, 0x00, 0x04, 0x08, 0x04] ++
            bytesN 4 (nfc.detect_card_ex s.calls true true false).uid ∧ P.length = 10) ∧
      ((nfc.detect_card_ex s.calls true true false).card_type = .NFC_CARD_FELICA →
        P = [0x01, 0x01, 0x14, 0x01] ++
            bytesN 8 (nfc.detect_card_ex s.calls true true false).uid ++
            bytesN 8 (nfc.detect_card_ex s.calls true true false).pmm ++
            bytesN 2 (nfc.detect_card_ex s.calls true true false).syscode ∧ P.length = 22) ∧
      ((nfc.detect_card_ex s.calls true true false).card_type ≠ .NFC_CARD_MIFARE →
        (nfc.detect_card_ex s.calls true true false).card_type ≠ .NFC_CARD_FELICA →
        P = [0x00, 0x00, 0x00]) := by
  refine ⟨handle_frame_4a nfc s h, ?_⟩
  have hlt4 := bytesN_lt 4 (nfc.detect_card_ex s.calls true true false).uid
  have hlt8 := bytesN_lt 8 (nfc.detect_card_ex s.calls true true false).uid
  have hltp := bytesN_lt 8 (nfc.detect_card_ex s.calls true true false).pmm
  have hlts := bytesN_lt 2 (nfc.detect_card_ex s.calls true true false).syscode
  unfold cmd_poll_card handle_mifare handle_felica handle_no_card
  simp only
  split
  · rename_i hm
    obtain ⟨s1, e, c, o⟩ := respond_after_call s (.detect_card_ex true true false)
      ([0x01, 0x01, 0x00, 0x04, 0x08, 0x04] ++
        bytesN 4 (nfc.detect_card_ex s.calls true true false).uid)
      (by simp [bytesN_length]) (by
        intro b hb
        rw [List.mem_append] at hb
        rcases hb with hb | hb
        · revert b
          decide
        · exact hlt4 b hb)
    rw [h] at o
    refine ⟨s1, _, e, c, o, rfl, fun _ => ⟨rfl, by simp [bytesN_length]⟩, ?_, ?_⟩
    · intro hf
      rw [hm] at hf
      cases hf
    · intro hn
      exact absurd hm hn
  · rename_i hf
    obtain ⟨s1, e, c, o⟩ := respond_after_call s (.detect_card_ex true true false)
      ([0x01, 0x01, 0x14, 0x01] ++
        bytesN 8 (nfc.detect_card_ex s.calls true true false).uid ++
        bytesN 8 (nfc.detect_card_ex s.calls true true false).pmm ++
        bytesN 2 (nfc.detect_card_ex s.calls true true false).syscode)
      (by simp [bytesN_length]) (by
        intro b hb
        rw [List.mem_append, List.mem_append, List.mem_append] at hb
        rcases hb with ((hb | hb) | hb) | hb
        · revert b
          decide
        · exact hlt8 b hb
        · exact hltp b hb
        · exact hlts b hb)
    rw [h] at o
    refine ⟨s1, _, e, c, o, rfl, ?_, fun _ => ⟨rfl, by simp [bytesN_length]⟩, ?_⟩
    · intro hm
      rw [hf] at hm
      cases hm
    · intro _ hn
      exact absurd hf hn
  · rename_i hnm hnf
    obtain ⟨s1, e, c, o⟩ := respond_after_call s (.detect_card_ex true true false)
      [0x00, 0x00, 0x00] (by simp) (by decide)
    rw [h] at o
    refine ⟨s1, _, e, c, o, rfl, ?_, ?_, fun _ _ => rfl⟩
    · intro hm
      exact absurd hm hnm
    · intro hf
      exact absurd hf hnf

/-- C8 witness: a poll request while a Mifare card `DE AD BE EF` is in the field is
answered `00 00 FF 0C F4 D5 4B 01 01 00 04 08 04 DE AD BE EF 96 00`. -/
theorem C8_poll_card_witness :
    (holding [0x00, 0x00, 0xff, 0x02, 0xfe, 0xd4, 0x4a, 0xe2, 0x00]).request 6 = 0x4a ∧
      (cmd_poll_card mifare_present
          (holding [0x00, 0x00, 0xff, 0x02, 0xfe, 0xd4, 0x4a, 0xe2, 0x00])).map
        (fun s => (s.calls, s.out)) =
        some ([NfcCall.detect_card_ex true true false],
          [0x00, 0x00, 0xff, 0x0c, 0xf4, 0xd5, 0x4b, 0x01, 0x01, 0x00, 0x04, 0x08, 0x04, 0xde,
            0xad, 0xbe, 0xef, 0x96, 0x00]) := by
  refine ⟨rfl, ?_⟩
  obtain ⟨-, s1, P, e, c, o, -, hm, -, -⟩ := C8_poll_card mifare_present
    (holding [0x00, 0x00, 0xff, 0x02, 0xfe, 0xd4, 0x4a, 0xe2, 0x00]) rfl
  obtain ⟨hP, -⟩ := hm rfl
  rw [e, Option.map_some', c, o, hP]
  rfl

/-- C9: Mifare block read (opcode `40`, payload byte 1 = `30`). The block-read operation
is called once, with block = payload byte 2; if it succeeds with 16 bytes `d` the response
payload is the 17 bytes `00` followed by `d`; if it fails the response payload is the
single byte `14` and the wire frame is `00 00 FF 03 FD D5 41 14 D6 00`. -/
theorem C9_mifare_read (nfc : Nfc) (s : State) (h40 : s.request 6 = 0x40)
    (h30 : s.request 8 = 0x30) :
    ∃ s1, handle_frame nfc s = some s1 ∧
      s1.calls = s.calls ++ [NfcCall.mifare_read (s.request 9)] ∧
      (∀ d, nfc.mifare_read s.calls (s.request 9) = some d → d.length = 16 →
        (∀ b ∈ d, b < 256) →
        s1.out = s.out ++ response_frame 0x40 (0x00 :: d) ∧ (0x00 :: d).length = 17) ∧
      (nfc.mifare_read s.calls (s.request 9) = none →
        s1.out = s.out ++ response_frame 0x40 [0x14] ∧
        s1.out = s.out ++ [0x00, 0x00, 0xff, 0x03, 0xfd, 0xd5, 0x41, 0x14, 0xd6, 0x00]) := by
  have hm : cmd_mifare nfc s = cmd_mifare_read nfc s := by
    simp [cmd_mifare, h30]
  rw [handle_frame_40 nfc s h40, hm]
  unfold cmd_mifare_read
  simp only
  cases hr : nfc.mifare_read s.calls (s.request (7 + 2)) with
  | none =>
    obtain ⟨s1, e, c, o⟩ := respond_after_call s (.mifare_read (s.request (7 + 2))) [0x14]
      (by simp) (by decide)
    rw [h40] at o
    refine ⟨s1, e, c, ?_, fun _ => ⟨o, o⟩⟩
    intro d hd
    cases hd
  | some d0 =>
    obtain ⟨s1, e, c, o⟩ := respond_after_call s (.mifare_read (s.request (7 + 2)))
      (0x00 :: bytesN 16 d0) (by simp [bytesN_length]) (by
        intro b hb
        rw [List.mem_cons] at hb
        rcases hb with hb | hb
        · omega
        · exact bytesN_lt 16 d0 b hb)
    rw [h40] at o
    refine ⟨s1, e, c, ?_, ?_⟩
    · intro d hd hlen hlt
      cases hd
      have e16 : bytesN 16 d0 = d0 := by
        rw [← hlen, bytesN_self, map_mod_of_lt d0 hlt]
      rw [e16] at o
      exact ⟨o, by simp [hlen]⟩
    · intro hn
      cases hn

/-- C9 witness: a read of block 4 with no card in the field is answered
`00 00 FF 03 FD D5 41 14 D6 00`. -/
theorem C9_mifare_read_witness :
    (handle_frame no_card
        (holding [0x00, 0x00, 0xff, 0x05, 0xfb, 0xd4, 0x40, 0x01, 0x30, 0x04, 0xb7, 0x00])).map
      (fun s => (s.calls, s.out)) =
      some ([NfcCall.mifare_read 4],
        [0x00, 0x00, 0xff, 0x03, 0xfd, 0xd5, 0x41, 0x14, 0xd6, 0x00]) := by
  obtain ⟨s1, e, c, -, hfail⟩ := C9_mifare_read no_card
    (holding [0x00, 0x00, 0xff, 0x05, 0xfb, 0xd4, 0x40, 0x01, 0x30, 0x04, 0xb7, 0x00]) rfl rfl
  obtain ⟨-, o⟩ := hfail rfl
  rw [e, Option.map_some', c, o]
  rfl

/-- C10: Mifare authentication (opcode `40`). For payload byte 1 = `60` the authenticate
operation is called with key index 0, for `61` with key index 1; in both cases it is
called exactly once, with block = payload byte 2, key = payload bytes 3 .. 8 and
uid = payload bytes 9 .. 12, and the response payload is the single byte `00` if it
returns true and `01` if it returns false. -/
theorem C10_mifare_auth (nfc : Nfc) (s : State) (key_id : Nat) (h40 : s.request 6 = 0x40)
    (hsub : (s.request 8 = 0x60 ∧ key_id = 0) ∨ (s.request 8 = 0x61 ∧ key_id = 1)) :
    ∃ s1, handle_frame nfc s = some s1 ∧
      s1.calls = s.calls ++
        [NfcCall.mifare_auth [s.request 16, s.request 17, s.request 18, s.request 19]
          (s.request 9) key_id
          [s.request 10, s.request 11, s.request 12, s.request 13, s.request 14, s.request 15]] ∧
      s1.out = s.out ++ response_frame 0x40
        [if nfc.mifare_auth s.calls [s.request 16, s.request 17, s.request 18, s.request 19]
          (s.request 9) key_id
          [s.request 10, s.request 11, s.request 12, s.request 13, s.request 14, s.request 15]
         then 0x00 else 0x01] := by
  have hm : cmd_mifare nfc s = cmd_mifare_auth nfc s key_id := by
    rcases hsub with ⟨h1, h2⟩ | ⟨h1, h2⟩
    · simp [cmd_mifare, h1, h2]
    · simp [cmd_mifare, h1, h2]
  rw [handle_frame_40 nfc s h40, hm]
  unfold cmd_mifare_auth
  simp only [List.range_succ, List.range_zero, List.nil_append, List.cons_append,
    List.map_cons, List.map_nil, Nat.reduceAdd]
  by_cases hok : nfc.mifare_auth s.calls [s.request 16, s.request 17, s.request 18, s.request 19]
      (s.request 9) key_id
      [s.request 10, s.request 11, s.request 12, s.request 13, s.request 14, s.request 15] = true
  · obtain ⟨s1, e, c, o⟩ := respond_after_call s
      (.mifare_auth [s.request 16, s.request 17, s.request 18, s.request 19] (s.request 9) key_id
        [s.request 10, s.request 11, s.request 12, s.request 13, s.request 14, s.request 15])
      [0x00] (by simp) (by decide)
    rw [h40] at o
    refine ⟨s1, ?_, c, ?_⟩
    · rw [if_pos hok]
      exact e
    · rw [if_pos hok]
      exact o
  · obtain ⟨s1, e, c, o⟩ := respond_after_call s
      (.mifare_auth [s.request 16, s.request 17, s.request 18, s.request 19] (s.request 9) key_id
        [s.request 10, s.request 11, s.request 12, s.request 13, s.request 14, s.request 15])
      [0x01] (by simp) (by decide)
    rw [h40] at o
    refine ⟨s1, ?_, c, ?_⟩
    · rw [if_neg hok]
      exact e
    · rw [if_neg hok]
      exact o

/-- C10 witness: authentication of block 4 with key B `A0 .. A5` for the card
`DE AD BE EF`, accepted by the driver, is answered `00 00 FF 03 FD D5 41 00 EA 00`. -/
theorem C10_mifare_auth_witness :
    (handle_frame mifare_present
        (holding [0x00, 0x00, 0xff, 0x0f, 0xf1, 0xd4, 0x40, 0x01, 0x61, 0x04, 0xa0, 0xa1, 0xa2,
          0xa3, 0xa4, 0xa5, 0xde, 0xad, 0xbe, 0xef, 0x00, 0x00])).map
      (fun s => (s.calls, s.out)) =
      some ([NfcCall.mifare_auth [0xde, 0xad, 0xbe, 0xef] 4 1 [0xa0, 0xa1, 0xa2, 0xa3, 0xa4, 0xa5]],
        [0x00, 0x00, 0xff, 0x03, 0xfd, 0xd5, 0x41, 0x00, 0xea, 0x00]) := by
  obtain ⟨s1, e, c, o⟩ := C10_mifare_auth mifare_present
    (holding [0x00, 0x00, 0xff, 0x0f, 0xf1, 0xd4, 0x40, 0x01, 0x61, 0x04, 0xa0, 0xa1, 0xa2,
      0xa3, 0xa4, 0xa5, 0xde, 0xad, 0xbe, 0xef, 0x00, 0x00]) 1 rfl (Or.inr ⟨rfl, rfl⟩)
  rw [e, Option.map_some', c, o]
  rfl

/-- C12: FeliCa unrecognized sub-command. For every frame with opcode `A0` whose
sub-command byte (payload byte 3) is not `06`, `handle_frame` returns with the state
unchanged: no byte is handed to the sink (neither a response frame nor an ACK) and no
driver call is made. -/
theorem C12_felica_unknown_silent (nfc : Nfc) (s : State) (ha0 : s.request 6 = 0xa0)
    (hsub : s.request 10 ≠ 0x06) :
    ∃ s1, handle_frame nfc s = some s1 ∧ s1.out = s.out ∧ s1.calls = s.calls ∧ s1 = s := by
  refine ⟨s, ?_, rfl, rfl, rfl⟩
  rw [handle_frame_a0 nfc s ha0, cmd_felica, if_neg hsub]

/-- C12 witness: opcode `A0` with sub-command `04`, a FeliCa card being in the field. -/
theorem C12_felica_unknown_silent_witness :
    (handle_frame felica_present
        (holding [0x00, 0x00, 0xff, 0x06, 0xfa, 0xd4, 0xa0, 0x00, 0x00, 0x04, 0x04, 0x88,
          0x00])).map (fun s => (s.calls, s.out)) = some ([], []) := by
  obtain ⟨s1, e, o, c, -⟩ := C12_felica_unknown_silent felica_present
    (holding [0x00, 0x00, 0xff, 0x06, 0xfa, 0xd4, 0xa0, 0x00, 0x00, 0x04, 0x04, 0x88, 0x00])
    rfl (by decide)
  rw [e, Option.map_some', o, c]
  rfl

/-- C13: unrecognized commands get a bare ACK. For every frame whose opcode is none of
`06 08 0C 0E 12 18 32 40 44 4A 52 54 A0`, and for every frame with opcode `40` whose
sub-opcode (payload byte 1) is none of `30 60 61`, the bytes handed to the sink are
exactly `00 00 FF 00 FF 00` and no driver call is made. -/
theorem C13_unrecognized_bare_ack (nfc : Nfc) (s : State)
    (h : s.request 6 ∉ [0x06, 0x08, 0x0c, 0x0e, 0x12, 0x18, 0x32, 0x40, 0x44, 0x4a, 0x52, 0x54,
          0xa0] ∨
        (s.request 6 = 0x40 ∧ s.request 8 ∉ [0x30, 0x60, 0x61])) :
    ∃ s1, handle_frame nfc s = some s1 ∧
      s1.out = s.out ++ [0x00, 0x00, 0xff, 0x00, 0xff, 0x00] ∧ s1.calls = s.calls := by
  refine ⟨{ s with out := s.out ++ [0x00, 0x00, 0xff, 0x00, 0xff, 0x00] }, ?_, rfl, rfl⟩
  rcases h with h | ⟨h40, hsub⟩
  · rw [handle_frame_other nfc s h, send_ack_eq]
  · simp only [List.mem_cons, List.mem_singleton, List.not_mem_nil, or_false, not_or] at hsub
    obtain ⟨h1, h2, h3⟩ := hsub
    rw [handle_frame_40 nfc s h40]
    simp [cmd_mifare, h1, h2, h3, send_ack_eq]

/-- C13 witness: the unknown opcode `02`. -/
theorem C13_unrecognized_bare_ack_witness :
    (handle_frame mifare_present
        (holding [0x00, 0x00, 0xff, 0x02, 0xfe, 0xd4, 0x02, 0x2a, 0x00])).map
      (fun s => (s.calls, s.out)) = some ([], [0x00, 0x00, 0xff, 0x00, 0xff, 0x00]) := by
  obtain ⟨s1, e, o, c⟩ := C13_unrecognized_bare_ack mifare_present
    (holding [0x00, 0x00, 0xff, 0x02, 0xfe, 0xd4, 0x02, 0x2a, 0x00]) (Or.inl (by decide))
  rw [e, Option.map_some', o, c]
  rfl

/-- C14: fixed rows of the opcode table. Whatever the driver does, `handle_frame` sends
exactly one response frame `00 00 FF L LCS D5 (op + 1) P DCS 00`, where the payload `P`
is empty (length field 2) for the opcodes `18 12 0E 32`, the byte `00` for `08` and
`54`, the bytes `01 00` for `44` and `52`, and for `06` the 8 bytes
`FF 3F 0E F1 FF 3F 0E F1` when request payload byte 1 is `1C` and otherwise the 11 bytes
`DC F4 3F 11 4D 85 61 F1 26 6A 87`. -/
theorem C14_fixed_rows (nfc : Nfc) (s : State) (op : Nat) (P : List Nat)
    (hop : s.request 6 = op)
    (hrow : (op ∈ [0x18, 0x12, 0x0e, 0x32] ∧ P = []) ∨
      (op ∈ [0x08, 0x54] ∧ P = [0x00]) ∨
      (op ∈ [0x44, 0x52] ∧ P = [0x01, 0x00]) ∨
      (op = 0x06 ∧ s.request 8 = 0x1c ∧ P = [0xff, 0x3f, 0x0e, 0xf1, 0xff, 0x3f, 0x0e, 0xf1]) ∨
      (op = 0x06 ∧ s.request 8 ≠ 0x1c ∧
        P = [0xdc, 0xf4, 0x3f, 0x11, 0x4d, 0x85, 0x61, 0xf1, 0x26, 0x6a, 0x87])) :
    ∃ s1, handle_frame nfc s = some s1 ∧
      s1.out = s.out ++
        ([0x00, 0x00, 0xff, P.length + 2, (256 - (P.length + 2)) % 256, 0xd5, op + 1] ++ P ++
          [255 - (0xff + 0xd5 + (op + 1) + P.sum) % 256, 0x00]) := by
  have row : ∀ (t : State) (Q : List Nat), t.out = s.out → t.request 6 = op → op < 255 →
      Q.length ≤ 119 → (∀ b ∈ Q, b < 256) →
      ∃ s1, send_response_data t Q = some s1 ∧
        s1.out = s.out ++
          ([0x00, 0x00, 0xff, Q.length + 2, (256 - (Q.length + 2)) % 256, 0xd5, op + 1] ++ Q ++
            [255 - (0xff + 0xd5 + (op + 1) + Q.sum) % 256, 0x00]) := by
    intro t Q ho hr hlt hlen hQ
    obtain ⟨s1, e, -, o⟩ := respond_plain t Q hlen hQ
    refine ⟨s1, e, ?_⟩
    rw [o, ho, hr, response_frame, Nat.mod_eq_of_lt (show op + 1 < 256 by omega)]
  subst hop
  simp only [List.mem_cons, List.mem_singleton, List.not_mem_nil, or_false] at hrow
  rcases hrow with ⟨h | h | h | h, rfl⟩ | ⟨h | h, rfl⟩ | ⟨h | h, rfl⟩ | ⟨h, h8, rfl⟩ |
    ⟨h, h8, rfl⟩
  · have e : handle_frame nfc s = send_response_data s [] := by
      simp [handle_frame, h, send_simple_response]
    rw [e]
    exact row s [] rfl rfl (by omega) (by simp) (by simp)
  · have e : handle_frame nfc s = send_response_data s [] := by
      simp [handle_frame, h, send_simple_response]
    rw [e]
    exact row s [] rfl rfl (by omega) (by simp) (by simp)
  · have e : handle_frame nfc s = send_response_data s [] := by
      simp [handle_frame, h, send_simple_response, cmd_gpio]
    rw [e]
    exact row s [] rfl rfl (by omega) (by simp) (by simp)
  · have e : handle_frame nfc s = cmd_rf_field s := by
      simp [handle_frame, h]
    rw [e, cmd_rf_field, send_simple_response]
    by_cases hf : s.request 7 = 0x01 ∧ s.request 8 = 0x00
    · rw [if_pos hf]
      exact row _ [] rfl rfl (by omega) (by simp) (by simp)
    · rw [if_neg hf]
      exact row _ [] rfl rfl (by omega) (by simp) (by simp)
  · have e : handle_frame nfc s = send_response_data (log_call s (.rf_field false)) [0x00] := by
      simp [handle_frame, h]
    rw [e]
    exact row _ [0x00] rfl rfl (by omega) (by simp) (by decide)
  · have e : handle_frame nfc s = cmd_select s := by
      simp [handle_frame, h]
    obtain ⟨s1, e1, o1⟩ := row s [0x00] rfl rfl (by omega) (by simp) (by decide)
    refine ⟨log_call s1 .nfc_select, ?_, o1⟩
    rw [e, cmd_select, e1]
    rfl
  · have e : handle_frame nfc s = send_response_data (log_call s .nfc_deselect) [0x01, 0x00] := by
      simp [handle_frame, h, cmd_deselect]
    rw [e]
    exact row _ [0x01, 0x00] rfl rfl (by omega) (by simp) (by decide)
  · have e : handle_frame nfc s = send_response_data s [0x01, 0x00] := by
      simp [handle_frame, h, cmd_release]
    rw [e]
    exact row s [0x01, 0x00] rfl rfl (by omega) (by simp) (by decide)
  · have e : handle_frame nfc s =
        send_response_data s [0xff, 0x3f, 0x0e, 0xf1, 0xff, 0x3f, 0x0e, 0xf1] := by
      simp [handle_frame, h, h8]
    rw [e]
    exact row s _ rfl rfl (by omega) (by simp) (by decide)
  · have e : handle_frame nfc s =
        send_response_data s [0xdc, 0xf4, 0x3f, 0x11, 0x4d, 0x85, 0x61, 0xf1, 0x26, 0x6a, 0x87] := by
      simp [handle_frame, h, h8]
    rw [e]
    exact row s _ rfl rfl (by omega) (by simp) (by decide)

/-- C14 witness: the version query `06` with payload byte 1 = `1C` is answered
`00 00 FF 0A F6 D5 07 FF 3F 0E F1 FF 3F 0E F1 AA 00`. -/
theorem C14_fixed_rows_witness :
    (handle_frame no_card
        (holding [0x00, 0x00, 0xff, 0x04, 0xfc, 0xd4, 0x06, 0x00, 0x1c, 0x0a, 0x00])).map
      (fun s => s.out) =
      some [0x00, 0x00, 0xff, 0x0a, 0xf6, 0xd5, 0x07, 0xff, 0x3f, 0x0e, 0xf1, 0xff, 0x3f, 0x0e,
        0xf1, 0xaa, 0x00] := by
  obtain ⟨s1, e, o⟩ := C14_fixed_rows no_card
    (holding [0x00, 0x00, 0xff, 0x04, 0xfc, 0xd4, 0x06, 0x00, 0x1c, 0x0a, 0x00]) 0x06
    [0xff, 0x3f, 0x0e, 0xf1, 0xff, 0x3f, 0x0e, 0xf1] rfl
    (Or.inr (Or.inr (Or.inr (Or.inl ⟨rfl, rfl, rfl⟩))))
  rw [e, Option.map_some', o]
  rfl

/-- C11: FeliCa read (opcode `A0`, sub-command payload byte 3 = `06`), for every request
whose length byte is not 2, in particular every frame long enough to hold the request
body. With `n = min(payload byte 15, 4)`, exactly `n` FeliCa block reads are made, in
request order, read `i` with the service code of the request and the big-endian block
code `payload[16 + 2 i] * 256 + payload[17 + 2 i]`; exactly one response frame is sent,
with opcode `A1` and a payload of `14 + 16 n` bytes: `00`, `13 + 16 n`, `07`, the 8 IDm
bytes of request payload `[4 .. 12)`, `00 00`, `n`, then `n` slots of 16 bytes, slot `i`
holding what read `i` left in its buffer. -/
theorem C11_felica_read (nfc : Nfc) (s : State) (n : Nat) (ha0 : s.request 6 = 0xa0)
    (h06 : s.request 10 = 0x06) (hbytes : ∀ j, s.request j < 256) (hL : s.request 3 ≠ 2)
    (hn : n = min (s.request 22) 4) :
    ∃ s1 slots, handle_frame nfc s = some s1 ∧
      s1.calls = s.calls ++ read_calls s n ∧ (read_calls s n).length = n ∧
      slots.length = 16 * n ∧
      (∀ i, i < n →
        (slots.drop (16 * i)).take 16 =
          bytesN 16 (nfc.felica_read (s.calls ++ read_calls s i) (service_code s)
            (block_code s i)).2) ∧
      s1.out = s.out ++ response_frame 0xa0
        ([0x00, 13 + 16 * n, 0x07] ++ (List.range 8).map (fun i => s.request (11 + i)) ++
          [0x00, 0x00, n] ++ slots) ∧
      ([0x00, 13 + 16 * n, 0x07] ++ (List.range 8).map (fun i => s.request (11 + i)) ++
          [0x00, 0x00, n] ++ slots).length = 14 + 16 * n ∧
      (response_frame 0xa0
        ([0x00, 13 + 16 * n, 0x07] ++ (List.range 8).map (fun i => s.request (11 + i)) ++
          [0x00, 0x00, n] ++ slots)).getD 6 0 = 0xa1 := by
  have h3 := hbytes 3
  have hv : (s.request 3 + 256 - 2) % 256 ≠ 0 := by omega
  obtain ⟨s1, slots, e, c, hlen, hslot, o⟩ :=
    cmd_felica_read_spec nfc s ((s.request 3 + 256 - 2) % 256) hbytes
  rw [← hn] at c hlen hslot o
  rw [ha0] at o
  refine ⟨s1, slots, ?_, c, by simp [read_calls], hlen, hslot, o, ?_, rfl⟩
  · rw [handle_frame_a0 nfc s ha0, cmd_felica, if_pos h06]
    simp only
    rw [if_pos hv]
    exact e
  · simp only [List.length_append, List.length_cons, List.length_nil, List.length_map,
      List.length_range, hlen]

/-- C11 witness: a read of the two blocks `8000` and `8001` of service `000B` sends a
payload of 46 bytes, a frame of 55 bytes. -/
theorem C11_felica_read_witness :
    (handle_frame felica_readable
        (holding [0x00, 0x00, 0xff, 0x16, 0xea, 0xd4, 0xa0, 0x00, 0x00, 0x12, 0x06, 0x01, 0x02,
          0x03, 0x04, 0x05, 0x06, 0x07, 0x08, 0x01, 0x0b, 0x00, 0x02, 0x80, 0x00, 0x80, 0x01,
          0x41, 0x00])).map (fun s => (s.calls, s.out.length)) =
      some ([NfcCall.felica_read 0x000b 0x8000, NfcCall.felica_read 0x000b 0x8001], 55) := by
  obtain ⟨s1, slots, e, c, -, -, -, o, hlen, -⟩ := C11_felica_read felica_readable
    (holding [0x00, 0x00, 0xff, 0x16, 0xea, 0xd4, 0xa0, 0x00, 0x00, 0x12, 0x06, 0x01, 0x02,
      0x03, 0x04, 0x05, 0x06, 0x07, 0x08, 0x01, 0x0b, 0x00, 0x02, 0x80, 0x00, 0x80, 0x01,
      0x41, 0x00]) 2 rfl rfl (holding_bytes _ (by decide)) (by decide) rfl
  rw [e, Option.map_some', c, o]
  simp only [List.length_append, response_frame, hlen]
  rfl

/-- C15: at most one response per frame. For every request (any opcode, any payload) and
every behaviour of the driver, `handle_frame` returns, and the bytes it hands to the sink
are exactly one of: nothing (only for opcode `A0`), the ACK frame `00 00 FF 00 FF 00`, or
one complete response frame `00 00 FF L LCS D5 (op + 1) P DCS 00` of `L + 7` bytes with
`L` the length of the payload `P` plus 2. -/
theorem C15_at_most_one_response (nfc : Nfc) (s : State) :
    ∃ s1, handle_frame nfc s = some s1 ∧
      ((s1.out = s.out ∧ s.request 6 = 0xa0) ∨
        s1.out = s.out ++ [0x00, 0x00, 0xff, 0x00, 0xff, 0x00] ∨
        ∃ P : List Nat, (∀ b ∈ P, b < 256) ∧
          s1.out = s.out ++
            ([0x00, 0x00, 0xff, P.length + 2, (256 - (P.length + 2)) % 256, 0xd5,
                (s.request 6 + 1) % 256] ++ P ++
              [255 - (0xff + 0xd5 + (s.request 6 + 1) + P.sum) % 256, 0x00]) ∧
          ([0x00, 0x00, 0xff, P.length + 2, (256 - (P.length + 2)) % 256, 0xd5,
                (s.request 6 + 1) % 256] ++ P ++
              [255 - (0xff + 0xd5 + (s.request 6 + 1) + P.sum) % 256, 0x00]).length =
            (P.length + 2) + 7) := by
  obtain ⟨s1, e, h | h | ⟨t, data, s2, hlen, ho, hr, e2, o2, -⟩⟩ := handle_frame_outcome nfc s
  · exact ⟨s1, e, Or.inl ⟨h.1, h.2.2⟩⟩
  · exact ⟨s1, e, Or.inr (Or.inl h.1)⟩
  · refine ⟨s1, e, Or.inr (Or.inr ⟨data.map (· % 256), ?_, ?_, ?_⟩)⟩
    · intro b hb
      rw [List.mem_map] at hb
      obtain ⟨a, -, rfl⟩ := hb
      exact Nat.mod_lt _ (by decide)
    · rw [send_response_data_eq t data (by omega)] at e2
      cases e2
      rw [o2]
      show t.out ++ response_frame (t.request 6) (data.map (· % 256)) = _
      rw [ho, hr, response_frame]
      have e3 : (0xff + 0xd5 + (s.request 6 + 1) % 256 + (data.map (· % 256)).sum) % 256 =
          (0xff + 0xd5 + (s.request 6 + 1) + (data.map (· % 256)).sum) % 256 := by omega
      rw [e3]
    · simp only [List.length_append, List.length_cons, List.length_nil, List.length_map]
      omega

set_option maxRecDepth 100000 in
/-- C15 witness: the status query `0C` gets one response frame. -/
theorem C15_at_most_one_response_witness :
    (handle_frame no_card
        (holding [0x00, 0x00, 0xff, 0x02, 0xfe, 0xd4, 0x0c, 0x20, 0x00])).map (fun s => s.out) =
      some [0x00, 0x00, 0xff, 0x05, 0xfb, 0xd5, 0x0d, 0x00, 0x06, 0x00, 0x18, 0x00] ∧
    ∃ s1, handle_frame no_card (holding [0x00, 0x00, 0xff, 0x02, 0xfe, 0xd4, 0x0c, 0x20, 0x00]) =
        some s1 ∧
      ((s1.out = (holding [0x00, 0x00, 0xff, 0x02, 0xfe, 0xd4, 0x0c, 0x20, 0x00]).out ∧
          (holding [0x00, 0x00, 0xff, 0x02, 0xfe, 0xd4, 0x0c, 0x20, 0x00]).request 6 = 0xa0) ∨
        s1.out = (holding [0x00, 0x00, 0xff, 0x02, 0xfe, 0xd4, 0x0c, 0x20, 0x00]).out ++
          [0x00, 0x00, 0xff, 0x00, 0xff, 0x00] ∨
        ∃ P : List Nat, (∀ b ∈ P, b < 256) ∧
          s1.out = (holding [0x00, 0x00, 0xff, 0x02, 0xfe, 0xd4, 0x0c, 0x20, 0x00]).out ++
            ([0x00, 0x00, 0xff, P.length + 2, (256 - (P.length + 2)) % 256, 0xd5,
                ((holding [0x00, 0x00, 0xff, 0x02, 0xfe, 0xd4, 0x0c, 0x20, 0x00]).request 6 + 1)
                  % 256] ++ P ++
              [255 - (0xff + 0xd5 +
                  ((holding [0x00, 0x00, 0xff, 0x02, 0xfe, 0xd4, 0x0c, 0x20, 0x00]).request 6 + 1) +
                  P.sum) % 256, 0x00]) ∧
          ([0x00, 0x00, 0xff, P.length + 2, (256 - (P.length + 2)) % 256, 0xd5,
                ((holding [0x00, 0x00, 0xff, 0x02, 0xfe, 0xd4, 0x0c, 0x20, 0x00]).request 6 + 1)
                  % 256] ++ P ++
              [255 - (0xff + 0xd5 +
                  ((holding [0x00, 0x00, 0xff, 0x02, 0xfe, 0xd4, 0x0c, 0x20, 0x00]).request 6 + 1) +
                  P.sum) % 256, 0x00]).length = (P.length + 2) + 7) :=
  ⟨by rfl, C15_at_most_one_response no_card
    (holding [0x00, 0x00, 0xff, 0x02, 0xfe, 0xd4, 0x0c, 0x20, 0x00])⟩

/-- C20: responses always fit the response buffer. For every request and every result of
the driver, `handle_frame` returns (no access of `send_response` falls outside
`response.raw[128]`), and when a handler calls `send_response_data` the payload has at
most 78 bytes, the length field is the payload length plus 2 without wrap-around, at most
80, and the highest index `6 + L` written or sent is at most 86, inside the buffer. -/
theorem C20_responses_fit (nfc : Nfc) (s : State) :
    ∃ s1, handle_frame nfc s = some s1 ∧
      ((s1.out = s.out ∧ s1.response = s.response) ∨
        (s1.out = s.out ++ [0x00, 0x00, 0xff, 0x00, 0xff, 0x00] ∧ s1.response = s.response) ∨
        ∃ t data s2, t.out = s.out ∧ t.request 6 = s.request 6 ∧
          send_response_data t data = some s2 ∧ data.length ≤ 78 ∧
          s2.response 3 = data.length + 2 ∧ s2.response 3 ≤ 80 ∧ 6 + s2.response 3 ≤ 86 ∧
          6 + s2.response 3 < RAW_SIZE ∧ s1.response = s2.response ∧ s1.out = s2.out) := by
  obtain ⟨s1, e, h | h | ⟨t, data, s2, hlen, ho, hr, e2, o2, r2⟩⟩ := handle_frame_outcome nfc s
  · exact ⟨s1, e, Or.inl ⟨h.1, h.2.1⟩⟩
  · exact ⟨s1, e, Or.inr (Or.inl h)⟩
  · have h3 := send_response_data_len t s2 data (by omega) e2
    refine ⟨s1, e, Or.inr (Or.inr ⟨t, data, s2, ho, hr, e2, hlen, h3, ?_, ?_, ?_, r2, o2⟩)⟩
    · omega
    · omega
    · rw [RAW_SIZE]
      omega

/-- C16: wake-tone rejection. When the byte `0x55` is fed as the first byte of an
accumulation - the byte count is 0 before the call, or the call resets it because the
buffer is full (128) or the byte is late - `bana_feed` returns with the byte count at 0,
`handle_frame` is not invoked, nothing is sent and the driver is not called. At a later
position (byte count 1 to 127, byte not late) the wake-tone test does not fire: the byte
is stored at `request.raw[frame_len]` and the call continues with the preamble test and
the completion test as for any other byte; where neither of them fires the result is the
plain append. -/
theorem C16_wake_tone (nfc : Nfc) (s : State) (c : Int) (now now64 : Nat)
    (h55 : u8 c = 0x55) :
    ((s.frame_len = 0 ∨ s.frame_len = 128 ∨ 100000 < sub32 now s.time) →
      ∃ s1, bana_feed nfc s c now now64 = some s1 ∧ s1.frame_len = 0 ∧
        s1.dispatched = s.dispatched ∧ s1.out = s.out ∧ s1.calls = s.calls) ∧
    (1 ≤ s.frame_len → s.frame_len < 128 → sub32 now s.time ≤ 100000 →
      (appended s c now).request s.frame_len = 0x55 ∧
      (appended s c now).frame_len = s.frame_len + 1 ∧
      bana_feed nfc s c now now64 =
        feed_complete nfc (feed_resync (appended s c now)) now64 ∧
      (3 ≤ s.frame_len → (s.frame_len = 5 → s.request 3 ≠ 0) →
        s.frame_len + 1 ≠ (appended s c now).request 3 + 7 →
        bana_feed nfc s c now now64 = some (appended s c now))) := by
  constructor
  · intro h
    have hs : s.frame_len ≤ 128 ∨ 100000 < sub32 now s.time := by
      rcases h with h | h | h
      · exact Or.inl (by omega)
      · exact Or.inl (by omega)
      · exact Or.inr h
    obtain ⟨r, hr, hlt, hcases⟩ := bana_feed_cases nfc s c now now64 hs
    obtain ⟨f1, f2, f3, f4, f5, f6, f7⟩ := feed_reset_fields s (now % 2 ^ 32)
    rw [← hr] at f1 f2 f3 f4 f5 f6 f7
    have hfl : r.frame_len = 0 := by
      rw [hr, feed_reset_frame_len, RAW_SIZE, sub32_mod_left]
      split_ifs with h1
      · rfl
      · rcases h with h | h | h
        · exact h
        · exact absurd (Or.inl h) h1
        · exact absurd (Or.inr h) h1
    rcases hcases with ⟨-, -, e⟩ | ⟨a1, -⟩ | ⟨a1, -⟩ | ⟨a1, -⟩ | ⟨a1, -⟩
    · exact ⟨_, e, rfl, f5, f3, f4⟩
    · omega
    · omega
    · omega
    · exact absurd h55 (a1 hfl)
  · intro h1 h2 h3
    have e1 : (appended s c now).request s.frame_len = 0x55 := by
      simp only [appended]
      rw [mset_same, h55]
    have e2 : bana_feed nfc s c now now64 =
        feed_complete nfc (feed_resync (appended s c now)) now64 := by
      obtain ⟨-, hun⟩ := bana_feed_unfold nfc s c now now64 (Or.inl (by omega))
      rw [hun, feed_reset_fresh s now (by omega) h3]
      have ea : appended { s with time := now % 2 ^ 32 } c now = appended s c now := rfl
      have ew : feed_wake (appended s c now) = appended s c now := by
        have hn : ¬ ((appended s c now).frame_len = 1 ∧ (appended s c now).request 0 = 0x55) := by
          simp only [appended]
          omega
        rw [feed_wake, if_neg hn]
      rw [ea, ew]
    refine ⟨e1, rfl, e2, ?_⟩
    intro h4 h5 h6
    exact feed_plain nfc s c now now64 h2 h3 (by omega) (by omega) h5 h6

set_option maxRecDepth 100000 in
/-- C16 witness: `55` fed to the initial state is dropped, and `55` fed after
`00 00 FF 03` is stored at index 4. -/
theorem C16_wake_tone_witness :
    u8 0x55 = 0x55 ∧
    (bana_feed no_card init 0x55 0 0).map
        (fun s => (s.frame_len, s.dispatched.length, s.out, s.calls.length)) =
      some (0, 0, [], 0) ∧
    (bana_feed no_card (stored init (at_time 0 0 [0x00, 0x00, 0xff, 0x03])) 0x55 0 0).map
        (fun s => (s.frame_len, s.request 4)) = some (5, 0x55) := by
  obtain ⟨h1, h2⟩ := C16_wake_tone no_card init 0x55 0 0 (by decide)
  obtain ⟨s1, e, a, b, c, d⟩ := h1 (Or.inl rfl)
  refine ⟨by decide, ?_, by rfl⟩
  rw [e, Option.map_some', a, b, c, d]
  rfl

/-- C17: the activity state is written only on frame completion. From every reachable
state, a call of `bana_feed` returns and either invokes `handle_frame` (on a buffer whose
byte count is the length byte plus 7) and leaves the expiry timestamp at the 64-bit time
read on completion plus 10000000 (in 64-bit arithmetic; exactly `now64 + 10000000` when
that does not exceed 64 bits), or it does not invoke `handle_frame` and leaves the expiry
timestamp unchanged; and `bana_is_active` is true exactly when the 64-bit time is
strictly less than the expiry timestamp. -/
theorem C17_activity_on_completion (nfc : Nfc) (s : State) (hs : Reachable nfc s) (c : Int)
    (now now64 : Nat) :
    ∃ s1, bana_feed nfc s c now now64 = some s1 ∧
      ((s1.dispatched = s.dispatched ∧ s1.expire_time = s.expire_time) ∨
        ((∃ d, s1.dispatched = s.dispatched ++ [d] ∧ d.frame_len = d.request 3 + 7) ∧
          s1.expire_time = (now64 % 2 ^ 64 + BANA_EXPIRE_TIME) % 2 ^ 64 ∧
          (now64 + 10000000 < 2 ^ 64 → s1.expire_time = now64 + 10000000))) ∧
      ∀ t, bana_is_active s1 t = true ↔ t % 2 ^ 64 < s1.expire_time := by
  have hact : ∀ (s1 : State) (t : Nat),
      bana_is_active s1 t = true ↔ t % 2 ^ 64 < s1.expire_time := by
    intro s1 t
    simp [bana_is_active]
  have hw := wf_reachable nfc s hs
  obtain ⟨r, hr, hlt, hcases⟩ := bana_feed_cases nfc s c now now64 (Or.inl hw.1)
  obtain ⟨f1, f2, f3, f4, f5, f6, f7⟩ := feed_reset_fields s (now % 2 ^ 32)
  rw [← hr] at f1 f2 f3 f4 f5 f6 f7
  rcases hcases with ⟨-, -, e⟩ | ⟨-, -, e⟩ | ⟨-, -, e⟩ | ⟨a1, a2, s1, -, k, e⟩ | ⟨-, -, -, -, e⟩
  · exact ⟨_, e, Or.inl ⟨f5, f6⟩, hact _⟩
  · exact ⟨_, e, Or.inl ⟨f5, f6⟩, hact _⟩
  · exact ⟨_, e, Or.inl ⟨f5, f6⟩, hact _⟩
  · obtain ⟨-, -, -, k4, -⟩ := k
    refine ⟨_, e, Or.inr ⟨⟨Dispatch.mk (mset r.request r.frame_len (u8 c)) (r.frame_len + 1)
        (r.fed + 1), ?_, ?_⟩, rfl, ?_⟩, hact _⟩
    · show s1.dispatched = _
      rw [k4]
      simp only [arrived]
      rw [f5]
    · show r.frame_len + 1 = mset r.request r.frame_len (u8 c) 3 + 7
      rw [mset_other _ _ _ _ (by omega)]
      exact a2
    · intro hlt2
      show (now64 % 2 ^ 64 + BANA_EXPIRE_TIME) % 2 ^ 64 = _
      have e1 : now64 % 2 ^ 64 = now64 := Nat.mod_eq_of_lt (by omega)
      rw [BANA_EXPIRE_TIME, e1, Nat.mod_eq_of_lt hlt2]
  · exact ⟨_, e, Or.inl ⟨f5, f6⟩, hact _⟩



set_option maxRecDepth 100000 in
/-- C17 witness: after `00 00 FF 02 FE D4 0C 20` the byte `00` completes the status
query at 64-bit time 5000; one frame is dispatched and the expiry becomes 10005000. -/
theorem C17_activity_on_completion_witness :
    Reachable no_card
      (stored init (at_time 0 0 [0x00, 0x00, 0xff, 0x02, 0xfe, 0xd4, 0x0c, 0x20])) ∧
    (bana_feed no_card
        (stored init (at_time 0 0 [0x00, 0x00, 0xff, 0x02, 0xfe, 0xd4, 0x0c, 0x20]))
        0x00 0 5000).map (fun s => (s.dispatched.length, s.expire_time)) =
      some (1, 10005000) ∧
    ∃ s1, bana_feed no_card
        (stored init (at_time 0 0 [0x00, 0x00, 0xff, 0x02, 0xfe, 0xd4, 0x0c, 0x20]))
        0x00 0 5000 = some s1 ∧
      ∀ t, bana_is_active s1 t = true ↔ t % 2 ^ 64 < s1.expire_time := by
  have hr := stored_reachable no_card init _ Reachable.start status_head_plain
  obtain ⟨s1, e, -, h⟩ := C17_activity_on_completion no_card _ hr 0x00 0 5000
  exact ⟨hr, by rfl, s1, e, h⟩

/-- C18: an inbound ACK frame is dropped, not forwarded. From byte count 0 and with no
gap above 100 ms, feeding six bytes `00 00 FF 00 x y` (any `x`, `y`; the ACK frame is
`x = FF`, `y = 00`) never invokes `handle_frame` and sends nothing; the byte count is `k`
after `k < 6` bytes and 0 after the sixth. A frame `00 00 FF L ...` of `L + 7` bytes with
`1 ≤ L ≤ 121` fed right after is handed to `handle_frame` once, with
`request.raw[0 .. L + 7)` holding exactly its bytes. And in every reachable state no
dispatched frame has length byte 0. -/
theorem C18_inbound_ack_dropped (nfc : Nfc) (s : State) (i0 i1 i2 i3 i4 i5 : Input)
    (hs : s.frame_len = 0)
    (b0 : u8 i0.c = 0x00) (b1 : u8 i1.c = 0x00) (b2 : u8 i2.c = 0xff) (b3 : u8 i3.c = 0x00)
    (hg : gaps_ok i0.now [i1, i2, i3, i4, i5]) :
    (∀ k, k ≤ 6 → ∃ sk, feed_all nfc s ([i0, i1, i2, i3, i4, i5].take k) = some sk ∧
        sk.dispatched = s.dispatched ∧ sk.out = s.out ∧ sk.calls = s.calls ∧
        (k < 6 → sk.frame_len = k)) ∧
    (∃ T, feed_all nfc s [i0, i1, i2, i3, i4, i5] = some T ∧ T.frame_len = 0 ∧
        T.dispatched = s.dispatched ∧ T.out = s.out ∧
      ∀ (j0 j1 j2 j3 : Input) (rest : List Input) (L : Nat),
        u8 j0.c = 0x00 → u8 j1.c = 0x00 → u8 j2.c = 0xff → u8 j3.c = L → 1 ≤ L → L ≤ 121 →
        rest.length = L + 3 → gaps_ok j0.now (j1 :: j2 :: j3 :: rest) →
        ∃ s1 d, feed_all nfc T (j0 :: j1 :: j2 :: j3 :: rest) = some s1 ∧
          s1.dispatched = s.dispatched ++ [d] ∧ d.frame_len = L + 7 ∧
          (List.range (L + 7)).map d.request =
            (j0 :: j1 :: j2 :: j3 :: rest).map (fun i => u8 i.c) ∧
          s1.frame_len = 0) ∧
    ∀ s2, Reachable nfc s2 → ∀ d ∈ s2.dispatched, d.request 3 ≠ 0 := by
  obtain ⟨T, q, hT, -, hpre⟩ := ack_run nfc s i0 i1 i2 i3 i4 i5 hs b0 b1 b2 b3 hg
  obtain ⟨d1, d2, d3⟩ := quiet_end q
  obtain ⟨eT, hk⟩ := q
  refine ⟨?_, ⟨T, eT, hT, d1, d2, ?_⟩, ?_⟩
  · intro k hk6
    obtain ⟨sk, e1, a1, a2, a3⟩ := hk k (by simpa using hk6)
    refine ⟨sk, e1, a1, a2, a3, ?_⟩
    intro hlt
    obtain ⟨sk2, e2, a4⟩ := hpre k hlt
    rw [e1] at e2
    cases e2
    exact a4
  · intro j0 j1 j2 j3 rest L c0 c1 c2 c3 hL hL2 hlen hg2
    obtain ⟨s1, d, e, a1, a2, a3, a4⟩ :=
      frame_dispatch nfc T j0 j1 j2 j3 rest L hT c0 c1 c2 c3 hL hL2 hlen hg2
    exact ⟨s1, d, e, by rw [a1, d1], a2, a3, a4⟩
  · intro s2 h2 d hd
    exact ((wf_reachable nfc s2 h2).2.2.2.2.2 d hd).2.2.2.2.2.2

set_option maxRecDepth 100000 in
/-- C18 witness: the ACK frame `00 00 FF 00 FF 00` fed to the initial state, then the
status query `00 00 FF 02 FE D4 0C 20 00`. -/
theorem C18_inbound_ack_dropped_witness :
    (feed_all no_card init (at_time 0 0 [0x00, 0x00, 0xff, 0x00, 0xff, 0x00])).map
        (fun s => (s.frame_len, s.dispatched.length, s.out)) = some (0, 0, []) ∧
    (feed_all no_card init
        (at_time 0 0 [0x00, 0x00, 0xff, 0x00, 0xff, 0x00, 0x00, 0x00, 0xff, 0x02, 0xfe, 0xd4,
          0x0c, 0x20, 0x00])).map
        (fun s => (s.frame_len, s.dispatched.map (fun d => (List.range 9).map d.request))) =
      some (0, [[0x00, 0x00, 0xff, 0x02, 0xfe, 0xd4, 0x0c, 0x20, 0x00]]) := by
  obtain ⟨-, ⟨T, e, a, b, c, -⟩, -⟩ := C18_inbound_ack_dropped no_card init
    ⟨0x00, 0, 0⟩ ⟨0x00, 0, 0⟩ ⟨0xff, 0, 0⟩ ⟨0x00, 0, 0⟩ ⟨0xff, 0, 0⟩ ⟨0x00, 0, 0⟩ rfl
    (by decide) (by decide) (by decide) (by decide) (by simp [gaps_ok, sub32])
  refine ⟨?_, by rfl⟩
  have el : at_time 0 0 [0x00, 0x00, 0xff, 0x00, 0xff, 0x00] =
      [⟨0x00, 0, 0⟩, ⟨0x00, 0, 0⟩, ⟨0xff, 0, 0⟩, ⟨0x00, 0, 0⟩, ⟨0xff, 0, 0⟩, ⟨0x00, 0, 0⟩] := rfl
  rw [el, e, Option.map_some', a, b, c]
  rfl



/-- C19: every dispatched frame is well-framed. In every reachable state, when the byte
count is at least 3 the buffer starts with `00 00 FF`, and every invocation of
`handle_frame` was on a buffer that starts with `00 00 FF`, whose length byte `L`
satisfies `1 ≤ L ≤ 121` and whose byte count is `L + 7`. A frame `00 00 FF L ...` with
`L > 121` fed from byte count 0 with no gap above 100 ms is never dispatched: its first
128 bytes accumulate (byte count `k` after `k` bytes, nothing dispatched or sent), and
the next call finds the buffer full, resets it and starts over with that byte at byte
count 0. -/
theorem C19_well_framed (nfc : Nfc) (s : State) (hs : Reachable nfc s) :
    (3 ≤ s.frame_len → s.request 0 = 0x00 ∧ s.request 1 = 0x00 ∧ s.request 2 = 0xff) ∧
    (∀ d ∈ s.dispatched, d.request 0 = 0x00 ∧ d.request 1 = 0x00 ∧ d.request 2 = 0xff ∧
      1 ≤ d.request 3 ∧ d.request 3 ≤ 121 ∧ d.frame_len = d.request 3 + 7) ∧
    ∀ (i0 i1 i2 i3 next : Input) (body : List Input) (L : Nat), s.frame_len = 0 →
      u8 i0.c = 0x00 → u8 i1.c = 0x00 → u8 i2.c = 0xff → u8 i3.c = L → 121 < L →
      body.length = 124 → gaps_ok i0.now (i1 :: i2 :: i3 :: body) →
      (∀ k, k ≤ 128 →
        ∃ sk, feed_all nfc s ((i0 :: i1 :: i2 :: i3 :: body).take k) = some sk ∧
          sk.dispatched = s.dispatched ∧ sk.out = s.out ∧ sk.frame_len = k) ∧
      ∃ S s1, feed_all nfc s (i0 :: i1 :: i2 :: i3 :: body) = some S ∧ S.frame_len = 128 ∧
        bana_feed nfc S next.c next.now next.now64 = some s1 ∧
        s1.frame_len = (if u8 next.c = 0x55 then 0 else 1) ∧
        s1.dispatched = s.dispatched ∧ s1.out = s.out := by
  obtain ⟨w1, w2, w3, w4, w5, w6⟩ := wf_reachable nfc s hs
  refine ⟨w4, ?_, ?_⟩
  · intro d hd
    obtain ⟨d1, d2, d3, d4, d5, d6, d7⟩ := w6 d hd
    rw [RAW_SIZE] at d3
    exact ⟨d4, d5, d6, by omega, by omega, d1⟩
  · intro i0 i1 i2 i3 next body L h0 b0 b1 b2 b3 hL hlen hg
    obtain ⟨f1, f2, f3, f4, f5, f6, f7⟩ := feed_reset_fields s (i0.now % 2 ^ 32)
    have hr0 : (feed_reset s (i0.now % 2 ^ 32)).frame_len = 0 := by
      rw [feed_reset_frame_len, h0]
      simp
    have hrt : sub32 i0.now (feed_reset s (i0.now % 2 ^ 32)).time ≤ 100000 := by
      rw [f7, sub32_self]
      omega
    have hp := plain_ok_frame (feed_reset s (i0.now % 2 ^ 32)) i0 i1 i2 i3 body L hr0 hrt b0 b1
      b2 b3 (by omega) (by omega) (by omega) hg
    have hlen2 : (i0 :: i1 :: i2 :: i3 :: body).length = 128 := by
      simp only [List.length_cons, hlen]
    constructor
    · intro k hk
      obtain ⟨sk, e, a1, a2, -, a4⟩ :=
        reset_prefix nfc s i0 (i1 :: i2 :: i3 :: body) h0 hp k (by rw [hlen2]; exact hk)
      exact ⟨sk, e, a1, a2, a4⟩
    · obtain ⟨s1, s2, s3, s4, -⟩ :=
        stored_fields (i0 :: i1 :: i2 :: i3 :: body) (feed_reset s (i0.now % 2 ^ 32))
      have hfull : (stored (feed_reset s (i0.now % 2 ^ 32))
          (i0 :: i1 :: i2 :: i3 :: body)).frame_len = 128 := by
        rw [s1, hr0, hlen2]
      obtain ⟨T, e, t1, t2, -, -, t5, -⟩ := feed_low nfc
        { stored (feed_reset s (i0.now % 2 ^ 32)) (i0 :: i1 :: i2 :: i3 :: body) with
          frame_len := 0, fed := 0 } next.c next.now next.now64 (Nat.zero_le 2) (Or.inr rfl)
      refine ⟨_, T, (quiet_reset nfc s i0 _ hp).1, hfull, ?_, ?_, ?_, ?_⟩
      · rw [feed_full_as_empty nfc _ _ _ _ hfull]
        exact e
      · by_cases h55 : u8 next.c = 0x55
        · rw [if_pos h55]
          exact (t5 rfl).1 h55
        · rw [if_neg h55]
          exact ((t5 rfl).2 h55).1
      · rw [t1]
        exact s3.trans f5
      · rw [t2]
        exact s2.trans f3

set_option maxRecDepth 100000 in
/-- C19 witness: the 128 bytes `00 00 FF C8 07 07 ...` (length byte 200) are reachable
from the initial state and fill the buffer, which starts with `00 00 FF`; the status
query is dispatched with byte count 9. -/
theorem C19_well_framed_witness :
    Reachable no_card (stored init overlong) ∧ (stored init overlong).frame_len = 128 ∧
    ((stored init overlong).request 0 = 0x00 ∧ (stored init overlong).request 1 = 0x00 ∧
      (stored init overlong).request 2 = 0xff) ∧
    (feed_all no_card init
        (at_time 0 0 [0x00, 0x00, 0xff, 0x02, 0xfe, 0xd4, 0x0c, 0x20, 0x00])).map
        (fun s => s.dispatched.map (fun d => (d.request 3, d.frame_len))) = some [(2, 9)] :=
  ⟨overlong_reachable no_card, overlong_full,
    (C19_well_framed no_card (stored init overlong) (overlong_reachable no_card)).1
      (by rw [overlong_full]; decide),
    by rfl⟩



set_option maxRecDepth 100000 in
/-- C20 witness: a FeliCa read that asks for 9 blocks of a readable card is clamped to 4
blocks; the payload has 78 bytes, the length field is 80 and 87 bytes are sent. -/
theorem C20_responses_fit_witness :
    (handle_frame felica_readable
        (holding [0x00, 0x00, 0xff, 0x1a, 0xe6, 0xd4, 0xa0, 0x00, 0x00, 0x16, 0x06, 1, 2, 3, 4,
          5, 6, 7, 8, 0x01, 0x0b, 0x00, 0x09, 0x80, 0x00, 0x80, 0x01, 0x80, 0x02, 0x80, 0x03,
          0x00, 0x00])).map (fun s => (s.response 3, s.out.length)) = some (80, 87) ∧
    ∃ s1, handle_frame felica_readable
        (holding [0x00, 0x00, 0xff, 0x1a, 0xe6, 0xd4, 0xa0, 0x00, 0x00, 0x16, 0x06, 1, 2, 3, 4,
          5, 6, 7, 8, 0x01, 0x0b, 0x00, 0x09, 0x80, 0x00, 0x80, 0x01, 0x80, 0x02, 0x80, 0x03,
          0x00, 0x00]) = some s1 := by
  obtain ⟨s1, e, -⟩ := C20_responses_fit felica_readable
    (holding [0x00, 0x00, 0xff, 0x1a, 0xe6, 0xd4, 0xa0, 0x00, 0x00, 0x16, 0x06, 1, 2, 3, 4,
      5, 6, 7, 8, 0x01, 0x0b, 0x00, 0x09, 0x80, 0x00, 0x80, 0x01, 0x80, 0x02, 0x80, 0x03,
      0x00, 0x00])
  exact ⟨by rfl, s1, e⟩

end Bana
